import Mathlib

/-!
# PolynomialSolver: the solve orchestration layer

A shallow embedding of the JavaScript front end of PolynomialSolver
(`src/web/modules/solver.js`, `src/web/modules/utils.js`,
`docs/modules/fieldSelection.js`, `docs/modules/polynomialParser.js`).

The WebAssembly engine is an arbitrary collaborator: every entry point is a
function of an engine state that answers with a value or with a thrown value
and moves to a new engine state.  Every call that crosses into the engine is
written to a log, in the order the calls are made, together with its answer.

Numbers are JavaScript doubles in the source; the model uses `Int`, which is
exact for the safe integers (absolute value at most `2^53`).
-/

namespace PolynomialSolver

/-! ## JavaScript values that cross the engine boundary -/

/-- Value of a JavaScript `throw`.  `nullish` is `null` or `undefined`; every
other thrown value is seen by the code only through its `message` property
(`none` when the property is absent) and through the text `toString()` gives. -/
inductive Thrown where
  | nullish
  | value (message : Option String) (text : String)
  deriving DecidableEq, Repr

/-- Completion of a JavaScript call: a returned value or a thrown one. -/
inductive Res (α : Type) where
  | ok (a : α)
  | threw (e : Thrown)
  deriving DecidableEq, Repr

/-- Element of the `polynomials` array: a string, or a value for which
`typeof str !== 'string'`. -/
inductive JsValue where
  | str (s : String)
  | notString
  deriving DecidableEq, Repr

/-- The parsed system `systemResult.polynomials`; `size` is the answer of its
`size()` method. -/
structure PolySystem where
  handle : Nat
  size : Res Nat

/-- The `variables` property of a build result: absent, a sized indexable
collection (`size()` and `get(i)`), or a plain array. -/
inductive Variables where
  | absent
  | vector (size : Res Nat) (get : Nat → Res String)
  | array (items : List String)

/-- The object a `buildSystemFromStrings__*` entry point returns; `vars` is
its `variables` property (the word is reserved in Lean). -/
structure BuildResult where
  success : Bool
  error : Option String
  polynomials : Option PolySystem
  vars : Variables

/-- The three families of entry points, named by their suffix. -/
inductive FieldTag where
  | Rational
  | GaloisField
  | Real
  deriving DecidableEq, Repr

/-! ## `parseInt` and `isPrime` -/

/-- White space that `parseInt` skips at the start of its argument
(ECMAScript `WhiteSpace` and `LineTerminator`). -/
def isStrWhiteSpace (c : Char) : Bool :=
  c.toNat ∈ [0x09, 0x0A, 0x0B, 0x0C, 0x0D, 0x20, 0xA0, 0x1680, 0x2028, 0x2029,
    0x202F, 0x205F, 0x3000, 0xFEFF] || (0x2000 ≤ c.toNat && c.toNat ≤ 0x200A)

/-- Value of a digit in the given radix, if the character is one. -/
def digitValue (radix : Nat) (c : Char) : Option Nat :=
  let v : Option Nat :=
    if '0' ≤ c ∧ c ≤ '9' then some (c.toNat - '0'.toNat)
    else if 'a' ≤ c ∧ c ≤ 'z' then some (c.toNat - 'a'.toNat + 10)
    else if 'A' ≤ c ∧ c ≤ 'Z' then some (c.toNat - 'A'.toNat + 10)
    else none
  match v with
  | some d => if d < radix then some d else none
  | none => none

/-- Longest run of radix digits at the start of the text, as digit values. -/
def takeDigits (radix : Nat) : List Char → List Nat
  | [] => []
  | c :: cs =>
    match digitValue radix c with
    | some d => d :: takeDigits radix cs
    | none => []

/-- The builtin `parseInt(text)` with no radix argument: skip white space, read a sign,
read a `0x`/`0X` marker, then the longest run of digits.  `none` is `NaN`. -/
def parseInt (text : String) : Option Int :=
  let s := text.toList.dropWhile isStrWhiteSpace
  let negative := s.head? = some '-'
  let s := if s.head? = some '-' ∨ s.head? = some '+' then s.tail else s
  let hex := s.take 2 = ['0', 'x'] ∨ s.take 2 = ['0', 'X']
  let radix := if hex then 16 else 10
  let s := if hex then s.drop 2 else s
  match takeDigits radix s with
  | [] => none
  | ds =>
    let n : Nat := ds.foldl (fun acc d => acc * radix + d) 0
    some (if negative then -(n : Int) else (n : Int))

/-- The `for (let i = 3; i * i <= n; i += 2)` loop of `isPrime`, entered
with the current `i`. -/
def isPrime.loop (n i : Nat) : Bool :=
  if i * i ≤ n then
    if n % i = 0 then false else isPrime.loop n (i + 2)
  else true
termination_by n + 1 - i * i
decreasing_by
  have h : i * i < (i + 2) * (i + 2) := by nlinarith
  omega

/-- The function `isPrime(n)` of `fieldSelection.js`. -/
def isPrime (n : Int) : Bool :=
  if n < 2 then false
  else if n = 2 then true
  else if n % 2 = 0 then false
  else isPrime.loop n.toNat 3

/-! ## `Array.prototype.sort` on strings and `Set` insertion -/

/-- UTF-16 code units of a character. -/
def utf16 (c : Char) : List Nat :=
  if c.toNat < 0x10000 then [c.toNat]
  else [0xD800 + (c.toNat - 0x10000) / 0x400, 0xDC00 + (c.toNat - 0x10000) % 0x400]

/-- UTF-16 code units of a string, the sequence the default `sort()` compares. -/
def codeUnits (s : String) : List Nat :=
  (s.toList.map utf16).foldr (fun u acc => u ++ acc) []

/-- Lexicographic "at most" on code unit sequences. -/
def lexLe : List Nat → List Nat → Bool
  | [], _ => true
  | _ :: _, [] => false
  | a :: as, b :: bs => a < b || (a == b && lexLe as bs)

/-- Order of the default `sort()`: ascending by UTF-16 code units. -/
def jsLe (a b : String) : Prop := lexLe (codeUnits a) (codeUnits b) = true

instance jsLe.decidable : DecidableRel jsLe := fun a b =>
  inferInstanceAs (Decidable (lexLe (codeUnits a) (codeUnits b) = true))

/-- The call `array.sort()` on an array of strings.  The order is total and equal keys
are equal strings, so every sorting algorithm produces this list. -/
def jsSort (l : List String) : List String := l.insertionSort jsLe

/-- The call `set.add(v)` on a `Set` kept in insertion order. -/
def setAdd (set : List String) (v : String) : List String :=
  if v ∈ set then set else set ++ [v]

/-! ## The engine and the call log -/

/-- The WebAssembly module.  `StringVector` is `new Module.StringVector()`;
`push_back` and `delete` are the methods of the handle it returns, an object
named here by a number; `setPrime` is `Module.GaloisField.setPrime`; an entry
point written `name__Rational` in the source is `name .Rational` here.  A text
result that is absent is the empty text. -/
structure Engine (σ : Type) where
  StringVector : σ → Res Nat × σ
  push_back : Nat → String → σ → Res Unit × σ
  delete : Nat → σ → Res Unit × σ
  setPrime : Int → σ → Res Bool × σ
  buildSystemFromStrings : FieldTag → Nat → σ → Res BuildResult × σ
  printSystemSolution : FieldTag → PolySystem → σ → Res String × σ
  printCharacteristicEquations : FieldTag → PolySystem → σ → Res String × σ
  inputStringToBetterString : FieldTag → String → σ → Res String × σ

/-- One call into the engine, with its arguments and its answer.  The last
three are method calls on objects the engine returned: `system.size()`, and
`size()` and `get(i)` of the `variables` collection. -/
inductive Event where
  | StringVector (reply : Res Nat)
  | push_back (vec : Nat) (str : String) (reply : Res Unit)
  | delete (vec : Nat) (reply : Res Unit)
  | setPrime (n : Int) (reply : Res Bool)
  | buildSystemFromStrings (F : FieldTag) (vec : Nat) (reply : Res BuildResult)
  | printSystemSolution (F : FieldTag) (system : PolySystem) (reply : Res String)
  | printCharacteristicEquations (F : FieldTag) (system : PolySystem) (reply : Res String)
  | inputStringToBetterString (F : FieldTag) (line : String) (reply : Res String)
  | size (system : PolySystem) (reply : Res Nat)
  | variablesSize (reply : Res Nat)
  | variablesGet (i : Nat) (reply : Res String)

/-- A handle was constructed. -/
def Event.isCreated : Event → Bool
  | .StringVector (.ok _) => true
  | _ => false

/-- The constructor was called. -/
def Event.isConstructorCall : Event → Bool
  | .StringVector _ => true
  | _ => false

/-- The event is a `delete()` call. -/
def Event.isDelete : Event → Bool
  | .delete _ _ => true
  | _ => false

/-- The event is a `push_back` call. -/
def Event.isPushBack : Event → Bool
  | .push_back _ _ _ => true
  | _ => false

/-- The event is a `GaloisField.setPrime` call. -/
def Event.isSetPrime : Event → Bool
  | .setPrime _ _ => true
  | _ => false

/-- The event is a build-system call. -/
def Event.isBuild : Event → Bool
  | .buildSystemFromStrings _ _ _ => true
  | _ => false

/-- The event is a solve or characteristic-equations call. -/
def Event.isSolveOrCharacteristic : Event → Bool
  | .printSystemSolution _ _ _ => true
  | .printCharacteristicEquations _ _ _ => true
  | _ => false

/-- The value the call threw, if it threw. -/
def Event.thrown : Event → Option Thrown
  | .StringVector (.threw e) => some e
  | .push_back _ _ (.threw e) => some e
  | .delete _ (.threw e) => some e
  | .setPrime _ (.threw e) => some e
  | .buildSystemFromStrings _ _ (.threw e) => some e
  | .printSystemSolution _ _ (.threw e) => some e
  | .printCharacteristicEquations _ _ (.threw e) => some e
  | .inputStringToBetterString _ _ (.threw e) => some e
  | .size _ (.threw e) => some e
  | .variablesSize (.threw e) => some e
  | .variablesGet _ (.threw e) => some e
  | _ => none

/-- The event is a `size()` or `get(i)` call on the `variables` collection. -/
def Event.isVariablesRead : Event → Bool
  | .variablesSize _ => true
  | .variablesGet _ _ => true
  | _ => false

/-- A piece of JavaScript run against an engine in state `σ`: its completion,
the engine state it leaves, and the engine calls it made, oldest first. -/
def JS (σ α : Type) : Type := σ → Res α × σ × List Event

/-- A statement that completes with a value and calls nothing. -/
def JS.pure {σ α : Type} (a : α) : JS σ α := fun s => (.ok a, s, [])

/-- The `throw` statement. -/
def JS.throw {σ α : Type} (e : Thrown) : JS σ α := fun s => (.threw e, s, [])

/-- Sequencing: a throw in the first part skips the second. -/
def JS.bind {σ α β : Type} (m : JS σ α) (k : α → JS σ β) : JS σ β := fun s =>
  match m s with
  | (.ok a, s1, l1) =>
    match k a s1 with
    | (r, s2, l2) => (r, s2, l1 ++ l2)
  | (.threw e, s1, l1) => (.threw e, s1, l1)

/-- The `try { m } catch (e) { handler e }` statement. -/
def JS.tryCatch {σ α : Type} (m : JS σ α) (handler : Thrown → JS σ α) : JS σ α := fun s =>
  match m s with
  | (.ok a, s1, l1) => (.ok a, s1, l1)
  | (.threw e, s1, l1) =>
    match handler e s1 with
    | (r, s2, l2) => (r, s2, l1 ++ l2)

/-- The `try { m } finally { cleanup }` statement: the cleanup runs on every
exit and a throw of the cleanup replaces the completion of `m`. -/
def JS.tryFinally {σ α : Type} (m : JS σ α) (cleanup : JS σ Unit) : JS σ α := fun s =>
  match m s with
  | (r, s1, l1) =>
    match cleanup s1 with
    | (.ok _, s2, l2) => (r, s2, l1 ++ l2)
    | (.threw e, s2, l2) => (.threw e, s2, l1 ++ l2)

/-- A call of an engine entry point, logged with its answer. -/
def JS.call {σ α : Type} (f : σ → Res α × σ) (event : Res α → Event) : JS σ α := fun s =>
  match f s with
  | (r, s1) => (r, s1, [event r])

/-- A method call on an object the engine returned (`size()`, `get(i)`),
logged with its answer `r`: the object answers the same way every time it is
asked during one run, and the call leaves the engine state as it is. -/
def JS.method {σ α : Type} (r : Res α) (event : Res α → Event) : JS σ α := fun s =>
  (r, s, [event r])

instance JS.instMonad {σ : Type} : Monad (JS σ) where
  pure := JS.pure
  bind := JS.bind

/-! ## `utils.js` -/

/-- The value of `new Error('All elements must be strings')`. -/
def allElementsMustBeStrings : Thrown :=
  .value (some "All elements must be strings") "Error: All elements must be strings"

/-- The `for (const str of strings)` loop of `createStringVector`. -/
def createStringVector.fill {σ : Type} (E : Engine σ) (vec : Nat) : List JsValue → JS σ Unit
  | [] => pure ()
  | .notString :: _ => JS.throw allElementsMustBeStrings
  | .str str :: rest => do
    JS.call (E.push_back vec str) (Event.push_back vec str)
    createStringVector.fill E vec rest

/-- The function `createStringVector(strings)`.  When the constructor throws, `vec` is
still `null` in the `catch` block and the value is rethrown with no `delete`;
a later throw deletes the vector (a throw of `delete` is swallowed) and is
rethrown. -/
def createStringVector {σ : Type} (E : Engine σ) (strings : List JsValue) : JS σ Nat := do
  let vec ← JS.call E.StringVector Event.StringVector
  JS.tryCatch
    (do
      createStringVector.fill E vec strings
      pure vec)
    (fun error => do
      JS.tryCatch (JS.call (E.delete vec) (Event.delete vec)) (fun _ => pure ())
      JS.throw error)

/-- The record `validateInput` returns. -/
inductive Validation where
  | valid
  | invalid (message : String)
  deriving DecidableEq, Repr

/-- The value raised by reading a property of `null` or `undefined`. -/
def typeErrorOnNullish : Thrown :=
  .value (some "Cannot read properties of undefined") "TypeError: Cannot read properties of undefined"

/-- The `catch (error)` block of `validateInput`: `'...' + error.message`. -/
def validateInput.onError {σ : Type} : Thrown → JS σ Validation
  | .nullish => JS.throw typeErrorOnNullish
  | .value (some message) _ => pure (.invalid ("❌ Error setting prime number: " ++ message))
  | .value none _ => pure (.invalid ("❌ Error setting prime number: " ++ "undefined"))

/-- The function `validateInput(field, operation, polynomials, prime)`. -/
def validateInput {σ : Type} (E : Engine σ) (field _operation : String)
    (polynomials : List JsValue) (prime : String) : JS σ Validation :=
  if polynomials.length = 0 then
    pure (.invalid "❌ Please add at least one polynomial")
  else if field = "Fp" then
    match parseInt prime with
    | none => pure (.invalid "❌ Please enter a valid prime number ≥ 2 for finite field")
    | some primeNum =>
      if primeNum < 2 then
        pure (.invalid "❌ Please enter a valid prime number ≥ 2 for finite field")
      else if !isPrime primeNum then
        pure (.invalid ("❌ " ++ toString primeNum ++ " is not a prime number"))
      else
        JS.tryCatch
          (do
            let validPrime ← JS.call (E.setPrime primeNum) (Event.setPrime primeNum)
            if !validPrime then
              pure (.invalid "❌ Failed to set prime number in WebAssembly module")
            else
              pure .valid)
          validateInput.onError
  else
    pure .valid

/-! ## `solver.js` -/

/-- The record `solveWithCpp` returns: `{success: false, error}` or
`{success: true, result, systemSize, variableCount, variables, field, prime}`
(`prime` is `none` for `null`). -/
inductive SolveOutcome where
  | failure (error : String)
  | success (result : String) (systemSize : Nat) (variableCount : Nat)
      (variableNames : List String) (field : String) (prime : Option Int)
  deriving DecidableEq, Repr

/-- The loop `for (let i = 0; i < size; i++) variables.push(variableVector.get(i))`
over the indices still to read. -/
def solveWithCpp.readVector {σ : Type} (get : Nat → Res String) : List Nat → JS σ (List String)
  | [] => pure []
  | i :: rest => do
    let v ← JS.method (get i) (Event.variablesGet i)
    let vs ← solveWithCpp.readVector get rest
    pure (v :: vs)

/-- The block "Extract variables from systemResult": an absent `variables`
leaves the list empty; an object with a `size` function is read and sorted; an
object without one (a plain array) is not read, and the empty list is sorted;
a throw inside the inner `try` resets the list to `[]`. -/
def solveWithCpp.extractVariables {σ : Type} : Variables → JS σ (List String)
  | .absent => pure []
  | .array _ => pure (jsSort [])
  | .vector size get =>
    JS.tryCatch
      (do
        let size ← JS.method size Event.variablesSize
        let variableNames ← solveWithCpp.readVector get (List.range size)
        pure (jsSort variableNames))
      (fun _ => pure [])

/-- The expression `value || fallback` for a text that may be absent: an
absent or empty text is falsy. -/
def orDefault (value : Option String) (fallback : String) : String :=
  match value with
  | some v => if v ≠ "" then v else fallback
  | none => fallback

/-- The `error.message || error.toString() || fallback` chain. -/
def errorText (message : Option String) (text fallback : String) : String :=
  orDefault message (orDefault (some text) fallback)

/-- The outer `catch (error)` block of `solveWithCpp`.  Reading `.message` of
`null` or `undefined` raises a `TypeError` inside the block. -/
def solveWithCpp.onError {σ : Type} : Thrown → JS σ SolveOutcome
  | .nullish => JS.throw typeErrorOnNullish
  | .value message text =>
    pure (.failure ("WebAssembly error: " ++ errorText message text "Unknown WebAssembly error"))

/-- The record of the final `return {success: true, ...}` of `solveWithCpp`,
given the extracted variables and the value `system.size()` returned. -/
def solveWithCpp.successRecord (field prime : String) (variableNames : List String)
    (systemSize : Nat) (result : String) : SolveOutcome :=
  .success (orDefault (some result) "No result returned") systemSize variableNames.length
    variableNames field (if field = "Fp" then parseInt prime else none)

/-- The code after the three field branches of `solveWithCpp`, reached with
`systemResult`, `system` and `result` set by one of them: the variables are
extracted, then `system.size()` is called for the record. -/
def solveWithCpp.assemble {σ : Type} (field prime : String) (systemResult : BuildResult)
    (system : PolySystem) (result : String) : JS σ SolveOutcome := do
  let variableNames ← solveWithCpp.extractVariables systemResult.vars
  let systemSize ← JS.method system.size (Event.size system)
  pure (solveWithCpp.successRecord field prime variableNames systemSize result)

/-- The body shared, word for word, by the three field branches of
`solveWithCpp` (lines 17-45, 65-94 and 97-125), with the entry points of the
field `F`, followed by the code after the branches. -/
def solveWithCpp.branch {σ : Type} (E : Engine σ) (F : FieldTag) (field operation prime : String)
    (stringVector : Nat) : JS σ SolveOutcome := do
  let systemResult ← JS.call (E.buildSystemFromStrings F stringVector)
    (Event.buildSystemFromStrings F stringVector)
  if !systemResult.success then
    pure (.failure (orDefault systemResult.error "Unknown system building error"))
  else
    match systemResult.polynomials with
    | none => pure (.failure "Empty system is not allowed")
    | some system => do
      let size ← JS.method system.size (Event.size system)
      if size = 0 then
        pure (.failure "Empty system is not allowed")
      else if operation = "solve" then do
        let result ← JS.call (E.printSystemSolution F system) (Event.printSystemSolution F system)
        solveWithCpp.assemble field prime systemResult system result
      else if operation = "characteristic" then do
        let result ← JS.call (E.printCharacteristicEquations F system)
          (Event.printCharacteristicEquations F system)
        solveWithCpp.assemble field prime systemResult system result
      else
        pure (.failure ("Unknown operation: " ++ operation))

/-- The `try` block of `solveWithCpp` after `createStringVector` returned. -/
def solveWithCpp.body {σ : Type} (E : Engine σ) (field operation prime : String)
    (stringVector : Nat) : JS σ SolveOutcome :=
  if field = "Q" then
    solveWithCpp.branch E .Rational field operation prime stringVector
  else if field = "Fp" then
    match parseInt prime with
    | none => pure (.failure ("Invalid prime number: " ++ prime))
    | some primeNum =>
      if primeNum < 2 then
        pure (.failure ("Invalid prime number: " ++ prime))
      else do
        let primeSet ← JS.call (E.setPrime primeNum) (Event.setPrime primeNum)
        if !primeSet then
          pure (.failure ("Failed to set prime number: " ++ toString primeNum))
        else
          solveWithCpp.branch E .GaloisField field operation prime stringVector
  else if field = "R" then
    solveWithCpp.branch E .Real field operation prime stringVector
  else
    pure (.failure ("Unknown field type: " ++ field))

/-- The function `solveWithCpp(field, operation, polynomials, prime)`.  When
`createStringVector` throws, `stringVector` is still `null`: the `catch` block
runs and the `finally` block deletes nothing.  Otherwise the `finally` block
calls `stringVector.delete()` and swallows what it throws. -/
def solveWithCpp {σ : Type} (E : Engine σ) (field operation : String)
    (polynomials : List JsValue) (prime : String) : JS σ SolveOutcome := fun s =>
  match createStringVector E polynomials s with
  | (.threw error, s1, l1) =>
    match solveWithCpp.onError error s1 with
    | (r, s2, l2) => (r, s2, l1 ++ l2)
  | (.ok stringVector, s1, l1) =>
    match JS.tryFinally
        (JS.tryCatch (solveWithCpp.body E field operation prime stringVector) solveWithCpp.onError)
        (JS.tryCatch (JS.call (E.delete stringVector) (Event.delete stringVector))
          (fun _ => pure ())) s1 with
    | (r, s2, l2) => (r, s2, l1 ++ l2)

/-! ## `polynomialParser.js`: the first pass of `displayPolynomials` -/

/-- The loop `for (let i = 0; i < variables.size(); i++) allVariables.add(variables.get(i))`
over the indices still to read, for a collection whose `size()` answers
`size`.  The set is mutated in place, so the run returns the set as the loop
leaves it, with `true` when a `get` threw and ended the loop. -/
def displayPolynomials.addFromVector {σ : Type} (size : Nat) (get : Nat → Res String) :
    List Nat → List String → JS σ (List String × Bool)
  | [], allVariables => do
    let _ ← JS.method (.ok size) Event.variablesSize
    pure (allVariables, false)
  | i :: rest, allVariables => do
    let _ ← JS.method (.ok size) Event.variablesSize
    let got ← JS.tryCatch
      (do
        let v ← JS.method (get i) (Event.variablesGet i)
        pure (some v))
      (fun _ => pure none)
    match got with
    | some v => displayPolynomials.addFromVector size get rest (setAdd allVariables v)
    | none => pure (allVariables, true)

/-- The block "Extract variables" of the first pass, run on `systemResult`
(`none` when no field branch assigned it): the set afterwards, with `true`
when `size()` or `get(i)` threw. -/
def displayPolynomials.extract {σ : Type} (systemResult : Option BuildResult)
    (allVariables : List String) : JS σ (List String × Bool) :=
  match systemResult with
  | none => pure (allVariables, false)
  | some r =>
    if r.success then
      match r.vars with
      | .absent => pure (allVariables, false)
      | .array items => pure (items.foldl setAdd allVariables, false)
      | .vector size get => do
        let first ← JS.tryCatch
          (do
            let n ← JS.method size Event.variablesSize
            pure (some n))
          (fun _ => pure none)
        match first with
        | none => pure (allVariables, true)
        | some n =>
          if n > 0 then displayPolynomials.addFromVector n get (List.range n) allVariables
          else pure (allVariables, false)
    else pure (allVariables, false)

/-- The field switch around the single-line build call. -/
def displayPolynomials.build {σ : Type} (E : Engine σ) (field : String) (stringVector : Nat) :
    JS σ (Option BuildResult) :=
  if field = "Q" then do
    let r ← JS.call (E.buildSystemFromStrings .Rational stringVector)
      (Event.buildSystemFromStrings .Rational stringVector)
    pure (some r)
  else if field = "Fp" then do
    let r ← JS.call (E.buildSystemFromStrings .GaloisField stringVector)
      (Event.buildSystemFromStrings .GaloisField stringVector)
    pure (some r)
  else if field = "R" then do
    let r ← JS.call (E.buildSystemFromStrings .Real stringVector)
      (Event.buildSystemFromStrings .Real stringVector)
    pure (some r)
  else
    pure none

/-- The callback of the first `polynomials.forEach`: the set `allVariables`
after the line `poly`.  Names added before a throw stay in the set; every
throw is caught by the callback, and a throw before the `delete()` statement
skips it. -/
def displayPolynomials.collect {σ : Type} (E : Engine σ) (field : String) (poly : JsValue)
    (allVariables : List String) : JS σ (List String) :=
  JS.tryCatch
    (do
      let stringVector ← createStringVector E [poly]
      let systemResult ← displayPolynomials.build E field stringVector
      let extracted ← displayPolynomials.extract systemResult allVariables
      if extracted.2 then
        pure extracted.1
      else
        JS.tryCatch
          (do
            JS.call (E.delete stringVector) (Event.delete stringVector)
            pure extracted.1)
          (fun _ => pure extracted.1))
    (fun _ => pure allVariables)

/-- The first `polynomials.forEach` loop. -/
def displayPolynomials.collectAll {σ : Type} (E : Engine σ) (field : String) :
    List JsValue → List String → JS σ (List String)
  | [], allVariables => pure allVariables
  | poly :: rest, allVariables => do
    let added ← displayPolynomials.collect E field poly allVariables
    displayPolynomials.collectAll E field rest added

/-- The block "Set prime for GaloisField if needed". -/
def displayPolynomials.setPrime {σ : Type} (E : Engine σ) (field primeValue : String) : JS σ Unit :=
  if field = "Fp" then
    match parseInt primeValue with
    | none => pure ()
    | some primeNum =>
      if primeNum ≥ 2 && isPrime primeNum then
        JS.tryCatch
          (do
            let _ ← JS.call (E.setPrime primeNum) (Event.setPrime primeNum)
            pure ())
          (fun _ => pure ())
      else pure ()
  else pure ()

/-- The expression `fieldRadio ? fieldRadio.value : 'Q'`. -/
def displayPolynomials.field (fieldRadio : Option String) : String :=
  match fieldRadio with
  | some value => value
  | none => "Q"

/-- Lines 40-100 of `displayPolynomials`, for a non-empty `polynomials`: the
array `variables` the second pass labels every line with.  `fieldRadio` is the
value of the checked field radio button, if one is checked, and `primeValue`
the text of the modulus input. -/
def displayPolynomials.firstPass {σ : Type} (E : Engine σ) (fieldRadio : Option String)
    (primeValue : String) (polynomials : List JsValue) : JS σ (List String) := do
  let field := displayPolynomials.field fieldRadio
  displayPolynomials.setPrime E field primeValue
  let allVariables ← displayPolynomials.collectAll E field polynomials []
  let variableNames := jsSort allVariables
  pure (if variableNames.length = 0 then ["x", "y", "z"] else variableNames)

/-! ## `polynomialParser.js`: the second pass, `displayPolynomials` and `parsePolynomials` -/

/-- What the second pass shows for one line: the `class` of its `div`, the
text of the polynomial and the status after it. -/
structure LineView where
  className : String
  displayPoly : String
  status : String
  deriving DecidableEq, Repr

/-- The field switch around the fast formatter; `none` is `betterString` left
`undefined` because no field branch assigned it. -/
def displayPolynomials.format {σ : Type} (E : Engine σ) (field poly : String) :
    JS σ (Option String) :=
  if field = "Q" then do
    let betterString ← JS.call (E.inputStringToBetterString .Rational poly)
      (Event.inputStringToBetterString .Rational poly)
    pure (some betterString)
  else if field = "Fp" then do
    let betterString ← JS.call (E.inputStringToBetterString .GaloisField poly)
      (Event.inputStringToBetterString .GaloisField poly)
    pure (some betterString)
  else if field = "R" then do
    let betterString ← JS.call (E.inputStringToBetterString .Real poly)
      (Event.inputStringToBetterString .Real poly)
    pure (some betterString)
  else
    pure none

/-- The test `betterString && betterString !== "Error parsing polynomial"`. -/
def displayPolynomials.isFormatted (betterString : Option String) : Bool :=
  match betterString with
  | some text => text ≠ "" && text ≠ "Error parsing polynomial"
  | none => false

/-- The status the inner `try` block chooses after the build and the
`delete()`: the error text of a failed build when it has one, the fixed text
otherwise. -/
def displayPolynomials.buildStatus (systemResult : Option BuildResult) : String :=
  match systemResult with
  | some r =>
    match r.error with
    | some e => if !r.success && e ≠ "" then " ❌ " ++ e else " ❌ Error parsing polynomial"
    | none => " ❌ Error parsing polynomial"
  | none => " ❌ Error parsing polynomial"

/-- The `catch (detailedError)` block of the second pass. -/
def displayPolynomials.onDetailedError {σ : Type} : Thrown → JS σ String
  | .nullish => JS.throw typeErrorOnNullish
  | .value message text => pure (" ❌ " ++ errorText message text "Unknown parsing error")

/-- The inner `try`/`catch` of the second pass, "try to get detailed error":
the status of a line the fast formatter did not format. -/
def displayPolynomials.detailedStatus {σ : Type} (E : Engine σ) (field poly : String) :
    JS σ String :=
  JS.tryCatch
    (do
      let stringVector ← createStringVector E [.str poly]
      let systemResult ← displayPolynomials.build E field stringVector
      JS.call (E.delete stringVector) (Event.delete stringVector)
      pure (displayPolynomials.buildStatus systemResult))
    displayPolynomials.onDetailedError

/-- The outer `catch (error)` block of the second pass; `className` is still
`'polynomial-item'` and `displayPoly` still the line when it runs. -/
def displayPolynomials.onLineError {σ : Type} (poly : String) : Thrown → JS σ LineView
  | .nullish => JS.throw typeErrorOnNullish
  | .value message text =>
    pure ⟨"polynomial-item error", poly, " ❌ " ++ errorText message text "Unknown error"⟩

/-- The callback of the second `polynomials.forEach`, up to the values of
`className`, `displayPoly` and `status` it renders. -/
def displayPolynomials.renderLine {σ : Type} (E : Engine σ) (field poly : String) :
    JS σ LineView :=
  JS.tryCatch
    (do
      let betterString ← displayPolynomials.format E field poly
      if displayPolynomials.isFormatted betterString then
        pure ⟨"polynomial-item valid", orDefault betterString "", " ✅"⟩
      else do
        let status ← displayPolynomials.detailedStatus E field poly
        pure ⟨"polynomial-item error", poly, status⟩)
    (displayPolynomials.onLineError poly)

/-- The markup the second pass appends for the line with the given index. -/
def displayPolynomials.lineHtml (variableNames : List String) (index : Nat) (view : LineView) :
    String :=
  "<div class=\"" ++ view.className ++ "\">\n            <em class=\"math-expression\">" ++
    ("\\(\\wp_\x7b" ++ toString (index + 1) ++ "\x7d(" ++ ", ".intercalate variableNames ++ ")=" ++
      view.displayPoly ++ "\\)") ++
    "</em>" ++ view.status ++ "\n        </div>"

/-- The second `polynomials.forEach` loop: the markup accumulated in `html`,
entered at the line with the given index. -/
def displayPolynomials.secondPass {σ : Type} (E : Engine σ) (field : String)
    (variableNames : List String) : List String → Nat → String → JS σ String
  | [], _, html => pure html
  | poly :: rest, index, html => do
    let view ← displayPolynomials.renderLine E field poly
    displayPolynomials.secondPass E field variableNames rest (index + 1)
      (html ++ displayPolynomials.lineHtml variableNames index view)

/-- The text shown when there is no polynomial. -/
def placeholder : String := "<em>No polynomials entered yet...</em>"

/-- The function `displayPolynomials(polynomials)` on the list of lines
`parsePolynomials` stores: the markup assigned to `listDiv.innerHTML`.  The
typesetting request that follows the assignment is not part of the model. -/
def displayPolynomials {σ : Type} (E : Engine σ) (fieldRadio : Option String)
    (primeValue : String) (polynomials : List String) : JS σ String :=
  if polynomials.length = 0 then
    pure placeholder
  else do
    let variableNames ← displayPolynomials.firstPass E fieldRadio primeValue
      (polynomials.map JsValue.str)
    displayPolynomials.secondPass E (displayPolynomials.field fieldRadio) variableNames
      polynomials 0 ""

/-- The method `trim()` on the characters of a text: white space is removed
at the end, then at the start. -/
def trimChars (text : List Char) : List Char :=
  ((text.reverse.dropWhile isStrWhiteSpace).reverse).dropWhile isStrWhiteSpace

/-- The method `text.trim()`. -/
def jsTrim (text : String) : String := String.mk (trimChars text.toList)

/-- The method `split(separator)` on the characters of a text, for a
separator of one character: one piece more than there are separators. -/
def splitChars (separator : Char) : List Char → List (List Char)
  | [] => [[]]
  | c :: rest =>
    if c = separator then [] :: splitChars separator rest
    else
      match splitChars separator rest with
      | [] => [[c]]
      | piece :: pieces => (c :: piece) :: pieces

/-- The loop of `parsePolynomials` over `lines`: every line is trimmed and the
lines that are not empty afterwards are pushed. -/
def parsePolynomials.keep : List (List Char) → List String
  | [] => []
  | line :: rest =>
    if trimChars line ≠ [] then String.mk (trimChars line) :: parsePolynomials.keep rest
    else parsePolynomials.keep rest

/-- The list `parsePolynomials` hands to `setParsedPolynomials`, for the text
`input.value`. -/
def parsePolynomials.stored (value : String) : List String :=
  if jsTrim value = "" then []
  else parsePolynomials.keep (splitChars '\n' (jsTrim value).toList)

/-- The function `parsePolynomials()` for the text `input.value`: the markup it
leaves in `listDiv.innerHTML`.  The list it stores is
`parsePolynomials.stored`; it is stored before `displayPolynomials` is called. -/
def parsePolynomials {σ : Type} (E : Engine σ) (fieldRadio : Option String)
    (primeValue value : String) : JS σ String :=
  if jsTrim value = "" then
    pure placeholder
  else
    displayPolynomials E fieldRadio primeValue (parsePolynomials.stored value)

/-! ## A test double of the engine -/

/-- State of the test double: the next handle, the live vectors with their
lines, and the modulus last set. -/
structure MockState where
  nextHandle : Nat
  vectors : List (Nat × List String)
  modulus : Option Int
  deriving DecidableEq, Repr

/-- The state of a freshly loaded test double. -/
def MockState.initial : MockState := ⟨0, [], none⟩

/-- Lines held by a vector of the test double. -/
def MockState.lines (s : MockState) (vec : Nat) : List String :=
  match s.vectors.find? (fun p => p.1 = vec) with
  | some p => p.2
  | none => []

/-- Names the test double reports for a list of lines: every letter, once. -/
def mockNames (lines : List String) : List String :=
  ((lines.map String.toList).foldr (fun u acc => u ++ acc) []).foldl
    (fun acc c => if c.isAlpha then setAdd acc (String.singleton c) else acc) []

/-- A line the test double rejects: one holding a question mark. -/
def mockRejects (line : String) : Bool := line.toList.contains '?'

/-- The `variables` collection holding the given names. -/
def vectorOf (names : List String) : Variables :=
  .vector (.ok names.length) (fun i => .ok (names.getD i "undefined"))

/-- Build result of the test double for the lines of a vector. -/
def mockBuild (lines : List String) (vec : Nat) : BuildResult :=
  match lines.find? mockRejects with
  | some line => ⟨false, some ("Invalid polynomial: " ++ line), none, .absent⟩
  | none => ⟨true, none, some ⟨vec, .ok lines.length⟩, vectorOf (mockNames lines)⟩

/-- A test double of the engine that accepts every modulus, records it, and
never throws. -/
def mockEngine : Engine MockState where
  StringVector := fun s =>
    (.ok s.nextHandle,
      { s with nextHandle := s.nextHandle + 1, vectors := (s.nextHandle, []) :: s.vectors })
  push_back := fun vec str s =>
    (.ok (),
      { s with vectors := s.vectors.map (fun p => if p.1 = vec then (p.1, p.2 ++ [str]) else p) })
  delete := fun vec s => (.ok (), { s with vectors := s.vectors.filter (fun p => p.1 ≠ vec) })
  setPrime := fun n s => (.ok true, { s with modulus := some n })
  buildSystemFromStrings := fun _ vec s => (.ok (mockBuild (s.lines vec) vec), s)
  printSystemSolution := fun _ _ s => (.ok "solution", s)
  printCharacteristicEquations := fun _ _ s => (.ok "characteristic equations", s)
  inputStringToBetterString := fun _ line s =>
    (.ok (if mockRejects line then "Error parsing polynomial" else line), s)

/-- The value of `new Error('boom')`. -/
def boom : Thrown := .value (some "boom") "Error: boom"

/-- The test double with a `StringVector` constructor that throws. -/
def constructorThrows : Engine MockState :=
  { mockEngine with StringVector := fun s => (.threw boom, s) }

/-- The test double with build entry points that throw. -/
def buildThrows : Engine MockState :=
  { mockEngine with buildSystemFromStrings := fun _ _ s => (.threw boom, s) }

/-- The test double whose build succeeds with a system of size 1 and a
`variables` collection whose `size()` throws. -/
def variablesThrow : Engine MockState :=
  { mockEngine with
    buildSystemFromStrings := fun _ vec s =>
      (.ok ⟨true, none, some ⟨vec, .ok 1⟩, .vector (.threw boom) (fun _ => .threw boom)⟩, s) }

/-- The test double whose build reports the name `x` twice. -/
def duplicateNames : Engine MockState :=
  { mockEngine with
    buildSystemFromStrings := fun _ vec s =>
      (.ok ⟨true, none, some ⟨vec, .ok (s.lines vec).length⟩, vectorOf ["x", "x"]⟩, s) }

/-- The test double whose build fails with the empty text as error. -/
def emptyBuildError : Engine MockState :=
  { mockEngine with
    buildSystemFromStrings := fun _ _ s => (.ok ⟨false, some "", none, .absent⟩, s) }

/-- The test double whose build reports the names `y` and `x` as a plain
array. -/
def arrayNames : Engine MockState :=
  { mockEngine with
    buildSystemFromStrings := fun _ vec s =>
      (.ok ⟨true, none, some ⟨vec, .ok (s.lines vec).length⟩, .array ["y", "x"]⟩, s) }

/-- The test double whose build reports the names `y` and `x` as a sized
indexable collection. -/
def vectorNames : Engine MockState :=
  { mockEngine with
    buildSystemFromStrings := fun _ vec s =>
      (.ok ⟨true, none, some ⟨vec, .ok (s.lines vec).length⟩, vectorOf ["y", "x"]⟩, s) }

/-- The test double with a fast formatter that throws. -/
def formatterThrows : Engine MockState :=
  { mockEngine with inputStringToBetterString := fun _ _ s => (.threw boom, s) }

/-- The test double whose build reports success with a system of size 0. -/
def emptySystem : Engine MockState :=
  { mockEngine with
    buildSystemFromStrings := fun _ vec s => (.ok ⟨true, none, some ⟨vec, .ok 0⟩, .absent⟩, s) }

/-- The test double whose build throws a value without a message and with the
empty text as its text conversion (the empty string, for one). -/
def buildThrowsSilently : Engine MockState :=
  { mockEngine with buildSystemFromStrings := fun _ _ s => (.threw (.value none ""), s) }

/-! ## Vocabulary of the statements -/

/-- The names the block "Extract variables from systemResult" of `solveWithCpp`
leaves in `variables`; the block touches no engine state, so it is run here
against an engine without state. -/
def extractedNames (vars : Variables) : List String :=
  match (solveWithCpp.extractVariables (σ := Unit) vars ()).1 with
  | .ok variableNames => variableNames
  | .threw _ => []

/-- The `size()` and `get(i)` calls that block makes. -/
def extractionLog (vars : Variables) : List Event :=
  (solveWithCpp.extractVariables (σ := Unit) vars ()).2.2

/-- The family of entry points a recognised field name selects. -/
def fieldTag (field : String) : Option FieldTag :=
  if field = "Q" then some .Rational
  else if field = "Fp" then some .GaloisField
  else if field = "R" then some .Real
  else none

/-- The call of the entry point for a field and an operation name: the solve
entry point for `'solve'`, the characteristic-equations one otherwise. -/
def operationEvent (F : FieldTag) (operation : String) (system : PolySystem)
    (reply : Res String) : Event :=
  if operation = "solve" then .printSystemSolution F system reply
  else .printCharacteristicEquations F system reply

/-- What the outer `catch` block of `solveWithCpp` makes of the completion of
the `try` block. -/
def caught : Res SolveOutcome → Res SolveOutcome
  | .ok outcome => .ok outcome
  | .threw .nullish => .threw typeErrorOnNullish
  | .threw (.value message text) =>
    .ok (.failure ("WebAssembly error: " ++ errorText message text "Unknown WebAssembly error"))

/-- The event is a build call of the given family. -/
def Event.isBuildOf (F : FieldTag) : Event → Bool
  | .buildSystemFromStrings G _ _ => decide (G = F)
  | _ => false

/-- The first pass of `displayPolynomials` takes the name `v` from the
collection: it is an item of the array, or `get(i)` returns it for an index
below `size()` and no `get` before it threw. -/
def Variables.Reports (vars : Variables) (v : String) : Prop :=
  match vars with
  | .absent => False
  | .array items => v ∈ items
  | .vector (.threw _) _ => False
  | .vector (.ok n) get => ∃ i, i < n ∧ get i = .ok v ∧ ∀ j, j < i → ∃ w, get j = .ok w

/-- The name `v` is reported by a single-line build of the run that succeeded:
a build call of the log returned `success` and the first pass takes `v` from
its variables collection. -/
def ReportedIn (log : List Event) (v : String) : Prop :=
  ∃ F vec r, Event.buildSystemFromStrings F vec (.ok r) ∈ log ∧ r.success = true ∧
    r.vars.Reports v

/-- The number a run of decimal digits denotes. -/
def decimalValue (digits : List Char) : Nat :=
  digits.foldl (fun acc c => acc * 10 + (c.toNat - '0'.toNat)) 0

/-- The trimmed lines of a text that are not empty, as lists of characters. -/
def nonBlankPieces (text : List Char) : List (List Char) :=
  ((splitChars '\n' text).map trimChars).filter (fun line => line ≠ [])

/-- The lines of a text as the specification words them: the text is split on
line breaks, every line is trimmed, and the lines that are blank afterwards
are removed. -/
def nonBlankLines (value : String) : List String :=
  (nonBlankPieces value.toList).map String.mk

/-- The event is a call of a finite-field entry point: the build or the fast
formatter of the family `GaloisField`. -/
def Event.isFiniteField : Event → Bool
  | .buildSystemFromStrings .GaloisField _ _ => true
  | .inputStringToBetterString .GaloisField _ _ => true
  | _ => false

/-- The status of a line whose detailed diagnostic ended with the throw of
`e`: the inner `catch` block builds the status from a value that is not
nullish; reading `.message` of a nullish one raises a `TypeError` there, which
the outer `catch` block turns into the status. -/
def thrownStatus : Thrown → String
  | .nullish => " ❌ Cannot read properties of undefined"
  | .value message text => " ❌ " ++ errorText message text "Unknown parsing error"

/-- The event is a call of the fast formatter. -/
def Event.isFormatter : Event → Bool
  | .inputStringToBetterString _ _ _ => true
  | _ => false

/-- What the inner `catch (detailedError)` block of the second pass makes of a
thrown value. -/
def detailedCaught : Thrown → Res String
  | .nullish => .threw typeErrorOnNullish
  | .value message text => .ok (" ❌ " ++ errorText message text "Unknown parsing error")

/-- The `push_back` calls of a vector filled without a throw. -/
def pushEvents (vec : Nat) (strs : List String) : List Event :=
  strs.map (fun str => Event.push_back vec str (.ok ()))

end PolynomialSolver

namespace PolynomialSolver

/-! ## Primality check -/

/-- What the loop of `isPrime` decides: no candidate `i, i+2, i+4, ...` whose
square is at most `n` divides `n`. -/
theorem isPrime.loop_eq_true_iff (n i : Nat) :
    isPrime.loop n i = true ↔ ∀ k, (i + 2 * k) * (i + 2 * k) ≤ n → n % (i + 2 * k) ≠ 0 := by
  induction i using isPrime.loop.induct n with
  | case1 i hle hmod =>
    rw [isPrime.loop]
    simp only [hle, hmod, if_true]
    constructor
    · intro h; exact absurd h (by simp)
    · intro h; exact absurd hmod (by simpa using h 0 (by simpa using hle))
  | case2 i hle hmod ih =>
    rw [isPrime.loop]
    simp only [hle, hmod, if_true, if_false]
    rw [ih]
    constructor
    · intro h k
      cases k with
      | zero => intro _; simpa using hmod
      | succ k =>
        have := h k
        have e : i + 2 + 2 * k = i + 2 * (k + 1) := by ring
        rw [e] at this
        exact this
    · intro h k
      have := h (k + 1)
      have e : i + 2 + 2 * k = i + 2 * (k + 1) := by ring
      rw [e]
      exact this
  | case3 i hle =>
    rw [isPrime.loop]
    simp only [hle, if_false]
    constructor
    · intro _ k hk
      exfalso
      apply hle
      have : i * i ≤ (i + 2 * k) * (i + 2 * k) := Nat.mul_le_mul (by omega) (by omega)
      omega
    · intro _; trivial

/-- Trial division by the odd numbers from 3 on is trial division by every
number from 2 on, for an odd number. -/
theorem odd_trial_division (n : Nat) (hodd : n % 2 = 1) :
    (∀ k, (3 + 2 * k) * (3 + 2 * k) ≤ n → n % (3 + 2 * k) ≠ 0) ↔
      ∀ d, 2 ≤ d → d * d ≤ n → ¬ d ∣ n := by
  constructor
  · intro h d hd hdd hdvd
    rcases Nat.even_or_odd d with he | ho
    · have h2 : 2 ∣ n := Dvd.dvd.trans (even_iff_two_dvd.mp he) hdvd
      omega
    · obtain ⟨m, hm⟩ := ho
      have hm1 : 1 ≤ m := by omega
      have e : d = 3 + 2 * (m - 1) := by omega
      rw [e] at hdd hdvd
      exact h (m - 1) hdd (Nat.mod_eq_zero_of_dvd hdvd)
  · intro h k hk hmod
    exact h (3 + 2 * k) (by omega) hk (Nat.dvd_of_mod_eq_zero hmod)

/-- The check `isPrime` on a natural number at least 2 is trial division. -/
theorem isPrime_natCast_iff (n : Nat) (h2 : 2 ≤ n) :
    isPrime (n : Int) = true ↔ ∀ d : Nat, 2 ≤ d → d * d ≤ n → ¬ d ∣ n := by
  unfold isPrime
  have h1 : ¬ ((n : Int) < 2) := by omega
  simp only [h1, if_false]
  by_cases e2 : n = 2
  · subst e2
    simp only [Nat.cast_ofNat, if_true, true_iff]
    intro d hd hdd
    exfalso
    have : 2 * 2 ≤ d * d := Nat.mul_le_mul hd hd
    omega
  · have e2' : ¬ ((n : Int) = 2) := by omega
    simp only [e2', if_false]
    by_cases hev : (n : Int) % 2 = 0
    · simp only [hev, if_true]
      constructor
      · intro h; exact absurd h (by simp)
      · intro h
        exfalso
        apply h 2 (le_refl 2) (by omega)
        omega
    · simp only [hev, if_false, Int.toNat_ofNat]
      rw [isPrime.loop_eq_true_iff, odd_trial_division n (by omega)]

/-- The check `isPrime` is false below 2. -/
theorem isPrime_of_lt_two (n : Int) (h : n < 2) : isPrime n = false := by
  unfold isPrime
  simp [h]

/-- The check `isPrime` agrees with primality of natural numbers. -/
theorem isPrime_eq_true_iff (n : Int) : isPrime n = true ↔ Nat.Prime n.toNat := by
  by_cases h : n < 2
  · rw [isPrime_of_lt_two n h]
    constructor
    · intro h'; exact absurd h' (by simp)
    · intro hp
      have := hp.two_le
      omega
  · obtain ⟨m, rfl⟩ : ∃ m : Nat, n = m := ⟨n.toNat, by omega⟩
    have hm : 2 ≤ m := by omega
    rw [isPrime_natCast_iff m hm, Int.toNat_ofNat, Nat.prime_def_le_sqrt]
    constructor
    · intro hd
      exact ⟨hm, fun d h2 hs => hd d h2 (Nat.le_sqrt.mp hs)⟩
    · intro hd d h2 hs
      exact hd.2 d h2 (Nat.le_sqrt.mpr hs)

/-- C4: for every integer `n`, `isPrime(n)` is true exactly when `n` is a prime
number; it is false for every `n < 2`, true for `n = 2`, and for every other
`n` it is true if and only if no integer `d` with `2 ≤ d` and `d * d ≤ n`
divides `n`. -/
theorem isPrime_spec (n : Int) :
    (isPrime n = true ↔ Nat.Prime n.toNat) ∧
    (n < 2 → isPrime n = false) ∧
    (n = 2 → isPrime n = true) ∧
    (2 < n → (isPrime n = true ↔ ∀ d : Int, 2 ≤ d → d * d ≤ n → ¬ d ∣ n)) := by
  refine ⟨isPrime_eq_true_iff n, isPrime_of_lt_two n, ?_, ?_⟩
  · rintro rfl
    simp [isPrime]
  · intro h
    obtain ⟨m, rfl⟩ : ∃ m : Nat, n = m := ⟨n.toNat, by omega⟩
    rw [isPrime_natCast_iff m (by omega)]
    constructor
    · intro hd d h2 hdd hdvd
      obtain ⟨c, rfl⟩ : ∃ c : Nat, d = c := ⟨d.toNat, by omega⟩
      exact hd c (by omega) (by exact_mod_cast hdd) (by exact_mod_cast hdvd)
    · intro hd d h2 hdd hdvd
      exact hd d (by omega) (by exact_mod_cast hdd) (by exact_mod_cast hdvd)

/-- C4 at concrete numbers: 7 and 2 pass, 9 and -7 fail. -/
theorem isPrime_spec_witness :
    isPrime 7 = true ∧ isPrime 2 = true ∧ isPrime 9 = false ∧ isPrime (-7) = false := by
  refine ⟨?_, (isPrime_spec 2).2.2.1 rfl, ?_, (isPrime_spec (-7)).2.1 (by decide)⟩
  · exact (isPrime_spec 7).1.mpr (by show Nat.Prime 7; norm_num)
  · have h := (isPrime_spec 9).1
    cases h9 : isPrime 9 with
    | false => rfl
    | true => exact absurd (h.mp h9) (by show ¬ Nat.Prime 9; norm_num)

/-! ## Runs of `createStringVector` -/

theorem JS.bind_apply {σ α β : Type} (m : JS σ α) (k : α → JS σ β) (s : σ) :
    (m >>= k) s = JS.bind m k s := rfl

theorem JS.pure_apply {σ α : Type} (a : α) (s : σ) : (pure a : JS σ α) s = (.ok a, s, []) := rfl

/-- The fill loop either pushes every string, or stops at the first throw,
which is the only throw among its calls. -/
theorem createStringVector.fill_cases {σ : Type} (E : Engine σ) (vec : Nat)
    (strings : List JsValue) (s : σ) :
    (∃ s1 strs, createStringVector.fill E vec strings s = (.ok (), s1, pushEvents vec strs) ∧
        strings = strs.map JsValue.str) ∨
    (∃ e s1 pushes, createStringVector.fill E vec strings s = (.threw e, s1, pushes) ∧
        (∀ ev ∈ pushes, ev.isPushBack = true) ∧
        (∀ ev ∈ pushes, ev.thrown = none ∨ ev.thrown = some e) ∧
        (e = allElementsMustBeStrings ∨ ∃ ev ∈ pushes, ev.thrown = some e)) := by
  induction strings generalizing s with
  | nil =>
    left
    exact ⟨s, [], rfl, rfl⟩
  | cons v rest ih =>
    cases v with
    | notString =>
      right
      exact ⟨allElementsMustBeStrings, s, [], rfl, by simp, by simp, Or.inl rfl⟩
    | str str =>
      rcases hp : E.push_back vec str s with ⟨r | e, s1⟩
      · rcases ih s1 with ⟨s2, strs, h, hs⟩ | ⟨e, s2, pushes, h, h1, h2, h3⟩
        · left
          refine ⟨s2, str :: strs, ?_, by simp [hs]⟩
          simp [createStringVector.fill, JS.bind_apply, JS.bind, JS.call, hp, h, pushEvents]
        · right
          refine ⟨e, s2, Event.push_back vec str (.ok ()) :: pushes, ?_, ?_, ?_, ?_⟩
          · simp [createStringVector.fill, JS.bind_apply, JS.bind, JS.call, hp, h]
          · simpa [Event.isPushBack] using h1
          · simpa [Event.thrown] using h2
          · rcases h3 with h3 | ⟨ev, hev, ht⟩
            · exact Or.inl h3
            · exact Or.inr ⟨ev, List.mem_cons_of_mem _ hev, ht⟩
      · right
        refine ⟨e, s1, [Event.push_back vec str (.threw e)], ?_, ?_, ?_, ?_⟩
        · simp [createStringVector.fill, JS.bind_apply, JS.bind, JS.call, hp]
        · simp [Event.isPushBack]
        · simp [Event.thrown]
        · exact Or.inr ⟨_, List.mem_singleton.mpr rfl, rfl⟩

/-- The three ways `createStringVector` ends: the constructor throws and nothing
else is called; the vector is returned after one `push_back` per string; or a
later throw is rethrown after the vector has been deleted. -/
theorem createStringVector_cases {σ : Type} (E : Engine σ) (strings : List JsValue) (s : σ) :
    (∃ e s1, createStringVector E strings s = (.threw e, s1, [Event.StringVector (.threw e)])) ∨
    (∃ vec s1 strs, createStringVector E strings s =
        (.ok vec, s1, Event.StringVector (.ok vec) :: pushEvents vec strs) ∧
        strings = strs.map JsValue.str) ∨
    (∃ vec e s1 pushes d, createStringVector E strings s =
        (.threw e, s1, Event.StringVector (.ok vec) :: (pushes ++ [Event.delete vec d])) ∧
        (∀ ev ∈ pushes, ev.isPushBack = true) ∧
        (∀ ev ∈ pushes, ev.thrown = none ∨ ev.thrown = some e) ∧
        (e = allElementsMustBeStrings ∨ ∃ ev ∈ pushes, ev.thrown = some e)) := by
  rcases hc : E.StringVector s with ⟨vec | e, s1⟩
  · rcases createStringVector.fill_cases E vec strings s1 with
      ⟨s2, strs, h, hs⟩ | ⟨e, s2, pushes, h, h1, h2, h3⟩
    · right; left
      refine ⟨vec, s2, strs, ?_, hs⟩
      simp [createStringVector, JS.bind_apply, JS.bind, JS.call, JS.tryCatch, hc, h, JS.pure_apply]
    · right; right
      rcases hd : E.delete vec s2 with ⟨d, s3⟩
      refine ⟨vec, e, s3, pushes, d, ?_, h1, h2, h3⟩
      cases d <;>
        simp [createStringVector, JS.bind_apply, JS.bind, JS.call, JS.tryCatch, hc, h, hd,
          JS.pure_apply, JS.throw]
  · left
    refine ⟨e, s1, ?_⟩
    simp [createStringVector, JS.bind_apply, JS.bind, JS.call, hc]

/-! ## Runs of `solveWithCpp` -/

/-- The read loop does not touch the engine state. -/
theorem solveWithCpp.readVector_run {σ : Type} (get : Nat → Res String) (idxs : List Nat) (s : σ) :
    solveWithCpp.readVector get idxs s =
      ((solveWithCpp.readVector (σ := Unit) get idxs ()).1, s,
        (solveWithCpp.readVector (σ := Unit) get idxs ()).2.2) := by
  induction idxs with
  | nil => rfl
  | cons i rest ih =>
    cases hg : get i with
    | threw e => simp [solveWithCpp.readVector, JS.bind_apply, JS.bind, JS.method, hg]
    | ok v =>
      rcases h : solveWithCpp.readVector (σ := Unit) get rest () with ⟨r | e, u, l⟩ <;>
        rw [h] at ih <;>
        simp [solveWithCpp.readVector, JS.bind_apply, JS.bind, JS.method, hg, ih, h, pure, JS.pure]

/-- The block "Extract variables" always completes, with the same names and
calls in every engine state, and leaves the engine state as it is. -/
theorem solveWithCpp.extractVariables_run {σ : Type} (vars : Variables) (s : σ) :
    solveWithCpp.extractVariables vars s = (.ok (extractedNames vars), s, extractionLog vars) := by
  cases vars with
  | absent => rfl
  | array items => rfl
  | vector size get =>
    cases size with
    | threw e => rfl
    | ok n =>
      have h := solveWithCpp.readVector_run get (List.range n) s
      rcases hu : solveWithCpp.readVector (σ := Unit) get (List.range n) () with ⟨r | e, u, l⟩ <;>
        rw [hu] at h <;>
        simp [solveWithCpp.extractVariables, extractedNames, extractionLog, JS.tryCatch,
          JS.bind_apply, JS.bind, JS.method, h, hu, pure, JS.pure]

/-- The calls of the read loop are reads, and a throw among them ends the loop
with a throw. -/
theorem solveWithCpp.readVector_log (get : Nat → Res String) (idxs : List Nat) :
    (∀ ev ∈ (solveWithCpp.readVector (σ := Unit) get idxs ()).2.2, ev.isVariablesRead = true) ∧
    ((∃ ev ∈ (solveWithCpp.readVector (σ := Unit) get idxs ()).2.2, ev.thrown ≠ none) →
      ∃ e, (solveWithCpp.readVector (σ := Unit) get idxs ()).1 = .threw e) := by
  induction idxs with
  | nil => simp [solveWithCpp.readVector, pure, JS.pure]
  | cons i rest ih =>
    cases hg : get i with
    | threw e =>
      simp [solveWithCpp.readVector, JS.bind_apply, JS.bind, JS.method, hg, Event.isVariablesRead]
    | ok v =>
      rcases h : solveWithCpp.readVector (σ := Unit) get rest () with ⟨r | e, u, l⟩ <;>
        rw [h] at ih <;>
        simp [solveWithCpp.readVector, JS.bind_apply, JS.bind, JS.method, hg, h, pure, JS.pure,
          Event.isVariablesRead, Event.thrown] <;>
        simpa using ih

/-- The read loop over indices that all answer reads them in order. -/
theorem solveWithCpp.readVector_ok (get : Nat → Res String) (f : Nat → String)
    (idxs : List Nat) (h : ∀ i ∈ idxs, get i = .ok (f i)) :
    (solveWithCpp.readVector (σ := Unit) get idxs ()).1 = .ok (idxs.map f) := by
  induction idxs with
  | nil => rfl
  | cons i rest ih =>
    have hi : get i = .ok (f i) := h i (by simp)
    have hr := ih (fun j hj => h j (by simp [hj]))
    rcases hu : solveWithCpp.readVector (σ := Unit) get rest () with ⟨r | e, u, l⟩
    · rw [hu] at hr
      simp only [Res.ok.injEq] at hr
      simp [solveWithCpp.readVector, JS.bind_apply, JS.bind, JS.method, hi, hu, pure, JS.pure, hr]
    · rw [hu] at hr
      simp at hr

/-- Every call of the block "Extract variables" is a read of the collection. -/
theorem extractionLog_isVariablesRead (vars : Variables) :
    ∀ ev ∈ extractionLog vars, ev.isVariablesRead = true := by
  cases vars with
  | absent => simp [extractionLog, solveWithCpp.extractVariables, pure, JS.pure]
  | array items => simp [extractionLog, solveWithCpp.extractVariables, pure, JS.pure]
  | vector size get =>
    cases size with
    | threw e =>
      simp [extractionLog, solveWithCpp.extractVariables, JS.tryCatch, JS.bind_apply, JS.bind,
        JS.method, pure, JS.pure, Event.isVariablesRead]
    | ok n =>
      have h := (solveWithCpp.readVector_log get (List.range n)).1
      rcases hu : solveWithCpp.readVector (σ := Unit) get (List.range n) () with ⟨r | e, u, l⟩ <;>
        rw [hu] at h <;>
        simp [extractionLog, solveWithCpp.extractVariables, JS.tryCatch, JS.bind_apply, JS.bind,
          JS.method, hu, pure, JS.pure, Event.isVariablesRead] <;>
        simpa using h

/-- A throw of `size()` or `get(i)` leaves no variables. -/
theorem extractedNames_of_thrown (vars : Variables)
    (h : ∃ ev ∈ extractionLog vars, ev.thrown ≠ none) : extractedNames vars = [] := by
  cases vars with
  | absent => rfl
  | array items => rfl
  | vector size get =>
    cases size with
    | threw e => rfl
    | ok n =>
      have h2 := (solveWithCpp.readVector_log get (List.range n)).2
      rcases hu : solveWithCpp.readVector (σ := Unit) get (List.range n) () with ⟨r | e, u, l⟩
      · rw [hu] at h2
        exfalso
        have : ∃ ev ∈ l, ev.thrown ≠ none := by
          simpa [extractionLog, solveWithCpp.extractVariables, JS.tryCatch, JS.bind_apply, JS.bind,
            JS.method, hu, pure, JS.pure, Event.thrown] using h
        simpa using h2 this
      · simp [extractedNames, solveWithCpp.extractVariables, JS.tryCatch, JS.bind_apply, JS.bind,
          JS.method, hu, pure, JS.pure]

/-- Reading a list back through its indices. -/
theorem map_getD_range (names : List String) (d : String) :
    (List.range names.length).map (fun i => names.getD i d) = names := by
  apply List.ext_getElem
  · simp
  · intro i h1 h2
    simp [List.getD_eq_getElem?_getD, List.getElem?_eq_getElem h2]

/-- A collection that answers `size()` with the length of `names` and `get(i)`
with the `i`-th name is read in full and sorted. -/
theorem extractedNames_vector (names : List String) (get : Nat → Res String)
    (h : ∀ i (hi : i < names.length), get i = .ok (names.get ⟨i, hi⟩)) :
    extractedNames (.vector (.ok names.length) get) = jsSort names := by
  have hr := solveWithCpp.readVector_ok get (fun i => names.getD i "") (List.range names.length)
    (by
      intro i hi
      have hi : i < names.length := List.mem_range.mp hi
      rw [h i hi]
      simp [List.getD_eq_getElem?_getD, List.getElem?_eq_getElem hi])
  rw [map_getD_range] at hr
  rcases hu : solveWithCpp.readVector (σ := Unit) get (List.range names.length) ()
    with ⟨r | e, u, l⟩ <;>
    rw [hu] at hr <;>
    simp [extractedNames, solveWithCpp.extractVariables, JS.tryCatch, JS.bind_apply, JS.bind,
      JS.method, hu, pure, JS.pure] <;>
    simp at hr
  rw [hr]

/-- Every way a field branch of `solveWithCpp` ends, with the engine calls it
made. -/
theorem solveWithCpp.branch_cases {σ : Type} (E : Engine σ) (F : FieldTag)
    (field operation prime : String) (vec : Nat) (s : σ) :
    (∃ e s1, E.buildSystemFromStrings F vec s = (.threw e, s1) ∧
      solveWithCpp.branch E F field operation prime vec s =
        (.threw e, s1, [Event.buildSystemFromStrings F vec (.threw e)])) ∨
    (∃ r s1, E.buildSystemFromStrings F vec s = (.ok r, s1) ∧ r.success = false ∧
      solveWithCpp.branch E F field operation prime vec s =
        (.ok (.failure (orDefault r.error "Unknown system building error")), s1,
          [Event.buildSystemFromStrings F vec (.ok r)])) ∨
    (∃ r s1, E.buildSystemFromStrings F vec s = (.ok r, s1) ∧ r.success = true ∧
      r.polynomials = none ∧
      solveWithCpp.branch E F field operation prime vec s =
        (.ok (.failure "Empty system is not allowed"), s1,
          [Event.buildSystemFromStrings F vec (.ok r)])) ∨
    (∃ r s1 system e, E.buildSystemFromStrings F vec s = (.ok r, s1) ∧ r.success = true ∧
      r.polynomials = some system ∧ system.size = .threw e ∧
      solveWithCpp.branch E F field operation prime vec s =
        (.threw e, s1, [Event.buildSystemFromStrings F vec (.ok r),
          Event.size system (.threw e)])) ∨
    (∃ r s1 system, E.buildSystemFromStrings F vec s = (.ok r, s1) ∧ r.success = true ∧
      r.polynomials = some system ∧ system.size = .ok 0 ∧
      solveWithCpp.branch E F field operation prime vec s =
        (.ok (.failure "Empty system is not allowed"), s1,
          [Event.buildSystemFromStrings F vec (.ok r), Event.size system (.ok 0)])) ∨
    (∃ r s1 system k, E.buildSystemFromStrings F vec s = (.ok r, s1) ∧ r.success = true ∧
      r.polynomials = some system ∧ system.size = .ok k ∧ 0 < k ∧
      operation ≠ "solve" ∧ operation ≠ "characteristic" ∧
      solveWithCpp.branch E F field operation prime vec s =
        (.ok (.failure ("Unknown operation: " ++ operation)), s1,
          [Event.buildSystemFromStrings F vec (.ok r), Event.size system (.ok k)])) ∨
    (∃ r s1 system k e s2, E.buildSystemFromStrings F vec s = (.ok r, s1) ∧ r.success = true ∧
      r.polynomials = some system ∧ system.size = .ok k ∧ 0 < k ∧
      operation = "solve" ∧ E.printSystemSolution F system s1 = (.threw e, s2) ∧
      solveWithCpp.branch E F field operation prime vec s =
        (.threw e, s2, [Event.buildSystemFromStrings F vec (.ok r), Event.size system (.ok k),
          Event.printSystemSolution F system (.threw e)])) ∨
    (∃ r s1 system k t s2, E.buildSystemFromStrings F vec s = (.ok r, s1) ∧ r.success = true ∧
      r.polynomials = some system ∧ system.size = .ok k ∧ 0 < k ∧
      operation = "solve" ∧ E.printSystemSolution F system s1 = (.ok t, s2) ∧
      solveWithCpp.branch E F field operation prime vec s =
        (.ok (solveWithCpp.successRecord field prime (extractedNames r.vars) k t), s2,
          [Event.buildSystemFromStrings F vec (.ok r), Event.size system (.ok k),
            Event.printSystemSolution F system (.ok t)] ++
          (extractionLog r.vars ++ [Event.size system (.ok k)]))) ∨
    (∃ r s1 system k e s2, E.buildSystemFromStrings F vec s = (.ok r, s1) ∧ r.success = true ∧
      r.polynomials = some system ∧ system.size = .ok k ∧ 0 < k ∧
      operation = "characteristic" ∧
      E.printCharacteristicEquations F system s1 = (.threw e, s2) ∧
      solveWithCpp.branch E F field operation prime vec s =
        (.threw e, s2, [Event.buildSystemFromStrings F vec (.ok r), Event.size system (.ok k),
          Event.printCharacteristicEquations F system (.threw e)])) ∨
    (∃ r s1 system k t s2, E.buildSystemFromStrings F vec s = (.ok r, s1) ∧ r.success = true ∧
      r.polynomials = some system ∧ system.size = .ok k ∧ 0 < k ∧
      operation = "characteristic" ∧
      E.printCharacteristicEquations F system s1 = (.ok t, s2) ∧
      solveWithCpp.branch E F field operation prime vec s =
        (.ok (solveWithCpp.successRecord field prime (extractedNames r.vars) k t), s2,
          [Event.buildSystemFromStrings F vec (.ok r), Event.size system (.ok k),
            Event.printCharacteristicEquations F system (.ok t)] ++
          (extractionLog r.vars ++ [Event.size system (.ok k)]))) := by
  rcases hb : E.buildSystemFromStrings F vec s with ⟨r | e, s1⟩
  swap
  · left
    exact ⟨e, s1, rfl, by simp [solveWithCpp.branch, JS.bind_apply, JS.bind, JS.call, hb]⟩
  right
  cases hs : r.success
  · left
    exact ⟨r, s1, rfl, hs, by
      simp [solveWithCpp.branch, JS.bind_apply, JS.bind, JS.call, hb, hs, pure, JS.pure]⟩
  right
  cases hp : r.polynomials with
  | none =>
    left
    exact ⟨r, s1, rfl, hs, hp, by
      simp [solveWithCpp.branch, JS.bind_apply, JS.bind, JS.call, hb, hs, hp, pure, JS.pure]⟩
  | some system =>
    right
    cases hz : system.size with
    | threw e =>
      left
      exact ⟨r, s1, system, e, rfl, hs, hp, hz, by
        simp [solveWithCpp.branch, JS.bind_apply, JS.bind, JS.call, hb, hs, hp, hz, JS.method]⟩
    | ok k =>
      right
      rcases Nat.eq_zero_or_pos k with hk | hk
      · left
        subst hk
        exact ⟨r, s1, system, rfl, hs, hp, hz, by
          simp [solveWithCpp.branch, JS.bind_apply, JS.bind, JS.call, hb, hs, hp, hz, JS.method,
            pure, JS.pure]⟩
      right
      have hk0 : k ≠ 0 := by omega
      by_cases ho : operation = "solve"
      · right
        rcases hr : E.printSystemSolution F system s1 with ⟨t | e, s2⟩
        · right; left
          exact ⟨r, s1, system, k, t, s2, rfl, hs, hp, hz, hk, ho, hr, by
            simp [solveWithCpp.branch, solveWithCpp.assemble, JS.bind_apply, JS.bind, JS.call, hb,
              hs, hp, hz, JS.method, pure, JS.pure, hk0, ho, hr,
              solveWithCpp.extractVariables_run]⟩
        · left
          exact ⟨r, s1, system, k, e, s2, rfl, hs, hp, hz, hk, ho, hr, by
            simp [solveWithCpp.branch, solveWithCpp.assemble, JS.bind_apply, JS.bind, JS.call, hb,
              hs, hp, hz, JS.method, pure, JS.pure, hk0, ho, hr]⟩
      · by_cases hc : operation = "characteristic"
        · right; right; right
          rcases hr : E.printCharacteristicEquations F system s1 with ⟨t | e, s2⟩
          · right
            exact ⟨r, s1, system, k, t, s2, rfl, hs, hp, hz, hk, hc, hr, by
              simp [solveWithCpp.branch, solveWithCpp.assemble, JS.bind_apply, JS.bind, JS.call,
                hb, hs, hp, hz, JS.method, pure, JS.pure, hk0, ho, hc, hr,
                solveWithCpp.extractVariables_run]⟩
          · left
            exact ⟨r, s1, system, k, e, s2, rfl, hs, hp, hz, hk, hc, hr, by
              simp [solveWithCpp.branch, solveWithCpp.assemble, JS.bind_apply, JS.bind, JS.call,
                hb, hs, hp, hz, JS.method, pure, JS.pure, hk0, ho, hc, hr]⟩
        · left
          exact ⟨r, s1, system, k, rfl, hs, hp, hz, hk, ho, hc, by
            simp [solveWithCpp.branch, JS.bind_apply, JS.bind, JS.call, hb, hs, hp, hz, JS.method,
              pure, JS.pure, hk0, ho, hc]⟩

/-- Every way the `try` block of `solveWithCpp` reaches, or fails to reach, a
field branch. -/
theorem solveWithCpp.body_cases {σ : Type} (E : Engine σ) (field operation prime : String)
    (vec : Nat) (s : σ) :
    (fieldTag field = none ∧
      solveWithCpp.body E field operation prime vec s =
        (.ok (.failure ("Unknown field type: " ++ field)), s, [])) ∨
    (field = "Fp" ∧ (parseInt prime = none ∨ ∃ n, parseInt prime = some n ∧ n < 2) ∧
      solveWithCpp.body E field operation prime vec s =
        (.ok (.failure ("Invalid prime number: " ++ prime)), s, [])) ∨
    (∃ n e s1, field = "Fp" ∧ parseInt prime = some n ∧ 2 ≤ n ∧
      E.setPrime n s = (.threw e, s1) ∧
      solveWithCpp.body E field operation prime vec s =
        (.threw e, s1, [Event.setPrime n (.threw e)])) ∨
    (∃ n s1, field = "Fp" ∧ parseInt prime = some n ∧ 2 ≤ n ∧
      E.setPrime n s = (.ok false, s1) ∧
      solveWithCpp.body E field operation prime vec s =
        (.ok (.failure ("Failed to set prime number: " ++ toString n)), s1,
          [Event.setPrime n (.ok false)])) ∨
    (∃ n s1, field = "Fp" ∧ parseInt prime = some n ∧ 2 ≤ n ∧
      E.setPrime n s = (.ok true, s1) ∧
      solveWithCpp.body E field operation prime vec s =
        ((solveWithCpp.branch E .GaloisField field operation prime vec s1).1,
          (solveWithCpp.branch E .GaloisField field operation prime vec s1).2.1,
          Event.setPrime n (.ok true) ::
            (solveWithCpp.branch E .GaloisField field operation prime vec s1).2.2)) ∨
    (∃ F, fieldTag field = some F ∧ F ≠ .GaloisField ∧
      solveWithCpp.body E field operation prime vec s =
        solveWithCpp.branch E F field operation prime vec s) := by
  by_cases hq : field = "Q"
  · right; right; right; right; right
    exact ⟨.Rational, by simp [fieldTag, hq], by simp, by simp [solveWithCpp.body, hq]⟩
  by_cases hf : field = "Fp"
  · right
    cases hp : parseInt prime with
    | none =>
      left
      exact ⟨hf, Or.inl rfl, by simp [solveWithCpp.body, hf, hp, pure, JS.pure]⟩
    | some n =>
      by_cases hn : n < 2
      · left
        exact ⟨hf, Or.inr ⟨n, rfl, hn⟩, by simp [solveWithCpp.body, hf, hp, hn, pure, JS.pure]⟩
      right
      have hn2 : 2 ≤ n := by omega
      rcases hsp : E.setPrime n s with ⟨b | e, s1⟩
      · cases b
        · right; left
          exact ⟨n, s1, hf, rfl, hn2, hsp, by
            simp [solveWithCpp.body, hf, hp, hn, JS.bind_apply, JS.bind, JS.call, hsp, pure,
              JS.pure]⟩
        · right; right; left
          exact ⟨n, s1, hf, rfl, hn2, hsp, by
            simp [solveWithCpp.body, hf, hp, hn, JS.bind_apply, JS.bind, JS.call, hsp]⟩
      · left
        exact ⟨n, e, s1, hf, rfl, hn2, hsp, by
          simp [solveWithCpp.body, hf, hp, hn, JS.bind_apply, JS.bind, JS.call, hsp]⟩
  by_cases hr : field = "R"
  · right; right; right; right; right
    exact ⟨.Real, by simp [fieldTag, hr], by simp, by simp [solveWithCpp.body, hr]⟩
  left
  exact ⟨by simp [fieldTag, hq, hf, hr], by simp [solveWithCpp.body, hq, hf, hr, pure, JS.pure]⟩

/-- The outer `catch` block calls nothing and leaves the engine state. -/
theorem solveWithCpp.onError_run {σ : Type} (e : Thrown) (s : σ) :
    solveWithCpp.onError e s = (caught (.threw e), s, []) := by
  cases e <;> rfl

/-- When `createStringVector` throws, the `catch` block converts the throw and
nothing is deleted. -/
theorem solveWithCpp_not_created {σ : Type} (E : Engine σ) (field operation : String)
    (polynomials : List JsValue) (prime : String) (s s1 : σ) (e : Thrown) (l1 : List Event)
    (h : createStringVector E polynomials s = (.threw e, s1, l1)) :
    solveWithCpp E field operation polynomials prime s = (caught (.threw e), s1, l1) := by
  simp [solveWithCpp, h, solveWithCpp.onError_run]

/-- When `createStringVector` returns, the run is the `try` block, the `catch`
block on its completion, and one `delete()` on the vector as last call. -/
theorem solveWithCpp_created {σ : Type} (E : Engine σ) (field operation : String)
    (polynomials : List JsValue) (prime : String) (s s1 : σ) (vec : Nat) (l1 : List Event)
    (h : createStringVector E polynomials s = (.ok vec, s1, l1)) :
    ∃ d s3, solveWithCpp E field operation polynomials prime s =
      (caught (solveWithCpp.body E field operation prime vec s1).1, s3,
        l1 ++ ((solveWithCpp.body E field operation prime vec s1).2.2 ++ [Event.delete vec d])) := by
  rcases hb : solveWithCpp.body E field operation prime vec s1 with ⟨rb, s2, l2⟩
  rcases hd : E.delete vec s2 with ⟨d, s3⟩
  refine ⟨d, s3, ?_⟩
  cases rb with
  | ok o =>
    cases d <;>
      simp [solveWithCpp, h, hb, JS.tryFinally, JS.tryCatch, JS.call, hd, caught, pure, JS.pure]
  | threw e =>
    cases d <;>
      simp [solveWithCpp, h, hb, JS.tryFinally, JS.tryCatch, JS.call, hd,
        solveWithCpp.onError_run, pure, JS.pure]

/-- The three shapes of a run of `solveWithCpp`: the constructor throws; a later
throw inside `createStringVector`; or the `try` block runs on a filled vector. -/
theorem solveWithCpp_cases {σ : Type} (E : Engine σ) (field operation : String)
    (polynomials : List JsValue) (prime : String) (s : σ) :
    (∃ e s1, solveWithCpp E field operation polynomials prime s =
        (caught (.threw e), s1, [Event.StringVector (.threw e)])) ∨
    (∃ vec e s1 pushes d, solveWithCpp E field operation polynomials prime s =
        (caught (.threw e), s1, Event.StringVector (.ok vec) :: (pushes ++ [Event.delete vec d])) ∧
        (∀ ev ∈ pushes, ev.isPushBack = true) ∧
        (∀ ev ∈ pushes, ev.thrown = none ∨ ev.thrown = some e) ∧
        (e = allElementsMustBeStrings ∨ ∃ ev ∈ pushes, ev.thrown = some e)) ∨
    (∃ vec s1 strs d s3, polynomials = strs.map JsValue.str ∧
      (createStringVector E polynomials s).1 = .ok vec ∧
      solveWithCpp E field operation polynomials prime s =
        (caught (solveWithCpp.body E field operation prime vec s1).1, s3,
          Event.StringVector (.ok vec) :: (pushEvents vec strs ++
            ((solveWithCpp.body E field operation prime vec s1).2.2 ++ [Event.delete vec d])))) := by
  rcases createStringVector_cases E polynomials s with
    ⟨e, s1, h⟩ | ⟨vec, s1, strs, h, hs⟩ | ⟨vec, e, s1, pushes, d, h, h1, h2, h3⟩
  · left
    exact ⟨e, s1, solveWithCpp_not_created E field operation polynomials prime s s1 e _ h⟩
  · right; right
    obtain ⟨d, s3, hrun⟩ := solveWithCpp_created E field operation polynomials prime s s1 vec _ h
    exact ⟨vec, s1, strs, d, s3, hs, by rw [h], by simpa using hrun⟩
  · right; left
    exact ⟨vec, e, s1, pushes, d,
      solveWithCpp_not_created E field operation polynomials prime s s1 e _ h, h1, h2, h3⟩

/-- A read of the `variables` collection is no other kind of call. -/
theorem isVariablesRead_kinds (ev : Event) (h : ev.isVariablesRead = true) :
    ev.isConstructorCall = false ∧ ev.isDelete = false ∧ ev.isPushBack = false ∧
      ev.isSetPrime = false ∧ ev.isBuild = false ∧ ev.isSolveOrCharacteristic = false := by
  cases ev <;> simp_all [Event.isVariablesRead, Event.isConstructorCall, Event.isDelete,
    Event.isPushBack, Event.isSetPrime, Event.isBuild, Event.isSolveOrCharacteristic]

/-- A field branch constructs, fills and deletes no vector and sets no modulus. -/
theorem solveWithCpp.branch_log_kinds {σ : Type} (E : Engine σ) (F : FieldTag)
    (field operation prime : String) (vec : Nat) (s : σ) :
    ∀ ev ∈ (solveWithCpp.branch E F field operation prime vec s).2.2,
      ev.isConstructorCall = false ∧ ev.isDelete = false ∧ ev.isPushBack = false ∧
        ev.isSetPrime = false := by
  have hx : ∀ r : BuildResult, ∀ ev ∈ extractionLog r.vars,
      ev.isConstructorCall = false ∧ ev.isDelete = false ∧ ev.isPushBack = false ∧
        ev.isSetPrime = false := fun r ev hev =>
    have := isVariablesRead_kinds ev (extractionLog_isVariablesRead r.vars ev hev)
    ⟨this.1, this.2.1, this.2.2.1, this.2.2.2.1⟩
  rcases solveWithCpp.branch_cases E F field operation prime vec s with
    h | h | h | h | h | h | h | h | h | h <;>
  · repeat (obtain ⟨_, h⟩ := h)
    rw [h]
    simp only [List.cons_append, List.nil_append, List.forall_mem_cons, List.forall_mem_append]
    repeat' apply And.intro
    all_goals first
      | exact hx _
      | (intro ev hev; exact absurd hev (List.not_mem_nil ev))
      | rfl

/-- The `try` block of `solveWithCpp` constructs, fills and deletes no vector. -/
theorem solveWithCpp.body_log_kinds {σ : Type} (E : Engine σ) (field operation prime : String)
    (vec : Nat) (s : σ) :
    ∀ ev ∈ (solveWithCpp.body E field operation prime vec s).2.2,
      ev.isConstructorCall = false ∧ ev.isDelete = false ∧ ev.isPushBack = false := by
  have hb := fun F s1 ev hev =>
    solveWithCpp.branch_log_kinds E F field operation prime vec s1 ev hev
  rcases solveWithCpp.body_cases E field operation prime vec s with h | h | h | h | h | h <;>
  · repeat (obtain ⟨_, h⟩ := h)
    rw [h]
    try simp only [List.forall_mem_cons]
    repeat' apply And.intro
    all_goals first
      | (intro ev hev; exact absurd hev (List.not_mem_nil ev))
      | rfl
      | (intro ev hev; exact ⟨(hb _ _ ev hev).1, (hb _ _ ev hev).2.1, (hb _ _ ev hev).2.2.1⟩)

/-- The `push_back` calls of a filled vector are no constructor or delete
calls and do not throw. -/
theorem pushEvents_kinds (vec : Nat) (strs : List String) :
    ∀ ev ∈ pushEvents vec strs,
      ev.isConstructorCall = false ∧ ev.isDelete = false ∧ ev.isPushBack = true ∧
        ev.thrown = none := by
  intro ev hev
  obtain ⟨str, _, rfl⟩ := List.mem_map.mp hev
  exact ⟨rfl, rfl, rfl, rfl⟩

/-- A `push_back` call is no constructor call and no delete call. -/
theorem isPushBack_kinds (ev : Event) (h : ev.isPushBack = true) :
    ev.isConstructorCall = false ∧ ev.isDelete = false := by
  cases ev <;> simp_all [Event.isPushBack, Event.isConstructorCall, Event.isDelete]

/-- Counting over a log that starts with the constructor call and ends with
the delete call, with neither kind in between. -/
theorem countP_framed (first last : Event) (mid : List Event)
    (hmid : ∀ ev ∈ mid, ev.isConstructorCall = false ∧ ev.isDelete = false)
    (hf : first.isCreated = true) (hfd : first.isDelete = false)
    (hl : last.isDelete = true) (hlc : last.isCreated = false) :
    (first :: (mid ++ [last])).countP Event.isCreated = 1 ∧
      (first :: (mid ++ [last])).countP Event.isDelete = 1 := by
  have h1 : mid.countP Event.isCreated = 0 := by
    rw [List.countP_eq_zero]
    intro ev hev
    have := (hmid ev hev).1
    cases ev <;> simp_all [Event.isCreated, Event.isConstructorCall]
  have h2 : mid.countP Event.isDelete = 0 := by
    rw [List.countP_eq_zero]
    intro ev hev
    simp [(hmid ev hev).2]
  simp [List.countP_cons, List.countP_append, h1, h2, hf, hfd, hl, hlc]

/-! ## C1: the lifecycle of the `StringVector` handle -/

/-- C1, as amended: in every run of `solveWithCpp`, against every engine, either
the `StringVector` constructor throws, and then it is the only engine call, no
handle exists and nothing is deleted; or exactly one handle is created by the
first call, `delete()` is called exactly once, on that handle, and it is the
last engine call of the run. -/
theorem solveWithCpp_handle_lifecycle {σ : Type} (E : Engine σ) (field operation : String)
    (polynomials : List JsValue) (prime : String) (s : σ) :
    (∃ e, (solveWithCpp E field operation polynomials prime s).2.2 =
        [Event.StringVector (.threw e)] ∧
      (solveWithCpp E field operation polynomials prime s).2.2.countP Event.isCreated = 0 ∧
      (solveWithCpp E field operation polynomials prime s).2.2.countP Event.isDelete = 0) ∨
    (∃ vec mid d, (solveWithCpp E field operation polynomials prime s).2.2 =
        Event.StringVector (.ok vec) :: (mid ++ [Event.delete vec d]) ∧
      (∀ ev ∈ mid, ev.isConstructorCall = false ∧ ev.isDelete = false) ∧
      (solveWithCpp E field operation polynomials prime s).2.2.countP Event.isCreated = 1 ∧
      (solveWithCpp E field operation polynomials prime s).2.2.countP Event.isDelete = 1) := by
  rcases solveWithCpp_cases E field operation polynomials prime s with
    ⟨e, s1, h⟩ | ⟨vec, e, s1, pushes, d, h, h1, _, _⟩ | ⟨vec, s1, strs, d, s3, _, _, h⟩
  · left
    refine ⟨e, by rw [h], ?_, ?_⟩ <;> rw [h] <;> rfl
  · right
    have hmid : ∀ ev ∈ pushes, ev.isConstructorCall = false ∧ ev.isDelete = false :=
      fun ev hev => isPushBack_kinds ev (h1 ev hev)
    refine ⟨vec, pushes, d, by rw [h], hmid, ?_⟩
    rw [h]
    exact countP_framed _ _ pushes hmid rfl rfl rfl rfl
  · right
    have hmid : ∀ ev ∈ pushEvents vec strs ++ (solveWithCpp.body E field operation prime vec s1).2.2,
        ev.isConstructorCall = false ∧ ev.isDelete = false := by
      intro ev hev
      rcases List.mem_append.mp hev with hev | hev
      · exact ⟨(pushEvents_kinds vec strs ev hev).1, (pushEvents_kinds vec strs ev hev).2.1⟩
      · have := solveWithCpp.body_log_kinds E field operation prime vec s1 ev hev
        exact ⟨this.1, this.2.1⟩
    refine ⟨vec, pushEvents vec strs ++ (solveWithCpp.body E field operation prime vec s1).2.2, d,
      by rw [h]; simp, hmid, ?_⟩
    rw [h]
    have := countP_framed (Event.StringVector (.ok vec)) (Event.delete vec d) _ hmid rfl rfl rfl rfl
    simpa using this

/-- C1 fails as stated: against an engine whose `StringVector` constructor
throws, the run creates no handle and calls no `delete()`, where the claim
says one of each. -/
theorem solveWithCpp_handle_lifecycle_counterexample :
    (solveWithCpp constructorThrows "Q" "solve" [.str "x+y"] "" MockState.initial).2.2.countP
        Event.isCreated = 0 ∧
    (solveWithCpp constructorThrows "Q" "solve" [.str "x+y"] "" MockState.initial).2.2.countP
        Event.isDelete = 0 ∧
    ¬ ((solveWithCpp constructorThrows "Q" "solve" [.str "x+y"] "" MockState.initial).2.2.countP
          Event.isCreated = 1 ∧
      (solveWithCpp constructorThrows "Q" "solve" [.str "x+y"] "" MockState.initial).2.2.countP
          Event.isDelete = 1) := by
  decide

/-! ## C2: what becomes of a throw -/

/-- In a field branch, a throw of the branch is the throw of one of its calls;
a throw of a call other than a read of the variables ends the branch with
that throw; a throw while the variables are read leaves a success record with
no variables. -/
theorem solveWithCpp.branch_thrown {σ : Type} (E : Engine σ) (F : FieldTag)
    (field operation prime : String) (vec : Nat) (s : σ) :
    (∀ e, (solveWithCpp.branch E F field operation prime vec s).1 = .threw e →
      ∃ ev ∈ (solveWithCpp.branch E F field operation prime vec s).2.2, ev.thrown = some e) ∧
    (∀ ev ∈ (solveWithCpp.branch E F field operation prime vec s).2.2,
      ev.isVariablesRead = false → ∀ e, ev.thrown = some e →
        (solveWithCpp.branch E F field operation prime vec s).1 = .threw e) ∧
    (∀ ev ∈ (solveWithCpp.branch E F field operation prime vec s).2.2,
      ev.isVariablesRead = true → ev.thrown ≠ none →
        ∃ result systemSize field' prime',
          (solveWithCpp.branch E F field operation prime vec s).1 =
            .ok (.success result systemSize 0 [] field' prime')) := by
  have hx := fun r : BuildResult => extractionLog_isVariablesRead r.vars
  have hn := fun r : BuildResult => extractedNames_of_thrown r.vars
  rcases solveWithCpp.branch_cases E F field operation prime vec s with
    h | h | h | h | h | h | h | h | h | h <;>
  · repeat (obtain ⟨_, h⟩ := h)
    rw [h]
    simp only [List.cons_append, List.nil_append, List.forall_mem_cons, List.forall_mem_append]
    refine ⟨?_, ?_, ?_⟩
    · first
        | (intro e he; simp at he; subst he; simp [Event.thrown])
        | (intro e he; simp at he)
    · repeat' apply And.intro
      all_goals first
        | (intro ev hev; exact absurd hev (List.not_mem_nil ev))
        | (intro ev hev hv; rw [hx _ ev hev] at hv; exact absurd hv (by simp))
        | simp [Event.thrown, Event.isVariablesRead]
    · repeat' apply And.intro
      all_goals first
        | (intro ev hev; exact absurd hev (List.not_mem_nil ev))
        | (intro ev hev _ ht; rw [hn _ ⟨ev, hev, ht⟩]; exact ⟨_, _, _, _, rfl⟩)
        | simp [Event.thrown, Event.isVariablesRead]

/-- The same three facts for the whole `try` block of `solveWithCpp`. -/
theorem solveWithCpp.body_thrown {σ : Type} (E : Engine σ)
    (field operation prime : String) (vec : Nat) (s : σ) :
    (∀ e, (solveWithCpp.body E field operation prime vec s).1 = .threw e →
      ∃ ev ∈ (solveWithCpp.body E field operation prime vec s).2.2, ev.thrown = some e) ∧
    (∀ ev ∈ (solveWithCpp.body E field operation prime vec s).2.2,
      ev.isVariablesRead = false → ∀ e, ev.thrown = some e →
        (solveWithCpp.body E field operation prime vec s).1 = .threw e) ∧
    (∀ ev ∈ (solveWithCpp.body E field operation prime vec s).2.2,
      ev.isVariablesRead = true → ev.thrown ≠ none →
        ∃ result systemSize field' prime',
          (solveWithCpp.body E field operation prime vec s).1 =
            .ok (.success result systemSize 0 [] field' prime')) := by
  rcases solveWithCpp.body_cases E field operation prime vec s with
    ⟨_, h⟩ | ⟨_, _, h⟩ | ⟨n, e, s1, _, _, _, _, h⟩ | ⟨n, s1, _, _, _, _, h⟩ |
    ⟨n, s1, _, _, _, _, h⟩ | ⟨F, _, _, h⟩
  · rw [h]; simp
  · rw [h]; simp
  · rw [h]; simp [Event.thrown, Event.isVariablesRead]
  · rw [h]; simp [Event.thrown, Event.isVariablesRead]
  · rw [h]
    obtain ⟨h1, h2, h3⟩ := solveWithCpp.branch_thrown E .GaloisField field operation prime vec s1
    refine ⟨?_, ?_, ?_⟩
    · intro e he
      obtain ⟨ev, hev, ht⟩ := h1 e he
      exact ⟨ev, List.mem_cons_of_mem _ hev, ht⟩
    · intro ev hev hv e ht
      rcases List.mem_cons.mp hev with rfl | hev
      · simp [Event.thrown] at ht
      · exact h2 ev hev hv e ht
    · intro ev hev hv ht
      rcases List.mem_cons.mp hev with rfl | hev
      · simp [Event.isVariablesRead] at hv
      · exact h3 ev hev hv ht
  · rw [h]
    exact solveWithCpp.branch_thrown E F field operation prime vec s

/-- The three tiers of the text the `catch` block shows. -/
theorem errorText_tiers (message : Option String) (text : String) :
    (∃ m, message = some m ∧ m ≠ "" ∧
      errorText message text "Unknown WebAssembly error" = m) ∨
    ((message = none ∨ message = some "") ∧ text ≠ "" ∧
      errorText message text "Unknown WebAssembly error" = text) ∨
    ((message = none ∨ message = some "") ∧ text = "" ∧
      errorText message text "Unknown WebAssembly error" = "Unknown WebAssembly error") := by
  cases message with
  | none =>
    by_cases ht : text = ""
    · right; right; exact ⟨Or.inl rfl, ht, by simp [errorText, orDefault, ht]⟩
    · right; left; exact ⟨Or.inl rfl, ht, by simp [errorText, orDefault, ht]⟩
  | some m =>
    by_cases hm : m = ""
    · subst hm
      by_cases ht : text = ""
      · right; right; exact ⟨Or.inr rfl, ht, by simp [errorText, orDefault, ht]⟩
      · right; left; exact ⟨Or.inr rfl, ht, by simp [errorText, orDefault, ht]⟩
    · left; exact ⟨m, rfl, hm, by simp [errorText, orDefault, hm]⟩

/-- C2, as amended: in every run of `solveWithCpp`, against every engine:
(1) when no engine call throws `null` or `undefined`, the run returns a record
and no exception escapes; (2) when a call other than `delete()` and other than
a read of the variables collection throws a value, the record is
`{success: false, error: 'WebAssembly error: ' + shown}`, where `shown` is the
value's message, or its text conversion when the message is absent or empty,
or `'Unknown WebAssembly error'` when that is empty too; (3) when `size()` or
`get(i)` of the variables collection throws, the inner `catch` swallows it and
the run returns a success record with no variables. -/
theorem solveWithCpp_catches {σ : Type} (E : Engine σ) (field operation : String)
    (polynomials : List JsValue) (prime : String) (s : σ) :
    ((∀ ev ∈ (solveWithCpp E field operation polynomials prime s).2.2,
        ev.thrown ≠ some .nullish) →
      ∃ outcome, (solveWithCpp E field operation polynomials prime s).1 = .ok outcome) ∧
    (∀ ev ∈ (solveWithCpp E field operation polynomials prime s).2.2,
      ev.isDelete = false → ev.isVariablesRead = false →
      ∀ message text, ev.thrown = some (.value message text) →
        ∃ shown, (solveWithCpp E field operation polynomials prime s).1 =
            .ok (.failure ("WebAssembly error: " ++ shown)) ∧
          ((∃ m, message = some m ∧ m ≠ "" ∧ shown = m) ∨
            ((message = none ∨ message = some "") ∧ text ≠ "" ∧ shown = text) ∨
            ((message = none ∨ message = some "") ∧ text = "" ∧
              shown = "Unknown WebAssembly error"))) ∧
    (∀ ev ∈ (solveWithCpp E field operation polynomials prime s).2.2,
      ev.isVariablesRead = true → ev.thrown ≠ none →
        ∃ result systemSize field' prime',
          (solveWithCpp E field operation polynomials prime s).1 =
            .ok (.success result systemSize 0 [] field' prime')) := by
  have tiers : ∀ message text, ∃ shown,
      caught (.threw (.value message text)) = .ok (.failure ("WebAssembly error: " ++ shown)) ∧
      ((∃ m, message = some m ∧ m ≠ "" ∧ shown = m) ∨
        ((message = none ∨ message = some "") ∧ text ≠ "" ∧ shown = text) ∨
        ((message = none ∨ message = some "") ∧ text = "" ∧
          shown = "Unknown WebAssembly error")) := by
    intro message text
    refine ⟨errorText message text "Unknown WebAssembly error", rfl, ?_⟩
    rcases errorText_tiers message text with ⟨m, h1, h2, h3⟩ | ⟨h1, h2, h3⟩ | ⟨h1, h2, h3⟩
    · exact Or.inl ⟨m, h1, h2, h3⟩
    · exact Or.inr (Or.inl ⟨h1, h2, h3⟩)
    · exact Or.inr (Or.inr ⟨h1, h2, h3⟩)
  rcases solveWithCpp_cases E field operation polynomials prime s with
    ⟨e, s1, h⟩ | ⟨vec, e, s1, pushes, d, h, h1, h2, h3⟩ | ⟨vec, s1, strs, d, s3, _, _, h⟩
  · rw [h]
    refine ⟨?_, ?_, ?_⟩
    · intro hn
      cases e with
      | nullish => exact absurd rfl (hn _ (List.mem_singleton.mpr rfl))
      | value m t => exact ⟨_, rfl⟩
    · intro ev hev _ _ message text ht
      rw [List.mem_singleton.mp hev] at ht
      simp only [Event.thrown, Option.some.injEq] at ht
      subst ht
      exact tiers message text
    · intro ev hev hv
      rw [List.mem_singleton.mp hev] at hv
      simp [Event.isVariablesRead] at hv
  · rw [h]
    have hmem : ∀ ev ∈ Event.StringVector (.ok vec) :: (pushes ++ [Event.delete vec d]),
        ev = Event.StringVector (.ok vec) ∨ ev ∈ pushes ∨ ev = Event.delete vec d := by
      intro ev hev
      simpa using hev
    refine ⟨?_, ?_, ?_⟩
    · intro hn
      cases e with
      | value m t => exact ⟨_, rfl⟩
      | nullish =>
        rcases h3 with h3 | ⟨ev, hev, ht⟩
        · exact absurd h3 (by simp [allElementsMustBeStrings])
        · exact absurd ht (hn ev (by simp [hev]))
    · intro ev hev hd hv message text ht
      rcases hmem ev hev with rfl | hp | rfl
      · simp [Event.thrown] at ht
      · rcases h2 ev hp with hnone | hsome
        · rw [hnone] at ht; exact absurd ht (by simp)
        · rw [hsome] at ht
          simp only [Option.some.injEq] at ht
          subst ht
          exact tiers message text
      · simp [Event.isDelete] at hd
    · intro ev hev hv
      rcases hmem ev hev with rfl | hp | rfl
      · simp [Event.isVariablesRead] at hv
      · have := h1 ev hp
        cases ev <;> simp_all [Event.isVariablesRead, Event.isPushBack]
      · simp [Event.isVariablesRead] at hv
  · rw [h]
    obtain ⟨b1, b2, b3⟩ := solveWithCpp.body_thrown E field operation prime vec s1
    have hmem : ∀ ev ∈ Event.StringVector (.ok vec) :: (pushEvents vec strs ++
          ((solveWithCpp.body E field operation prime vec s1).2.2 ++ [Event.delete vec d])),
        ev = Event.StringVector (.ok vec) ∨ ev ∈ pushEvents vec strs ∨
          ev ∈ (solveWithCpp.body E field operation prime vec s1).2.2 ∨
          ev = Event.delete vec d := by
      intro ev hev
      simpa using hev
    refine ⟨?_, ?_, ?_⟩
    · intro hn
      cases hb : (solveWithCpp.body E field operation prime vec s1).1 with
      | ok o => exact ⟨o, rfl⟩
      | threw e =>
        cases e with
        | value m t => exact ⟨_, rfl⟩
        | nullish =>
          obtain ⟨ev, hev, ht⟩ := b1 _ hb
          exact absurd ht (hn ev (by simp [hev]))
    · intro ev hev hd hv message text ht
      rcases hmem ev hev with rfl | hp | hbody | rfl
      · simp [Event.thrown] at ht
      · rw [(pushEvents_kinds vec strs ev hp).2.2.2] at ht
        exact absurd ht (by simp)
      · rw [b2 ev hbody hv _ ht]
        exact tiers message text
      · simp [Event.isDelete] at hd
    · intro ev hev hv ht
      rcases hmem ev hev with rfl | hp | hbody | rfl
      · simp [Event.isVariablesRead] at hv
      · rw [(pushEvents_kinds vec strs ev hp).2.2.2] at ht
        exact absurd rfl ht
      · obtain ⟨r1, r2, r3, r4, hr⟩ := b3 ev hbody hv ht
        rw [hr]
        exact ⟨r1, r2, r3, r4, rfl⟩
      · simp [Event.isVariablesRead] at hv

/-- C2 at a concrete run: the build entry point throws `new Error('boom')` and
the run returns `{success: false, error: 'WebAssembly error: boom'}`. -/
theorem solveWithCpp_catches_witness :
    (solveWithCpp buildThrows "Q" "solve" [.str "x"] "" MockState.initial).1 =
      .ok (.failure "WebAssembly error: boom") := by
  obtain ⟨shown, h, tiers⟩ :=
    (solveWithCpp_catches buildThrows "Q" "solve" [.str "x"] "" MockState.initial).2.1
      (Event.buildSystemFromStrings .Rational 0 (.threw boom))
      (by
        have hl : (solveWithCpp buildThrows "Q" "solve" [.str "x"] "" MockState.initial).2.2 =
            [Event.StringVector (.ok 0), Event.push_back 0 "x" (.ok ()),
              Event.buildSystemFromStrings .Rational 0 (.threw boom),
              Event.delete 0 (.ok ())] := rfl
        rw [hl]
        simp)
      rfl rfl (some "boom") "Error: boom" rfl
  rcases tiers with ⟨m, hm, _, hs⟩ | ⟨hm, _, _⟩ | ⟨hm, _, _⟩
  · simp only [Option.some.injEq] at hm
    rw [h, hs, ← hm]
    rfl
  · simp at hm
  · simp at hm

/-- C2 fails as stated: when `size()` of the variables collection throws, the
run returns a success record with no variables, where the claim says
`{success: false, error: 'WebAssembly error: boom'}`. -/
theorem solveWithCpp_catches_counterexample :
    (solveWithCpp variablesThrow "Q" "solve" [.str "x"] "" MockState.initial).1 =
      .ok (.success "solution" 1 0 [] "Q" none) ∧
    (solveWithCpp variablesThrow "Q" "solve" [.str "x"] "" MockState.initial).2.2.map
        Event.thrown =
      [none, none, none, none, none, some boom, none, none] ∧
    (solveWithCpp variablesThrow "Q" "solve" [.str "x"] "" MockState.initial).1 ≠
      .ok (.failure "WebAssembly error: boom") := by
  decide

/-! ## C3: the success record -/

/-- Only reads of the collection are in the log of the extraction block. -/
theorem not_mem_extractionLog (vars : Variables) (ev : Event) (h : ev.isVariablesRead = false) :
    ev ∉ extractionLog vars := fun hev => by
  rw [extractionLog_isVariablesRead vars ev hev] at h
  exact absurd h (by simp)

/-- The extraction block calls no solve or characteristic entry point. -/
theorem filter_extractionLog (vars : Variables) :
    (extractionLog vars).filter Event.isSolveOrCharacteristic = [] := by
  rw [List.filter_eq_nil_iff]
  intro ev hev
  simp [(isVariablesRead_kinds ev (extractionLog_isVariablesRead vars ev hev)).2.2.2.2.2]

/-- A field branch in which the build returned `r` and the entry point of the
operation returned `t` ends with the success record, and that entry point is
the only solve or characteristic call. -/
theorem solveWithCpp.branch_success {σ : Type} (E : Engine σ) (F : FieldTag)
    (field operation prime : String) (vec : Nat) (s : σ)
    (r : BuildResult) (system : PolySystem) (k : Nat) (t : String) (vec' : Nat)
    (hop : operation = "solve" ∨ operation = "characteristic")
    (hbuild : Event.buildSystemFromStrings F vec' (.ok r) ∈
      (solveWithCpp.branch E F field operation prime vec s).2.2)
    (hsize : system.size = .ok k)
    (hrun : operationEvent F operation system (.ok t) ∈
      (solveWithCpp.branch E F field operation prime vec s).2.2) :
    (solveWithCpp.branch E F field operation prime vec s).1 =
      .ok (solveWithCpp.successRecord field prime (extractedNames r.vars) k t) ∧
    (solveWithCpp.branch E F field operation prime vec s).2.2.filter Event.isSolveOrCharacteristic =
      [operationEvent F operation system (.ok t)] := by
  have hx1 := not_mem_extractionLog
  have hx2 := filter_extractionLog
  rcases hop with rfl | rfl <;>
  rcases solveWithCpp.branch_cases E F field _ prime vec s with
    h | h | h | h | h | h | h | h | h | h <;>
  · repeat (obtain ⟨_, h⟩ := h)
    rw [h] at hbuild hrun ⊢
    simp [operationEvent, hx1, Event.isVariablesRead] at hbuild hrun
    all_goals
      obtain ⟨_, rfl⟩ := hbuild
      obtain ⟨rfl, rfl⟩ := hrun
      simp only [List.cons_append, List.nil_append, List.filter_cons, List.filter_append, hx2]
      simp_all [Event.isSolveOrCharacteristic, operationEvent]


/-- The same for the whole `try` block, together with the modulus set for the
finite field. -/
theorem solveWithCpp.body_success {σ : Type} (E : Engine σ) (F : FieldTag)
    (field operation prime : String) (vec : Nat) (s : σ)
    (r : BuildResult) (system : PolySystem) (k : Nat) (t : String) (vec' : Nat)
    (hfield : fieldTag field = some F)
    (hop : operation = "solve" ∨ operation = "characteristic")
    (hbuild : Event.buildSystemFromStrings F vec' (.ok r) ∈
      (solveWithCpp.body E field operation prime vec s).2.2)
    (hsize : system.size = .ok k)
    (hrun : operationEvent F operation system (.ok t) ∈
      (solveWithCpp.body E field operation prime vec s).2.2) :
    (solveWithCpp.body E field operation prime vec s).1 =
      .ok (solveWithCpp.successRecord field prime (extractedNames r.vars) k t) ∧
    (solveWithCpp.body E field operation prime vec s).2.2.filter Event.isSolveOrCharacteristic =
      [operationEvent F operation system (.ok t)] ∧
    (field = "Fp" → ∃ n, parseInt prime = some n ∧ 2 ≤ n ∧
      Event.setPrime n (.ok true) ∈ (solveWithCpp.body E field operation prime vec s).2.2) := by
  rcases solveWithCpp.body_cases E field operation prime vec s with
    ⟨_, h⟩ | ⟨_, _, h⟩ | ⟨n, e, s1, _, _, _, _, h⟩ | ⟨n, s1, _, _, _, _, h⟩ |
    ⟨n, s1, hf, hp, hn, _, h⟩ | ⟨G, hG, hne, h⟩
  · rw [h] at hbuild; simp at hbuild
  · rw [h] at hbuild; simp at hbuild
  · rw [h] at hbuild; simp at hbuild
  · rw [h] at hbuild; simp at hbuild
  · have hF : F = .GaloisField := by
      rw [hf] at hfield
      simpa [fieldTag] using hfield.symm
    subst hF
    rw [h] at hbuild hrun ⊢
    have hbuild' : Event.buildSystemFromStrings .GaloisField vec' (.ok r) ∈
        (solveWithCpp.branch E .GaloisField field operation prime vec s1).2.2 := by
      simpa using hbuild
    have hrun' : operationEvent .GaloisField operation system (.ok t) ∈
        (solveWithCpp.branch E .GaloisField field operation prime vec s1).2.2 := by
      rcases List.mem_cons.mp hrun with heq | hmem
      · rcases hop with rfl | rfl <;> simp [operationEvent] at heq
      · exact hmem
    obtain ⟨h1, h2⟩ := solveWithCpp.branch_success E .GaloisField field operation prime vec s1
      r system k t vec' hop hbuild' hsize hrun'
    refine ⟨h1, ?_, fun _ => ⟨n, hp, hn, List.mem_cons_self _ _⟩⟩
    simpa [List.filter_cons, Event.isSolveOrCharacteristic] using h2
  · have hF : G = F := by
      rw [hG] at hfield
      simpa using hfield
    subst hF
    rw [h] at hbuild hrun ⊢
    obtain ⟨h1, h2⟩ := solveWithCpp.branch_success E G field operation prime vec s
      r system k t vec' hop hbuild hsize hrun
    refine ⟨h1, h2, ?_⟩
    intro hf
    rw [hf] at hG
    simp [fieldTag] at hG
    exact absurd hG.symm hne

/-- Either a run never reaches the `try` block after `createStringVector`, and
then all its calls are constructor, `push_back` and `delete` calls; or it is
the run of that block between the filling of the vector and its `delete()`. -/
theorem solveWithCpp_inner {σ : Type} (E : Engine σ) (field operation : String)
    (polynomials : List JsValue) (prime : String) (s : σ) :
    (∀ ev ∈ (solveWithCpp E field operation polynomials prime s).2.2,
      ev.isConstructorCall = true ∨ ev.isPushBack = true ∨ ev.isDelete = true) ∨
    (∃ vec s1 strs d s3, polynomials = strs.map JsValue.str ∧
      (createStringVector E polynomials s).1 = .ok vec ∧
      solveWithCpp E field operation polynomials prime s =
        (caught (solveWithCpp.body E field operation prime vec s1).1, s3,
          Event.StringVector (.ok vec) :: (pushEvents vec strs ++
            ((solveWithCpp.body E field operation prime vec s1).2.2 ++ [Event.delete vec d])))) := by
  rcases solveWithCpp_cases E field operation polynomials prime s with
    ⟨e, s1, h⟩ | ⟨vec, e, s1, pushes, d, h, h1, _, _⟩ | h
  · left
    rw [h]
    intro ev hev
    rw [List.mem_singleton.mp hev]
    exact Or.inl rfl
  · left
    rw [h]
    intro ev hev
    have : ev = Event.StringVector (.ok vec) ∨ ev ∈ pushes ∨ ev = Event.delete vec d := by
      simpa using hev
    rcases this with rfl | hp | rfl
    · exact Or.inl rfl
    · exact Or.inr (Or.inl (h1 ev hp))
    · exact Or.inr (Or.inr rfl)
  · exact Or.inr h

/-- A call that is no constructor, `push_back` or `delete` call and occurs in
the framed log occurs in the framed part. -/
theorem mem_framed (ev first last : Event) (pushes inner : List Event)
    (hev : ev ∈ first :: (pushes ++ (inner ++ [last])))
    (hc : ev.isConstructorCall = false) (hp : ev.isPushBack = false) (hd : ev.isDelete = false)
    (hfirst : first.isConstructorCall = true) (hlast : last.isDelete = true)
    (hpushes : ∀ p ∈ pushes, p.isPushBack = true) : ev ∈ inner := by
  have : ev = first ∨ ev ∈ pushes ∨ ev ∈ inner ∨ ev = last := by simpa using hev
  rcases this with rfl | h | h | rfl
  · rw [hfirst] at hc; exact absurd hc (by simp)
  · rw [hpushes ev h] at hp; exact absurd hp (by simp)
  · exact h
  · rw [hlast] at hd; exact absurd hd (by simp)

/-- The solve and characteristic calls of a framed log are those of the framed
part. -/
theorem filter_framed (vec : Nat) (strs : List String) (inner : List Event) (d : Res Unit) :
    (Event.StringVector (.ok vec) :: (pushEvents vec strs ++
      (inner ++ [Event.delete vec d]))).filter Event.isSolveOrCharacteristic =
      inner.filter Event.isSolveOrCharacteristic := by
  have hp : (pushEvents vec strs).filter Event.isSolveOrCharacteristic = [] := by
    rw [List.filter_eq_nil_iff]
    intro ev hev
    obtain ⟨str, _, rfl⟩ := List.mem_map.mp hev
    simp [Event.isSolveOrCharacteristic]
  simp [List.filter_cons, List.filter_append, hp, Event.isSolveOrCharacteristic]

/-- C3: for a field among `'Q'`, `'Fp'`, `'R'` and an operation among `'solve'`,
`'characteristic'`: if in the run the build entry point of the field returned
success with a system of size `k ≥ 1` and a variables collection holding
`names`, and the entry point of the field and operation returned a non-empty
text `t`, then `solveWithCpp` returns `success = true`, `result = t`,
`systemSize = k`, `variables` = `names` sorted ascending, `variableCount` = its
length, the given field, and `prime` = the parsed modulus for `'Fp'` (which the
engine accepted) and `null` otherwise; and that entry point is the only solve
or characteristic entry point called. -/
theorem solveWithCpp_success {σ : Type} (E : Engine σ) (field operation : String)
    (polynomials : List JsValue) (prime : String) (s : σ)
    (F : FieldTag) (vec : Nat) (r : BuildResult) (system : PolySystem) (k : Nat)
    (names : List String) (get : Nat → Res String) (t : String)
    (hfield : fieldTag field = some F)
    (hop : operation = "solve" ∨ operation = "characteristic")
    (hbuild : Event.buildSystemFromStrings F vec (.ok r) ∈
      (solveWithCpp E field operation polynomials prime s).2.2)
    (_hsuccess : r.success = true) (_hsystem : r.polynomials = some system)
    (hsize : system.size = .ok k) (_hk : 1 ≤ k)
    (hvars : r.vars = .vector (.ok names.length) get)
    (hget : ∀ i (hi : i < names.length), get i = .ok (names.get ⟨i, hi⟩))
    (hrun : operationEvent F operation system (.ok t) ∈
      (solveWithCpp E field operation polynomials prime s).2.2)
    (ht : t ≠ "") :
    (solveWithCpp E field operation polynomials prime s).1 =
      .ok (.success t k (jsSort names).length (jsSort names) field
        (if field = "Fp" then parseInt prime else none)) ∧
    (solveWithCpp E field operation polynomials prime s).2.2.filter
        Event.isSolveOrCharacteristic = [operationEvent F operation system (.ok t)] ∧
    (field = "Fp" → ∃ n, parseInt prime = some n ∧ 2 ≤ n ∧
      Event.setPrime n (.ok true) ∈ (solveWithCpp E field operation polynomials prime s).2.2) := by
  rcases solveWithCpp_inner E field operation polynomials prime s with
    hout | ⟨v, s1, strs, d, s3, _, _, h⟩
  · rcases hout _ hbuild with hc | hc | hc <;> simp [Event.isConstructorCall, Event.isPushBack,
      Event.isDelete] at hc
  · rw [h] at hbuild hrun ⊢
    have hpushes := fun p hp => (pushEvents_kinds v strs p hp).2.2.1
    have hbuild' := mem_framed _ _ _ _ _ hbuild rfl rfl rfl rfl rfl hpushes
    have hrun' : operationEvent F operation system (.ok t) ∈
        (solveWithCpp.body E field operation prime v s1).2.2 := by
      rcases hop with rfl | rfl
      · exact mem_framed _ _ _ _ _ hrun rfl rfl rfl rfl rfl hpushes
      · exact mem_framed _ _ _ _ _ hrun rfl rfl rfl rfl rfl hpushes
    obtain ⟨h1, h2, h3⟩ := solveWithCpp.body_success E F field operation prime v s1 r system k t
      vec hfield hop hbuild' hsize hrun'
    have hnames : extractedNames r.vars = jsSort names := by
      rw [hvars]
      exact extractedNames_vector names get hget
    refine ⟨?_, ?_, ?_⟩
    · show caught (solveWithCpp.body E field operation prime v s1).1 = _
      rw [h1, hnames]
      simp [caught, solveWithCpp.successRecord, orDefault, ht]
    · show List.filter _ (Event.StringVector (.ok v) :: (pushEvents v strs ++
        ((solveWithCpp.body E field operation prime v s1).2.2 ++ [Event.delete v d]))) = _
      rw [filter_framed, h2]
    · intro hf
      obtain ⟨n, hp, hn, hmem⟩ := h3 hf
      refine ⟨n, hp, hn, ?_⟩
      show _ ∈ Event.StringVector (.ok v) :: (pushEvents v strs ++
        ((solveWithCpp.body E field operation prime v s1).2.2 ++ [Event.delete v d]))
      simp [hmem]

/-- C3 at the scenario of the specification: lines `x+y` and `x-y`, field
`'Q'`, operation `'solve'` give `systemSize` 2, `variables` `['x', 'y']` and
`success` true. -/
theorem solveWithCpp_success_witness :
    (solveWithCpp mockEngine "Q" "solve" [.str "x+y", .str "x-y"] "" MockState.initial).1 =
      .ok (.success "solution" 2 2 ["x", "y"] "Q" none) := by
  have h := (solveWithCpp_success mockEngine "Q" "solve" [.str "x+y", .str "x-y"] ""
    MockState.initial .Rational 0 (mockBuild ["x+y", "x-y"] 0) ⟨0, .ok 2⟩ 2 ["x", "y"]
    (fun i => .ok (["x", "y"].getD i "undefined")) "solution" rfl (Or.inl rfl)
    (by
      have hl : (solveWithCpp mockEngine "Q" "solve" [.str "x+y", .str "x-y"] ""
          MockState.initial).2.2 =
          [Event.StringVector (.ok 0), Event.push_back 0 "x+y" (.ok ()),
            Event.push_back 0 "x-y" (.ok ()),
            Event.buildSystemFromStrings .Rational 0 (.ok (mockBuild ["x+y", "x-y"] 0)),
            Event.size ⟨0, .ok 2⟩ (.ok 2),
            Event.printSystemSolution .Rational ⟨0, .ok 2⟩ (.ok "solution"),
            Event.variablesSize (.ok 2), Event.variablesGet 0 (.ok "x"),
            Event.variablesGet 1 (.ok "y"), Event.size ⟨0, .ok 2⟩ (.ok 2),
            Event.delete 0 (.ok ())] := rfl
      rw [hl]
      simp)
    rfl rfl rfl (by decide) rfl
    (by
      intro i hi
      have : i = 0 ∨ i = 1 := by
        simp at hi
        omega
      rcases this with rfl | rfl <;> rfl)
    (by
      have hl : (solveWithCpp mockEngine "Q" "solve" [.str "x+y", .str "x-y"] ""
          MockState.initial).2.2 =
          [Event.StringVector (.ok 0), Event.push_back 0 "x+y" (.ok ()),
            Event.push_back 0 "x-y" (.ok ()),
            Event.buildSystemFromStrings .Rational 0 (.ok (mockBuild ["x+y", "x-y"] 0)),
            Event.size ⟨0, .ok 2⟩ (.ok 2),
            Event.printSystemSolution .Rational ⟨0, .ok 2⟩ (.ok "solution"),
            Event.variablesSize (.ok 2), Event.variablesGet 0 (.ok "x"),
            Event.variablesGet 1 (.ok "y"), Event.size ⟨0, .ok 2⟩ (.ok 2),
            Event.delete 0 (.ok ())] := rfl
      rw [hl]
      simp [operationEvent])
    (by decide)).1
  rw [h]
  decide

/-! ## C5: the modulus is set before the finite-field build -/

/-- A field branch starts with its build call and makes no other build call
and no `setPrime` call. -/
theorem solveWithCpp.branch_log_head {σ : Type} (E : Engine σ) (F : FieldTag)
    (field operation prime : String) (vec : Nat) (s : σ) :
    ∃ reply rest, (solveWithCpp.branch E F field operation prime vec s).2.2 =
        Event.buildSystemFromStrings F vec reply :: rest ∧
      ∀ ev ∈ rest, ev.isSetPrime = false ∧ ev.isBuild = false := by
  have hx : ∀ r : BuildResult, ∀ ev ∈ extractionLog r.vars,
      ev.isSetPrime = false ∧ ev.isBuild = false := fun r ev hev =>
    have := isVariablesRead_kinds ev (extractionLog_isVariablesRead r.vars ev hev)
    ⟨this.2.2.2.1, this.2.2.2.2.1⟩
  rcases solveWithCpp.branch_cases E F field operation prime vec s with
    h | h | h | h | h | h | h | h | h | h <;>
  · repeat (obtain ⟨_, h⟩ := h)
    rw [h]
    try simp only [List.cons_append, List.nil_append]
    refine ⟨_, _, rfl, ?_⟩
    try simp only [List.forall_mem_cons, List.forall_mem_append]
    repeat' apply And.intro
    all_goals first
      | exact hx _
      | (intro ev hev; exact absurd hev (List.not_mem_nil ev))
      | rfl

/-- C5: in every run of `solveWithCpp('Fp', ...)` in which
`buildSystemFromStrings__GaloisField` is called, the call right before it is
`GaloisField.setPrime(n)`, with `n` the integer `parseInt` reads from `prime`,
and the engine accepted it; no other `setPrime` and no other build call occurs
in the run, so `n` is the last modulus set when the build is called. -/
theorem solveWithCpp_setPrime_before_build {σ : Type} (E : Engine σ) (operation : String)
    (polynomials : List JsValue) (prime : String) (s : σ)
    (h : ∃ ev ∈ (solveWithCpp E "Fp" operation polynomials prime s).2.2,
      ev.isBuildOf .GaloisField = true) :
    ∃ n pre post vec reply, parseInt prime = some n ∧ 2 ≤ n ∧
      (solveWithCpp E "Fp" operation polynomials prime s).2.2 =
        pre ++ Event.setPrime n (.ok true) ::
          Event.buildSystemFromStrings .GaloisField vec reply :: post ∧
      (∀ ev ∈ pre, ev.isSetPrime = false ∧ ev.isBuild = false) ∧
      (∀ ev ∈ post, ev.isSetPrime = false ∧ ev.isBuild = false) := by
  obtain ⟨ev, hev, hb⟩ := h
  have hkind : ev.isConstructorCall = false ∧ ev.isPushBack = false ∧ ev.isDelete = false := by
    cases ev <;> simp_all [Event.isBuildOf, Event.isConstructorCall, Event.isPushBack,
      Event.isDelete]
  rcases solveWithCpp_inner E "Fp" operation polynomials prime s with
    hout | ⟨v, s1, strs, d, s3, _, _, hrun⟩
  · rcases hout ev hev with hc | hc | hc
    · rw [hkind.1] at hc; exact absurd hc (by simp)
    · rw [hkind.2.1] at hc; exact absurd hc (by simp)
    · rw [hkind.2.2] at hc; exact absurd hc (by simp)
  · rw [hrun] at hev ⊢
    have hpushes := fun p hp => (pushEvents_kinds v strs p hp).2.2.1
    have hbody := mem_framed _ _ _ _ _ hev hkind.1 hkind.2.1 hkind.2.2 rfl rfl hpushes
    rcases solveWithCpp.body_cases E "Fp" operation prime v s1 with
      ⟨hn, _⟩ | ⟨_, _, hc⟩ | ⟨n, e, s2, _, _, _, _, hc⟩ | ⟨n, s2, _, _, _, _, hc⟩ |
      ⟨n, s2, _, hp, hn, _, hc⟩ | ⟨G, hG, hne, _⟩
    · simp [fieldTag] at hn
    · rw [hc] at hbody; simp at hbody
    · rw [hc] at hbody
      rw [List.mem_singleton.mp hbody] at hb
      simp [Event.isBuildOf] at hb
    · rw [hc] at hbody
      rw [List.mem_singleton.mp hbody] at hb
      simp [Event.isBuildOf] at hb
    · obtain ⟨reply, rest, hlog, hrest⟩ :=
        solveWithCpp.branch_log_head E .GaloisField "Fp" operation prime v s2
      refine ⟨n, Event.StringVector (.ok v) :: pushEvents v strs, rest ++ [Event.delete v d],
        v, reply, hp, hn, ?_, ?_, ?_⟩
      · rw [hc]
        simp [hlog]
      · intro p hp
        rcases List.mem_cons.mp hp with rfl | hp
        · exact ⟨rfl, rfl⟩
        · obtain ⟨str, _, rfl⟩ := List.mem_map.mp hp
          exact ⟨rfl, rfl⟩
      · intro p hp
        rcases List.mem_append.mp hp with hp | hp
        · exact hrest p hp
        · rw [List.mem_singleton.mp hp]
          exact ⟨rfl, rfl⟩
    · simp [fieldTag] at hG
      exact absurd hG.symm hne

/-- C5 at the scenario of the specification: modulus `'7'`, line `x^2+1`; the
modulus the test double holds after the run is 7, set right before the build. -/
theorem solveWithCpp_setPrime_before_build_witness :
    (∃ pre post vec reply,
      (solveWithCpp mockEngine "Fp" "solve" [.str "x^2+1"] "7" MockState.initial).2.2 =
        pre ++ Event.setPrime 7 (.ok true) ::
          Event.buildSystemFromStrings .GaloisField vec reply :: post ∧
      (∀ ev ∈ pre, ev.isSetPrime = false ∧ ev.isBuild = false) ∧
      (∀ ev ∈ post, ev.isSetPrime = false ∧ ev.isBuild = false)) ∧
    (solveWithCpp mockEngine "Fp" "solve" [.str "x^2+1"] "7" MockState.initial).2.1.modulus =
      some 7 := by
  have hl : (solveWithCpp mockEngine "Fp" "solve" [.str "x^2+1"] "7" MockState.initial).2.2 =
      [Event.StringVector (.ok 0), Event.push_back 0 "x^2+1" (.ok ()),
        Event.setPrime 7 (.ok true),
        Event.buildSystemFromStrings .GaloisField 0 (.ok (mockBuild ["x^2+1"] 0)),
        Event.size ⟨0, .ok 1⟩ (.ok 1),
        Event.printSystemSolution .GaloisField ⟨0, .ok 1⟩ (.ok "solution"),
        Event.variablesSize (.ok 1), Event.variablesGet 0 (.ok "x"),
        Event.size ⟨0, .ok 1⟩ (.ok 1), Event.delete 0 (.ok ())] := rfl
  obtain ⟨n, pre, post, vec, reply, hp, _, hlog, hpre, hpost⟩ :=
    solveWithCpp_setPrime_before_build mockEngine "solve" [.str "x^2+1"] "7" MockState.initial
      ⟨Event.buildSystemFromStrings .GaloisField 0 (.ok (mockBuild ["x^2+1"] 0)),
        by rw [hl]; simp, rfl⟩
  have h7 : n = 7 := by
    have : parseInt "7" = some 7 := by decide
    rw [this] at hp
    exact (Option.some.inj hp).symm
  subst h7
  exact ⟨⟨pre, post, vec, reply, hlog, hpre, hpost⟩, by decide⟩

/-! ## C6: the variables of the success record -/

/-- The lexicographic order on code unit sequences is total. -/
theorem lexLe_total : ∀ a b : List Nat, lexLe a b = true ∨ lexLe b a = true
  | [], _ => Or.inl rfl
  | _ :: _, [] => Or.inr rfl
  | a :: as, b :: bs => by
    rcases lexLe_total as bs with h | h
    · rcases Nat.lt_trichotomy a b with hlt | heq | hgt
      · left; simp [lexLe, hlt]
      · left; simp [lexLe, heq, h]
      · right; simp [lexLe, hgt]
    · rcases Nat.lt_trichotomy a b with hlt | heq | hgt
      · left; simp [lexLe, hlt]
      · right; simp [lexLe, heq, h]
      · right; simp [lexLe, hgt]

/-- The lexicographic order on code unit sequences is transitive. -/
theorem lexLe_trans : ∀ a b c : List Nat, lexLe a b = true → lexLe b c = true → lexLe a c = true
  | [], _, _, _, _ => by simp [lexLe]
  | _ :: _, [], _, h, _ => by simp [lexLe] at h
  | _ :: _, _ :: _, [], _, h => by simp [lexLe] at h
  | a :: as, b :: bs, c :: cs, h1, h2 => by
    simp only [lexLe, Bool.or_eq_true, decide_eq_true_eq, Bool.and_eq_true, beq_iff_eq] at h1 h2 ⊢
    rcases h1 with h1 | ⟨rfl, h1⟩
    · rcases h2 with h2 | ⟨rfl, _⟩
      · left; omega
      · left; exact h1
    · rcases h2 with h2 | ⟨rfl, h2⟩
      · left; exact h2
      · right; exact ⟨rfl, lexLe_trans as bs cs h1 h2⟩

/-- The lexicographic order on code unit sequences is antisymmetric. -/
theorem lexLe_antisymm : ∀ a b : List Nat, lexLe a b = true → lexLe b a = true → a = b
  | [], [], _, _ => rfl
  | [], _ :: _, _, h => by simp [lexLe] at h
  | _ :: _, [], h, _ => by simp [lexLe] at h
  | a :: as, b :: bs, h1, h2 => by
    simp only [lexLe, Bool.or_eq_true, decide_eq_true_eq, Bool.and_eq_true, beq_iff_eq] at h1 h2
    rcases h1 with h1 | ⟨rfl, h1⟩
    · rcases h2 with h2 | ⟨rfl, _⟩ <;> omega
    · rcases h2 with h2 | ⟨_, h2⟩
      · omega
      · rw [lexLe_antisymm as bs h1 h2]

/-- The code units of a character determine it, and where it ends. -/
theorem utf16_cons_inj (c d : Char) (r1 r2 : List Nat) (h : utf16 c ++ r1 = utf16 d ++ r2) :
    c = d ∧ r1 = r2 := by
  have hc := c.valid
  have hd := d.valid
  have hcn : c.toNat = c.val.toNat := rfl
  have hdn : d.toNat = d.val.toNat := rfl
  simp only [UInt32.isValidChar, Nat.isValidChar] at hc hd
  unfold utf16 at h
  by_cases h1 : c.toNat < 0x10000 <;> by_cases h2 : d.toNat < 0x10000 <;>
    simp only [h1, h2, if_true, if_false, List.cons_append, List.nil_append, List.cons.injEq] at h
  · exact ⟨Char.eq_of_val_eq (UInt32.toNat.inj (by omega)), h.2⟩
  · exfalso; omega
  · exfalso; omega
  · exact ⟨Char.eq_of_val_eq (UInt32.toNat.inj (by omega)), h.2.2⟩

/-- The code units of a text determine it. -/
theorem codeUnits_injective : ∀ a b : List Char,
    (a.map utf16).foldr (fun u acc => u ++ acc) [] =
      (b.map utf16).foldr (fun u acc => u ++ acc) [] → a = b
  | [], [], _ => rfl
  | [], d :: ds, h => by
    exfalso
    simp only [List.map_nil, List.foldr_nil, List.map_cons, List.foldr_cons] at h
    unfold utf16 at h
    split at h <;> simp at h
  | c :: cs, [], h => by
    exfalso
    simp only [List.map_nil, List.foldr_nil, List.map_cons, List.foldr_cons] at h
    unfold utf16 at h
    split at h <;> simp at h
  | c :: cs, d :: ds, h => by
    simp only [List.map_cons, List.foldr_cons] at h
    obtain ⟨rfl, hr⟩ := utf16_cons_inj c d _ _ h
    rw [codeUnits_injective cs ds hr]

/-- The order of `sort()` is total. -/
theorem jsLe_total : IsTotal String jsLe :=
  ⟨fun a b => lexLe_total (codeUnits a) (codeUnits b)⟩

/-- The order of `sort()` is transitive. -/
theorem jsLe_trans : IsTrans String jsLe :=
  ⟨fun a b c => lexLe_trans (codeUnits a) (codeUnits b) (codeUnits c)⟩

/-- Two strings that `sort()` ranks equal are the same string. -/
theorem jsLe_antisymm : IsAntisymm String jsLe := ⟨fun a b h1 h2 => by
  have := codeUnits_injective a.toList b.toList (lexLe_antisymm _ _ h1 h2)
  exact String.ext this⟩

/-- The result of `sort()` is ascending. -/
theorem jsSort_sorted (l : List String) : List.Sorted jsLe (jsSort l) :=
  @List.sorted_insertionSort _ jsLe _ jsLe_total jsLe_trans l

/-- The result of `sort()` holds the same strings, as often. -/
theorem jsSort_perm (l : List String) : (jsSort l).Perm l :=
  List.perm_insertionSort jsLe l

/-- The result of `sort()` does not depend on the order of the input. -/
theorem jsSort_eq_of_perm (l1 l2 : List String) (h : l1.Perm l2) : jsSort l1 = jsSort l2 :=
  @List.eq_of_perm_of_sorted _ jsLe jsLe_antisymm _ _
    ((jsSort_perm l1).trans (h.trans (jsSort_perm l2).symm)) (jsSort_sorted l1) (jsSort_sorted l2)


/-- The extraction block leaves an ascending list. -/
theorem extractedNames_sorted (vars : Variables) : List.Sorted jsLe (extractedNames vars) := by
  cases vars with
  | absent => exact List.sorted_nil
  | array items => exact List.sorted_nil
  | vector size get =>
    cases size with
    | threw e => exact List.sorted_nil
    | ok n =>
      rcases hu : solveWithCpp.readVector (σ := Unit) get (List.range n) () with ⟨r | e, u, l⟩
      · have : extractedNames (.vector (.ok n) get) = jsSort r := by
          simp [extractedNames, solveWithCpp.extractVariables, JS.tryCatch, JS.bind_apply, JS.bind,
            JS.method, hu, pure, JS.pure]
        rw [this]
        exact jsSort_sorted r
      · have : extractedNames (.vector (.ok n) get) = [] := by
          simp [extractedNames, solveWithCpp.extractVariables, JS.tryCatch, JS.bind_apply, JS.bind,
            JS.method, hu, pure, JS.pure]
        rw [this]
        exact List.sorted_nil

/-- A field branch that ends with a success record made one build call, and
the record holds the variables extracted from its result. -/
theorem solveWithCpp.branch_variables {σ : Type} (E : Engine σ) (F : FieldTag)
    (field operation prime : String) (vec : Nat) (s : σ)
    (result : String) (k cnt : Nat) (vs : List String) (f : String) (p : Option Int)
    (hout : (solveWithCpp.branch E F field operation prime vec s).1 =
      .ok (.success result k cnt vs f p)) :
    ∃ r, vs = extractedNames r.vars ∧ cnt = vs.length ∧
      ∀ G vec' r', Event.buildSystemFromStrings G vec' (.ok r') ∈
        (solveWithCpp.branch E F field operation prime vec s).2.2 → r' = r := by
  have hx1 := not_mem_extractionLog
  rcases solveWithCpp.branch_cases E F field operation prime vec s with
    h | h | h | h | h | h | h | h | h | h <;>
  · repeat (obtain ⟨_, h⟩ := h)
    rw [h] at hout ⊢
    simp [solveWithCpp.successRecord] at hout
    all_goals
      obtain ⟨_, _, hc, hv, _, _⟩ := hout
      refine ⟨_, hv.symm, by rw [← hc, ← hv], ?_⟩
      intro G vec' r' hmem
      simp [hx1, Event.isVariablesRead] at hmem
      exact hmem.2.2

/-- The same for the whole `try` block. -/
theorem solveWithCpp.body_variables {σ : Type} (E : Engine σ)
    (field operation prime : String) (vec : Nat) (s : σ)
    (result : String) (k cnt : Nat) (vs : List String) (f : String) (p : Option Int)
    (hout : (solveWithCpp.body E field operation prime vec s).1 =
      .ok (.success result k cnt vs f p)) :
    ∃ r, vs = extractedNames r.vars ∧ cnt = vs.length ∧
      ∀ G vec' r', Event.buildSystemFromStrings G vec' (.ok r') ∈
        (solveWithCpp.body E field operation prime vec s).2.2 → r' = r := by
  rcases solveWithCpp.body_cases E field operation prime vec s with
    ⟨_, h⟩ | ⟨_, _, h⟩ | ⟨n, e, s1, _, _, _, _, h⟩ | ⟨n, s1, _, _, _, _, h⟩ |
    ⟨n, s1, _, _, _, _, h⟩ | ⟨F, _, _, h⟩
  · rw [h] at hout; simp at hout
  · rw [h] at hout; simp at hout
  · rw [h] at hout; simp at hout
  · rw [h] at hout; simp at hout
  · rw [h] at hout ⊢
    obtain ⟨r, h1, h2, h3⟩ := solveWithCpp.branch_variables E .GaloisField field operation prime
      vec s1 result k cnt vs f p hout
    refine ⟨r, h1, h2, ?_⟩
    intro G vec' r' hmem
    exact h3 G vec' r' (by simpa using hmem)
  · rw [h] at hout ⊢
    exact solveWithCpp.branch_variables E F field operation prime vec s result k cnt vs f p hout

/-- C6, as amended: whenever `solveWithCpp` returns a success record, its
`variables` list is sorted ascending and `variableCount` is its length; and
when the build of the whole system reported the names `names` in its variables
collection, the list is `names` sorted: it holds exactly those names, each as
often as the engine reported it (so it is duplicate-free exactly when the
engine's collection is), and it is the same for every order in which the
engine reports them. -/
theorem solveWithCpp_variables {σ : Type} (E : Engine σ) (field operation : String)
    (polynomials : List JsValue) (prime : String) (s : σ)
    (result : String) (k cnt : Nat) (vs : List String) (f : String) (p : Option Int)
    (hout : (solveWithCpp E field operation polynomials prime s).1 =
      .ok (.success result k cnt vs f p)) :
    List.Sorted jsLe vs ∧ cnt = vs.length ∧
    ∀ F vec r names get,
      Event.buildSystemFromStrings F vec (.ok r) ∈
        (solveWithCpp E field operation polynomials prime s).2.2 →
      r.vars = .vector (.ok names.length) get →
      (∀ i (hi : i < names.length), get i = .ok (names.get ⟨i, hi⟩)) →
      vs = jsSort names ∧ vs.Perm names ∧ (vs.Nodup ↔ names.Nodup) ∧
        ∀ names' : List String, names'.Perm names → jsSort names' = vs := by
  rcases solveWithCpp_cases E field operation polynomials prime s with
    ⟨e, s1, h⟩ | ⟨vec, e, s1, pushes, d, h, _, _, _⟩ | ⟨vec, s1, strs, d, s3, _, _, h⟩
  · rw [h] at hout
    cases e <;> simp [caught] at hout
  · rw [h] at hout
    cases e <;> simp [caught] at hout
  · rw [h] at hout ⊢
    have hbody : (solveWithCpp.body E field operation prime vec s1).1 =
        .ok (.success result k cnt vs f p) := by
      cases hb : (solveWithCpp.body E field operation prime vec s1).1 with
      | ok o =>
        rw [hb] at hout
        simpa [caught] using hout
      | threw e =>
        rw [hb] at hout
        cases e <;> simp [caught] at hout
    obtain ⟨r0, h1, h2, h3⟩ := solveWithCpp.body_variables E field operation prime vec s1
      result k cnt vs f p hbody
    refine ⟨by rw [h1]; exact extractedNames_sorted r0.vars, h2, ?_⟩
    intro F vec' r names get hmem hvars hget
    have hpushes := fun p hp => (pushEvents_kinds vec strs p hp).2.2.1
    have hmem' := mem_framed _ _ _ _ _ hmem rfl rfl rfl rfl rfl hpushes
    have hr := h3 F vec' r hmem'
    subst hr
    have hvs : vs = jsSort names := by
      rw [h1, hvars]
      exact extractedNames_vector names get hget
    refine ⟨hvs, by rw [hvs]; exact jsSort_perm names, ?_, ?_⟩
    · rw [hvs]
      exact (jsSort_perm names).nodup_iff
    · intro names' hperm
      rw [hvs]
      exact jsSort_eq_of_perm names' names hperm

/-- C6 at a concrete run: the test double reports `y` then `x`; the record
holds `['x', 'y']`. -/
theorem solveWithCpp_variables_witness :
    List.Sorted jsLe ["x", "y"] ∧
    (∀ names' : List String, names'.Perm ["y", "x"] → jsSort names' = ["x", "y"]) := by
  have h := solveWithCpp_variables mockEngine "Q" "solve" [.str "y+x"] "" MockState.initial
    "solution" 1 2 ["x", "y"] "Q" none (by decide)
  refine ⟨h.1, ?_⟩
  have h3 := h.2.2 .Rational 0 (mockBuild ["y+x"] 0) ["y", "x"]
    (fun i => .ok (["y", "x"].getD i "undefined"))
    (by
      have hl : (solveWithCpp mockEngine "Q" "solve" [.str "y+x"] "" MockState.initial).2.2 =
          [Event.StringVector (.ok 0), Event.push_back 0 "y+x" (.ok ()),
            Event.buildSystemFromStrings .Rational 0 (.ok (mockBuild ["y+x"] 0)),
            Event.size ⟨0, .ok 1⟩ (.ok 1),
            Event.printSystemSolution .Rational ⟨0, .ok 1⟩ (.ok "solution"),
            Event.variablesSize (.ok 2), Event.variablesGet 0 (.ok "y"),
            Event.variablesGet 1 (.ok "x"), Event.size ⟨0, .ok 1⟩ (.ok 1),
            Event.delete 0 (.ok ())] := rfl
      rw [hl]
      simp)
    rfl
    (by
      intro i hi
      have : i = 0 ∨ i = 1 := by
        simp at hi
        omega
      rcases this with rfl | rfl <;> rfl)
  exact h3.2.2.2

/-- C6 fails as stated: against an engine that reports the name `x` twice for
the system, the record holds `['x', 'x']`, which has a duplicate. -/
theorem solveWithCpp_variables_counterexample :
    (solveWithCpp duplicateNames "Q" "solve" [.str "x+1", .str "x-1"] "" MockState.initial).1 =
      .ok (.success "solution" 2 2 ["x", "x"] "Q" none) ∧
    ¬ List.Nodup ["x", "x"] := by
  decide

/-! ## C7: the variable list of the live preview -/

/-- Membership after `set.add(v)`. -/
theorem setAdd_mem (set : List String) (v w : String) : w ∈ setAdd set v ↔ w ∈ set ∨ w = v := by
  unfold setAdd
  split
  · constructor
    · intro h; exact Or.inl h
    · rintro (h | rfl)
      · exact h
      · assumption
  · simp

/-- The call `set.add(v)` keeps the set duplicate-free. -/
theorem setAdd_nodup (set : List String) (v : String) (h : set.Nodup) : (setAdd set v).Nodup := by
  unfold setAdd
  split
  · exact h
  · rename_i hv
    exact List.Nodup.append h (List.nodup_singleton v) (by
      intro a ha hb
      rw [List.mem_singleton.mp hb] at ha
      exact hv ha)

/-- Adding every item of an array to the set. -/
theorem foldl_setAdd (items : List String) (set : List String) :
    ((items.foldl setAdd set).Nodup ↔ set.Nodup) ∧
      ∀ w, w ∈ items.foldl setAdd set ↔ w ∈ set ∨ w ∈ items := by
  induction items generalizing set with
  | nil => simp
  | cons v rest ih =>
    obtain ⟨h1, h2⟩ := ih (setAdd set v)
    refine ⟨?_, ?_⟩
    · simp only [List.foldl_cons]
      rw [h1]
      constructor
      · intro h
        unfold setAdd at h
        split at h
        · exact h
        · exact (List.nodup_append.mp h).1
      · exact setAdd_nodup set v
    · intro w
      simp only [List.foldl_cons, h2, setAdd_mem, List.mem_cons]
      tauto

/-- The read loop of the first pass always completes, touches no engine state,
and adds exactly the names `get` returns before its first throw. -/
theorem addFromVector_spec {σ : Type} (size : Nat) (get : Nat → Res String) (len a : Nat)
    (acc : List String) (s : σ) :
    ∃ acc' flag xl,
      displayPolynomials.addFromVector size get (List.range' a len) acc s =
        (.ok (acc', flag), s, xl) ∧
      (∀ ev ∈ xl, ev.isVariablesRead = true) ∧ (acc.Nodup → acc'.Nodup) ∧
      ∀ v, v ∈ acc' ↔ v ∈ acc ∨
        ∃ i, a ≤ i ∧ i < a + len ∧ get i = .ok v ∧ ∀ j, a ≤ j → j < i → ∃ w, get j = .ok w := by
  induction len generalizing a acc with
  | zero =>
    refine ⟨acc, false, [Event.variablesSize (.ok size)], rfl, by simp [Event.isVariablesRead],
      id, ?_⟩
    intro v
    constructor
    · exact Or.inl
    · rintro (h | ⟨i, h1, h2, _⟩)
      · exact h
      · omega
  | succ len ih =>
    cases hg : get a with
    | threw e =>
      refine ⟨acc, true, [Event.variablesSize (.ok size), Event.variablesGet a (.threw e)], ?_,
        by simp [Event.isVariablesRead], id, ?_⟩
      · simp [List.range', displayPolynomials.addFromVector, JS.bind_apply, JS.bind, JS.method,
          JS.tryCatch, hg, pure, JS.pure]
      · intro v
        constructor
        · exact Or.inl
        · rintro (h | ⟨i, h1, h2, h3, h4⟩)
          · exact h
          · exfalso
            rcases Nat.eq_or_lt_of_le h1 with rfl | hlt
            · rw [hg] at h3; simp at h3
            · obtain ⟨w, hw⟩ := h4 a (le_refl a) hlt
              rw [hg] at hw; simp at hw
    | ok x =>
      obtain ⟨acc', flag, xl, hrun, hxl, hnd, hmem⟩ := ih (a + 1) (setAdd acc x)
      refine ⟨acc', flag,
        Event.variablesSize (.ok size) :: Event.variablesGet a (.ok x) :: xl, ?_, ?_, ?_, ?_⟩
      · simp [List.range', displayPolynomials.addFromVector, JS.bind_apply, JS.bind, JS.method,
          JS.tryCatch, hg, pure, JS.pure, hrun]
      · intro ev hev
        rcases List.mem_cons.mp hev with rfl | hev
        · rfl
        · rcases List.mem_cons.mp hev with rfl | hev
          · rfl
          · exact hxl ev hev
      · intro h
        exact hnd (setAdd_nodup acc x h)
      · intro v
        rw [hmem v, setAdd_mem]
        constructor
        · rintro ((h | rfl) | ⟨i, h1, h2, h3, h4⟩)
          · exact Or.inl h
          · exact Or.inr ⟨a, le_refl a, by omega, hg, fun j hj1 hj2 => by omega⟩
          · refine Or.inr ⟨i, by omega, by omega, h3, ?_⟩
            intro j hj1 hj2
            rcases Nat.eq_or_lt_of_le hj1 with rfl | hlt
            · exact ⟨x, hg⟩
            · exact h4 j (by omega) hj2
        · rintro (h | ⟨i, h1, h2, h3, h4⟩)
          · exact Or.inl (Or.inl h)
          · rcases Nat.eq_or_lt_of_le h1 with rfl | hlt
            · rw [hg] at h3
              simp only [Res.ok.injEq] at h3
              exact Or.inl (Or.inr h3.symm)
            · exact Or.inr ⟨i, by omega, by omega, h3, fun j hj1 hj2 => h4 j (by omega) hj2⟩

/-- The block "Extract variables" of the first pass adds exactly the names a
successful build result reports. -/
theorem extract_spec {σ : Type} (sr : Option BuildResult) (acc : List String) (s : σ) :
    ∃ acc' flag xl, displayPolynomials.extract sr acc s = (.ok (acc', flag), s, xl) ∧
      (∀ ev ∈ xl, ev.isVariablesRead = true) ∧ (acc.Nodup → acc'.Nodup) ∧
      ∀ v, v ∈ acc' ↔ v ∈ acc ∨ ∃ r, sr = some r ∧ r.success = true ∧ r.vars.Reports v := by
  cases sr with
  | none => exact ⟨acc, false, [], rfl, by simp, id, by simp⟩
  | some r =>
    cases hs : r.success with
    | false =>
      exact ⟨acc, false, [], by simp [displayPolynomials.extract, hs, pure, JS.pure], by simp, id,
        by simp [hs]⟩
    | true =>
      cases hv : r.vars with
      | absent =>
        exact ⟨acc, false, [], by simp [displayPolynomials.extract, hs, hv, pure, JS.pure],
          by simp, id, by simp [hv, Variables.Reports]⟩
      | array items =>
        refine ⟨items.foldl setAdd acc, false, [],
          by simp [displayPolynomials.extract, hs, hv, pure, JS.pure], by simp,
          (foldl_setAdd items acc).1.mpr, ?_⟩
        intro v
        rw [(foldl_setAdd items acc).2 v]
        simp [hv, hs, Variables.Reports]
      | vector size get =>
        cases size with
        | threw e =>
          exact ⟨acc, true, [Event.variablesSize (.threw e)],
            by simp [displayPolynomials.extract, hs, hv, JS.bind_apply, JS.bind, JS.method,
              JS.tryCatch, pure, JS.pure],
            by simp [Event.isVariablesRead], id, by simp [hv, Variables.Reports]⟩
        | ok n =>
          rcases Nat.eq_zero_or_pos n with rfl | hn
          · refine ⟨acc, false, [Event.variablesSize (.ok 0)],
              by simp [displayPolynomials.extract, hs, hv, JS.bind_apply, JS.bind, JS.method,
                JS.tryCatch, pure, JS.pure],
              by simp [Event.isVariablesRead], id, ?_⟩
            simp [hv, Variables.Reports]
          · obtain ⟨acc', flag, xl, hrun, hxl, hnd, hmem⟩ := addFromVector_spec n get n 0 acc s
            rw [← List.range_eq_range'] at hrun
            refine ⟨acc', flag, Event.variablesSize (.ok n) :: xl, ?_, ?_, hnd, ?_⟩
            · simp [displayPolynomials.extract, hs, hv, JS.bind_apply, JS.bind, JS.method,
                JS.tryCatch, pure, JS.pure, hn, hrun]
            · intro ev hev
              rcases List.mem_cons.mp hev with rfl | hev
              · rfl
              · exact hxl ev hev
            · intro v
              rw [hmem v]
              simp [hv, hs, Variables.Reports]

/-- The field switch makes at most one build call. -/
theorem displayPolynomials.build_cases {σ : Type} (E : Engine σ) (field : String) (vec : Nat)
    (s : σ) :
    displayPolynomials.build E field vec s = (.ok none, s, []) ∨
    (∃ F r s1, displayPolynomials.build E field vec s =
      (.ok (some r), s1, [Event.buildSystemFromStrings F vec (.ok r)])) ∨
    (∃ F e s1, displayPolynomials.build E field vec s =
      (.threw e, s1, [Event.buildSystemFromStrings F vec (.threw e)])) := by
  unfold displayPolynomials.build
  by_cases hq : field = "Q"
  · rcases hb : E.buildSystemFromStrings .Rational vec s with ⟨r | e, s1⟩
    · right; left
      exact ⟨.Rational, r, s1, by simp [hq, JS.bind_apply, JS.bind, JS.call, hb, pure, JS.pure]⟩
    · right; right
      exact ⟨.Rational, e, s1, by simp [hq, JS.bind_apply, JS.bind, JS.call, hb]⟩
  by_cases hf : field = "Fp"
  · rcases hb : E.buildSystemFromStrings .GaloisField vec s with ⟨r | e, s1⟩
    · right; left
      exact ⟨.GaloisField, r, s1, by
        simp [hf, JS.bind_apply, JS.bind, JS.call, hb, pure, JS.pure]⟩
    · right; right
      exact ⟨.GaloisField, e, s1, by simp [hf, JS.bind_apply, JS.bind, JS.call, hb]⟩
  by_cases hr : field = "R"
  · rcases hb : E.buildSystemFromStrings .Real vec s with ⟨r | e, s1⟩
    · right; left
      exact ⟨.Real, r, s1, by simp [hr, JS.bind_apply, JS.bind, JS.call, hb, pure, JS.pure]⟩
    · right; right
      exact ⟨.Real, e, s1, by simp [hr, JS.bind_apply, JS.bind, JS.call, hb]⟩
  left
  simp [hq, hf, hr, pure, JS.pure]

/-- A log without build calls reports no name. -/
theorem reportedIn_of_no_build (log : List Event) (h : ∀ ev ∈ log, ev.isBuild = false)
    (v : String) : ¬ ReportedIn log v := by
  rintro ⟨F, vec, r, hmem, _⟩
  have := h _ hmem
  simp [Event.isBuild] at this

/-- A log with one build call reports the names of that call. -/
theorem reportedIn_single (pre post : List Event) (F : FieldTag) (vec : Nat) (r : BuildResult)
    (hpre : ∀ ev ∈ pre, ev.isBuild = false) (hpost : ∀ ev ∈ post, ev.isBuild = false)
    (v : String) :
    ReportedIn (pre ++ Event.buildSystemFromStrings F vec (.ok r) :: post) v ↔
      r.success = true ∧ r.vars.Reports v := by
  constructor
  · rintro ⟨F', vec', r', hmem, hs, hr⟩
    have : Event.buildSystemFromStrings F' vec' (.ok r') ∈ pre ∨
        Event.buildSystemFromStrings F' vec' (.ok r') = Event.buildSystemFromStrings F vec (.ok r) ∨
        Event.buildSystemFromStrings F' vec' (.ok r') ∈ post := by
      simpa using hmem
    rcases this with h | h | h
    · have := hpre _ h
      simp [Event.isBuild] at this
    · simp only [Event.buildSystemFromStrings.injEq, Res.ok.injEq] at h
      obtain ⟨_, _, rfl⟩ := h
      exact ⟨hs, hr⟩
    · have := hpost _ h
      simp [Event.isBuild] at this
  · rintro ⟨hs, hr⟩
    exact ⟨F, vec, r, by simp, hs, hr⟩

/-- Constructing and filling a vector is no build call. -/
theorem pushEvents_not_build (vec : Nat) (strs : List String) :
    ∀ ev ∈ Event.StringVector (.ok vec) :: pushEvents vec strs, ev.isBuild = false := by
  intro ev hev
  rcases List.mem_cons.mp hev with rfl | hev
  · rfl
  · obtain ⟨str, _, rfl⟩ := List.mem_map.mp hev
    rfl

/-- Constructing and filling a vector calls the constructor once. -/
theorem pushEvents_countP (vec : Nat) (strs : List String) :
    (Event.StringVector (.ok vec) :: pushEvents vec strs).countP Event.isConstructorCall = 1 := by
  have hc : (pushEvents vec strs).countP Event.isConstructorCall = 0 := by
    rw [List.countP_eq_zero]
    intro ev hev
    simp [(pushEvents_kinds vec strs ev hev).1]
  simp [List.countP_cons, hc, Event.isConstructorCall]

/-- Reads of a collection are no constructor and no build calls. -/
theorem variablesRead_countP (xl : List Event) (h : ∀ ev ∈ xl, ev.isVariablesRead = true) :
    xl.countP Event.isConstructorCall = 0 ∧ ∀ ev ∈ xl, ev.isBuild = false := by
  refine ⟨?_, fun ev hev => (isVariablesRead_kinds ev (h ev hev)).2.2.2.2.1⟩
  rw [List.countP_eq_zero]
  intro ev hev
  simp [(isVariablesRead_kinds ev (h ev hev)).1]

/-- The callback of the first pass always completes: it calls the constructor
once and adds exactly the names its build call reports. -/
theorem collect_spec {σ : Type} (E : Engine σ) (field : String) (poly : JsValue)
    (acc : List String) (s : σ) :
    ∃ acc' s' log, displayPolynomials.collect E field poly acc s = (.ok acc', s', log) ∧
      (acc.Nodup → acc'.Nodup) ∧ (∀ v, v ∈ acc' ↔ v ∈ acc ∨ ReportedIn log v) ∧
      log.countP Event.isConstructorCall = 1 := by
  rcases createStringVector_cases E [poly] s with
    ⟨e, s1, h⟩ | ⟨vec, s1, strs, h, hs⟩ | ⟨vec, e, s1, pushes, d, h, h1, _, _⟩
  · refine ⟨acc, s1, [Event.StringVector (.threw e)], ?_, id, ?_, rfl⟩
    · simp [displayPolynomials.collect, JS.tryCatch, JS.bind_apply, JS.bind, h, pure, JS.pure]
    · intro v
      have := reportedIn_of_no_build [Event.StringVector (.threw e)]
        (by simp [Event.isBuild]) v
      tauto
  · have hl1 := pushEvents_not_build vec strs
    have hc1 := pushEvents_countP vec strs
    rcases displayPolynomials.build_cases E field vec s1 with hb | ⟨F, r, s2, hb⟩ | ⟨F, e, s2, hb⟩
    · rcases hd : E.delete vec s1 with ⟨d, s2⟩
      refine ⟨acc, s2, (Event.StringVector (.ok vec) :: pushEvents vec strs) ++
        [Event.delete vec d], ?_, id, ?_, ?_⟩
      · cases d <;>
          simp [displayPolynomials.collect, displayPolynomials.extract, JS.tryCatch, JS.bind_apply,
            JS.bind, JS.call, h, hb, hd, pure, JS.pure]
      · intro v
        have := reportedIn_of_no_build ((Event.StringVector (.ok vec) :: pushEvents vec strs) ++
          [Event.delete vec d]) (by
            intro ev hev
            rcases List.mem_append.mp hev with hev | hev
            · exact hl1 ev hev
            · rw [List.mem_singleton.mp hev]; rfl) v
        tauto
      · rw [List.countP_append, hc1]
        rfl
    · obtain ⟨acc', flag, xl, hx, hxl, hnd, hmem⟩ := extract_spec (some r) acc s2
      obtain ⟨hxc, hxb⟩ := variablesRead_countP xl hxl
      cases flag with
      | true =>
        refine ⟨acc', s2, (Event.StringVector (.ok vec) :: pushEvents vec strs) ++
          Event.buildSystemFromStrings F vec (.ok r) :: xl, ?_, hnd, ?_, ?_⟩
        · simp [displayPolynomials.collect, JS.tryCatch, JS.bind_apply, JS.bind, JS.call, h, hb,
            hx, pure, JS.pure]
        · intro v
          rw [hmem v, reportedIn_single _ _ F vec r hl1 hxb v]
          simp
        · rw [List.countP_append, hc1, List.countP_cons, hxc]
          rfl
      | false =>
        rcases hd : E.delete vec s2 with ⟨d, s3⟩
        refine ⟨acc', s3, (Event.StringVector (.ok vec) :: pushEvents vec strs) ++
          Event.buildSystemFromStrings F vec (.ok r) :: (xl ++ [Event.delete vec d]), ?_, hnd,
          ?_, ?_⟩
        · cases d <;>
            simp [displayPolynomials.collect, JS.tryCatch, JS.bind_apply, JS.bind, JS.call, h, hb,
              hx, hd, pure, JS.pure]
        · intro v
          rw [hmem v, reportedIn_single _ _ F vec r hl1 (by
            intro ev hev
            rcases List.mem_append.mp hev with hev | hev
            · exact hxb ev hev
            · rw [List.mem_singleton.mp hev]; rfl) v]
          simp
        · rw [List.countP_append, hc1, List.countP_cons, List.countP_append, hxc]
          rfl
    · refine ⟨acc, s2, (Event.StringVector (.ok vec) :: pushEvents vec strs) ++
        [Event.buildSystemFromStrings F vec (.threw e)], ?_, id, ?_, ?_⟩
      · simp [displayPolynomials.collect, JS.tryCatch, JS.bind_apply, JS.bind, h, hb, pure,
          JS.pure]
      · intro v
        have : ¬ ReportedIn ((Event.StringVector (.ok vec) :: pushEvents vec strs) ++
            [Event.buildSystemFromStrings F vec (.threw e)]) v := by
          rintro ⟨F', vec', r', hm, _⟩
          rcases List.mem_append.mp hm with hm | hm
          · have := hl1 _ hm
            simp [Event.isBuild] at this
          · simp at hm
        tauto
      · rw [List.countP_append, hc1]
        rfl
  · refine ⟨acc, s1, Event.StringVector (.ok vec) :: (pushes ++ [Event.delete vec d]), ?_, id,
      ?_, ?_⟩
    · simp [displayPolynomials.collect, JS.tryCatch, JS.bind_apply, JS.bind, h, pure, JS.pure]
    · intro v
      have := reportedIn_of_no_build
        (Event.StringVector (.ok vec) :: (pushes ++ [Event.delete vec d])) (by
          intro ev hev
          have : ev = Event.StringVector (.ok vec) ∨ ev ∈ pushes ∨ ev = Event.delete vec d := by
            simpa using hev
          rcases this with rfl | hp | rfl
          · rfl
          · have := h1 ev hp
            cases ev <;> simp_all [Event.isPushBack, Event.isBuild]
          · rfl) v
      tauto
    · have hc : pushes.countP Event.isConstructorCall = 0 := by
        rw [List.countP_eq_zero]
        intro ev hev
        simp [(isPushBack_kinds ev (h1 ev hev)).1]
      simp [List.countP_cons, List.countP_append, hc, Event.isConstructorCall]

/-- The names a log reports are those its parts report. -/
theorem reportedIn_append (l1 l2 : List Event) (v : String) :
    ReportedIn (l1 ++ l2) v ↔ ReportedIn l1 v ∨ ReportedIn l2 v := by
  constructor
  · rintro ⟨F, vec, r, hm, hs, hr⟩
    rcases List.mem_append.mp hm with hm | hm
    · exact Or.inl ⟨F, vec, r, hm, hs, hr⟩
    · exact Or.inr ⟨F, vec, r, hm, hs, hr⟩
  · rintro (⟨F, vec, r, hm, hs, hr⟩ | ⟨F, vec, r, hm, hs, hr⟩)
    · exact ⟨F, vec, r, List.mem_append_left _ hm, hs, hr⟩
    · exact ⟨F, vec, r, List.mem_append_right _ hm, hs, hr⟩

/-- The first loop always completes: one constructor call per line, and the set
holds exactly the names reported along the way. -/
theorem collectAll_spec {σ : Type} (E : Engine σ) (field : String) (polynomials : List JsValue)
    (acc : List String) (s : σ) :
    ∃ acc' s' log, displayPolynomials.collectAll E field polynomials acc s = (.ok acc', s', log) ∧
      (acc.Nodup → acc'.Nodup) ∧ (∀ v, v ∈ acc' ↔ v ∈ acc ∨ ReportedIn log v) ∧
      log.countP Event.isConstructorCall = polynomials.length := by
  induction polynomials generalizing acc s with
  | nil =>
    refine ⟨acc, s, [], rfl, id, ?_, rfl⟩
    intro v
    have := reportedIn_of_no_build [] (by simp) v
    tauto
  | cons poly rest ih =>
    obtain ⟨acc1, s1, l1, h1, hn1, hm1, hc1⟩ := collect_spec E field poly acc s
    obtain ⟨acc2, s2, l2, h2, hn2, hm2, hc2⟩ := ih acc1 s1
    refine ⟨acc2, s2, l1 ++ l2, ?_, fun h => hn2 (hn1 h), ?_, ?_⟩
    · simp [displayPolynomials.collectAll, JS.bind_apply, JS.bind, h1, h2]
    · intro v
      rw [hm2 v, hm1 v, reportedIn_append]
      tauto
    · rw [List.countP_append, hc1, hc2, List.length_cons]
      omega

/-- The block that sets the modulus always completes, with no build and no
constructor call. -/
theorem displayPolynomials.setPrime_run {σ : Type} (E : Engine σ) (field primeValue : String)
    (s : σ) :
    ∃ s1 pl, displayPolynomials.setPrime E field primeValue s = (.ok (), s1, pl) ∧
      (∀ ev ∈ pl, ev.isBuild = false) ∧ pl.countP Event.isConstructorCall = 0 := by
  unfold displayPolynomials.setPrime
  by_cases hf : field = "Fp"
  · cases hp : parseInt primeValue with
    | none => exact ⟨s, [], by simp [hf, pure, JS.pure], by simp, rfl⟩
    | some n =>
      by_cases hc : (decide (n ≥ 2) && isPrime n) = true
      · rcases hs : E.setPrime n s with ⟨b | e, s1⟩
        · exact ⟨s1, [Event.setPrime n (.ok b)], by
            simp [hf, hc, JS.tryCatch, JS.bind_apply, JS.bind, JS.call, hs, pure, JS.pure],
            by simp [Event.isBuild], rfl⟩
        · exact ⟨s1, [Event.setPrime n (.threw e)], by
            simp [hf, hc, JS.tryCatch, JS.bind_apply, JS.bind, JS.call, hs, pure, JS.pure],
            by simp [Event.isBuild], rfl⟩
      · exact ⟨s, [], by simp [hf, hc, pure, JS.pure], by simp, rfl⟩
  · exact ⟨s, [], by simp [hf, pure, JS.pure], by simp, rfl⟩

/-- C7: for every non-empty list of lines and every field, the first pass of
`displayPolynomials` returns a list that is ascending, duplicate-free and not
empty; when some name is reported by a single-line build that succeeded, the
list holds exactly the names so reported; when none is (in particular when
every line fails to parse or throws), the list is `['x', 'y', 'z']`; and every
line is attempted, whatever became of the lines before it: the constructor is
called once per line. -/
theorem displayPolynomials_firstPass_variables {σ : Type} (E : Engine σ)
    (fieldRadio : Option String) (primeValue : String) (polynomials : List JsValue) (s : σ)
    (_hne : polynomials ≠ []) :
    ∃ variableNames,
      (displayPolynomials.firstPass E fieldRadio primeValue polynomials s).1 = .ok variableNames ∧
      List.Sorted jsLe variableNames ∧ variableNames.Nodup ∧ variableNames ≠ [] ∧
      ((∃ v, ReportedIn (displayPolynomials.firstPass E fieldRadio primeValue polynomials s).2.2 v) →
        ∀ v, v ∈ variableNames ↔
          ReportedIn (displayPolynomials.firstPass E fieldRadio primeValue polynomials s).2.2 v) ∧
      ((¬ ∃ v, ReportedIn (displayPolynomials.firstPass E fieldRadio primeValue polynomials s).2.2 v) →
        variableNames = ["x", "y", "z"]) ∧
      (displayPolynomials.firstPass E fieldRadio primeValue polynomials s).2.2.countP
        Event.isConstructorCall = polynomials.length := by
  obtain ⟨s1, pl, hp, hpb, hpc⟩ := displayPolynomials.setPrime_run E
    (displayPolynomials.field fieldRadio) primeValue s
  obtain ⟨acc, s2, l, hc, hnd, hmem, hcount⟩ := collectAll_spec E
    (displayPolynomials.field fieldRadio) polynomials [] s1
  have hrun : displayPolynomials.firstPass E fieldRadio primeValue polynomials s =
      (.ok (if (jsSort acc).length = 0 then ["x", "y", "z"] else jsSort acc), s2, pl ++ l) := by
    simp [displayPolynomials.firstPass, JS.bind_apply, JS.bind, hp, hc, pure, JS.pure]
  have hrep : ∀ v, ReportedIn (pl ++ l) v ↔ v ∈ acc := by
    intro v
    rw [reportedIn_append, hmem v]
    have := reportedIn_of_no_build pl hpb v
    simp [this]
  rw [hrun]
  have hperm := jsSort_perm acc
  by_cases hempty : acc = []
  · subst hempty
    refine ⟨["x", "y", "z"], by simp [jsSort], by decide, by decide, by simp, ?_, ?_, ?_⟩
    · rintro ⟨v, hv⟩
      exact absurd ((hrep v).mp hv) (by simp)
    · intro _; rfl
    · show (pl ++ l).countP Event.isConstructorCall = polynomials.length
      rw [List.countP_append, hpc, hcount]
      omega
  · have hlen : (jsSort acc).length ≠ 0 := by
      rw [hperm.length_eq]
      exact fun h => hempty (List.length_eq_zero.mp h)
    refine ⟨jsSort acc, by simp [hlen], jsSort_sorted acc, hperm.nodup_iff.mpr (hnd List.nodup_nil),
      fun h => hlen (by rw [h]; rfl), ?_, ?_, ?_⟩
    · intro _ v
      show v ∈ jsSort acc ↔ ReportedIn (pl ++ l) v
      rw [hrep v, hperm.mem_iff]
    · intro hno
      exfalso
      obtain ⟨v, hv⟩ := List.exists_mem_of_ne_nil acc hempty
      exact hno ⟨v, (hrep v).mpr hv⟩
    · show (pl ++ l).countP Event.isConstructorCall = polynomials.length
      rw [List.countP_append, hpc, hcount]
      omega


/-- C7 at concrete runs of the test double: the second of three lines fails to
parse and the names of the other two are collected; a single failing line
gives the default list. -/
theorem displayPolynomials_firstPass_variables_witness :
    (displayPolynomials.firstPass mockEngine (some "Q") "7" [.str "z+y", .str "?", .str "a"]
      MockState.initial).1 = .ok ["a", "y", "z"] ∧
    List.Sorted jsLe ["a", "y", "z"] ∧
    (displayPolynomials.firstPass mockEngine (some "Q") "7" [.str "?"] MockState.initial).1 =
      .ok ["x", "y", "z"] := by
  obtain ⟨names, h1, hsorted, _⟩ := displayPolynomials_firstPass_variables mockEngine
    (some "Q") "7" [.str "z+y", .str "?", .str "a"] MockState.initial (by simp)
  have h : (displayPolynomials.firstPass mockEngine (some "Q") "7"
      [.str "z+y", .str "?", .str "a"] MockState.initial).1 = .ok ["a", "y", "z"] := by decide
  rw [h] at h1
  simp only [Res.ok.injEq] at h1
  subst h1
  exact ⟨h, hsorted, by decide⟩

/-! ## C8: moduli rejected before any engine call -/

/-- A decimal digit is a digit of radix 10. -/
theorem digitValue_of_isDigit (c : Char) (h : c.isDigit = true) :
    digitValue 10 c = some (c.toNat - '0'.toNat) := by
  have hv : 48 ≤ c.val.toNat ∧ c.val.toNat ≤ 57 := by
    simp only [Char.isDigit, Bool.and_eq_true, decide_eq_true_eq] at h
    exact ⟨h.1, h.2⟩
  have h0 : '0' ≤ c ∧ c ≤ '9' := by
    constructor
    · show ('0' : Char).val ≤ c.val
      exact hv.1
    · show c.val ≤ ('9' : Char).val
      exact hv.2
  have hlt : c.toNat - '0'.toNat < 10 := by
    show c.val.toNat - 48 < 10
    omega
  have hlt' : c.toNat - 48 < 10 := hlt
  simp [digitValue, h0, hlt']

/-- A run of decimal digits is read in full. -/
theorem takeDigits_of_isDigit (digits : List Char) (h : ∀ c ∈ digits, c.isDigit = true) :
    takeDigits 10 digits = digits.map (fun c => c.toNat - '0'.toNat) := by
  induction digits with
  | nil => rfl
  | cons c cs ih =>
    simp [takeDigits, digitValue_of_isDigit c (h c (by simp)), ih (fun d hd => h d (by simp [hd]))]

/-- On a non-empty text of decimal digits `parseInt` is the number it denotes. -/
theorem parseInt_digits (digits : List Char) (hne : digits ≠ [])
    (h : ∀ c ∈ digits, c.isDigit = true) :
    parseInt (String.mk digits) = some (decimalValue digits : Int) := by
  cases digits with
  | nil => exact absurd rfl hne
  | cons c cs =>
    have hc := h c (by simp)
    have hv : 48 ≤ c.toNat ∧ c.toNat ≤ 57 := by
      simp only [Char.isDigit, Bool.and_eq_true, decide_eq_true_eq] at hc
      exact ⟨hc.1, hc.2⟩
    have hws : isStrWhiteSpace c = false := by
      simp only [isStrWhiteSpace, Bool.or_eq_false_iff, decide_eq_false_iff_not,
        Bool.and_eq_false_iff, List.mem_cons, List.mem_singleton, List.not_mem_nil, or_false]
      constructor
      · omega
      · left
        omega
    have hminus : c ≠ '-' := by
      rintro rfl
      simp at hv
    have hplus : c ≠ '+' := by
      rintro rfl
      simp at hv
    have hx1 : ¬ ((c :: cs).take 2 = ['0', 'x']) := by
      cases cs with
      | nil => simp
      | cons d ds =>
        intro heq
        simp only [List.take_succ_cons, List.take_zero, List.cons.injEq, and_true] at heq
        have hd := h d (by simp)
        rw [heq.2] at hd
        simp [Char.isDigit] at hd
    have hx2 : ¬ ((c :: cs).take 2 = ['0', 'X']) := by
      cases cs with
      | nil => simp
      | cons d ds =>
        intro heq
        simp only [List.take_succ_cons, List.take_zero, List.cons.injEq, and_true] at heq
        have hd := h d (by simp)
        rw [heq.2] at hd
        simp [Char.isDigit] at hd
    have htd := takeDigits_of_isDigit (c :: cs) h
    have hfold : ∀ (l : List Char) (a : Nat),
        List.foldl (fun acc d => acc * 10 + d) a (l.map (fun c => c.toNat - '0'.toNat)) =
          List.foldl (fun acc c => acc * 10 + (c.toNat - '0'.toNat)) a l := by
      intro l
      induction l with
      | nil => intro a; rfl
      | cons x xs ih =>
        intro a
        simp only [List.map_cons, List.foldl_cons]
        exact ih _
    unfold parseInt
    simp only [String.toList, List.dropWhile, hws, Bool.false_eq_true, if_false, List.head?_cons,
      Option.some.injEq, hminus, hplus, or_self, hx1, hx2, htd]
    rw [List.map_cons]
    simp only [List.foldl_cons, decimalValue]
    rw [hfold]


/-- C8, as amended: for field `'Fp'` and a non-empty polynomial list,
`validateInput` returns `{valid: false}`, calls no engine entry point and
leaves the engine state untouched whenever `parseInt` reads no integer from the
modulus text, or reads an integer below 2, or reads a non-prime integer; in
particular for every text of decimal digits that denotes a number below 2 or a
non-prime number. -/
theorem validateInput_rejects_modulus {σ : Type} (E : Engine σ) (operation : String)
    (polynomials : List JsValue) (prime : String) (s : σ) (hne : polynomials ≠ []) :
    ((parseInt prime = none ∨
        ∃ n, parseInt prime = some n ∧ (n < 2 ∨ ¬ Nat.Prime n.toNat)) →
      ∃ message, validateInput E "Fp" operation polynomials prime s =
        (.ok (.invalid message), s, [])) ∧
    (∀ digits : List Char, prime = String.mk digits → digits ≠ [] →
      (∀ c ∈ digits, c.isDigit = true) →
      (decimalValue digits < 2 ∨ ¬ Nat.Prime (decimalValue digits)) →
      ∃ message, validateInput E "Fp" operation polynomials prime s =
        (.ok (.invalid message), s, [])) := by
  have hlen : polynomials.length ≠ 0 := fun h => hne (List.length_eq_zero.mp h)
  have main : (parseInt prime = none ∨
      ∃ n, parseInt prime = some n ∧ (n < 2 ∨ ¬ Nat.Prime n.toNat)) →
      ∃ message, validateInput E "Fp" operation polynomials prime s =
        (.ok (.invalid message), s, []) := by
    rintro (hp | ⟨n, hp, hbad⟩)
    · exact ⟨"❌ Please enter a valid prime number ≥ 2 for finite field", by
        simp [validateInput, hlen, hp, pure, JS.pure]⟩
    · by_cases hn : n < 2
      · exact ⟨"❌ Please enter a valid prime number ≥ 2 for finite field", by
          simp [validateInput, hlen, hp, hn, pure, JS.pure]⟩
      · have hnp : ¬ Nat.Prime n.toNat := by
          rcases hbad with h | h
          · exact absurd h hn
          · exact h
        have hip : isPrime n = false := by
          cases hi : isPrime n with
          | false => rfl
          | true => exact absurd ((isPrime_eq_true_iff n).mp hi) hnp
        exact ⟨"❌ " ++ toString n ++ " is not a prime number", by
          simp [validateInput, hlen, hp, hn, hip, pure, JS.pure]⟩
  refine ⟨main, ?_⟩
  intro digits hprime hd hall hbad
  apply main
  right
  refine ⟨(decimalValue digits : Int), by rw [hprime]; exact parseInt_digits digits hd hall, ?_⟩
  rcases hbad with h | h
  · left
    omega
  · right
    simpa using h

/-- C8 at concrete moduli: the texts `abc`, `1` and `9` are rejected with no
engine call. -/
theorem validateInput_rejects_modulus_witness :
    (∃ message, validateInput mockEngine "Fp" "solve" [.str "x"] "abc" MockState.initial =
      (.ok (.invalid message), MockState.initial, [])) ∧
    (∃ message, validateInput mockEngine "Fp" "solve" [.str "x"] "1" MockState.initial =
      (.ok (.invalid message), MockState.initial, [])) ∧
    (∃ message, validateInput mockEngine "Fp" "solve" [.str "x"] "9" MockState.initial =
      (.ok (.invalid message), MockState.initial, [])) := by
  refine ⟨?_, ?_, ?_⟩
  · exact (validateInput_rejects_modulus mockEngine "solve" [.str "x"] "abc" MockState.initial
      (by simp)).1 (Or.inl (by decide))
  · exact (validateInput_rejects_modulus mockEngine "solve" [.str "x"] "1" MockState.initial
      (by simp)).1 (Or.inr ⟨1, by decide, Or.inl (by decide)⟩)
  · exact (validateInput_rejects_modulus mockEngine "solve" [.str "x"] "9" MockState.initial
      (by simp)).2 ['9'] rfl (by simp) (by simp [Char.isDigit])
      (Or.inr (by show ¬ Nat.Prime 9; norm_num))

/-- C8 fails as stated: the modulus text `7abc` is not numeric, yet
`validateInput` reads 7 from it, calls `GaloisField.setPrime(7)` and returns
`{valid: true}`. -/
theorem validateInput_rejects_modulus_counterexample :
    ("7abc".toList.all Char.isDigit) = false ∧
    validateInput mockEngine "Fp" "solve" [.str "x"] "7abc" MockState.initial =
      (.ok .valid, { MockState.initial with modulus := some 7 },
        [Event.setPrime 7 (.ok true)]) := by
  have hp : parseInt "7abc" = some 7 := by decide
  have h7 : isPrime 7 = true := by simp [isPrime, isPrime.loop]
  refine ⟨by decide, ?_⟩
  simp [validateInput, hp, h7, JS.tryCatch, JS.bind_apply, JS.bind, JS.call, mockEngine, pure,
    JS.pure, MockState.initial]

/-! ## C9: an unrecognised field -/

/-- C9, as amended: for every field other than `'Q'`, `'Fp'` and `'R'`,
`solveWithCpp` first constructs and fills the `StringVector`; the only engine
calls of the run are the constructor, `push_back` and `delete` (no `setPrime`,
build, solve, characteristic, `size` or `get` call); and when
`createStringVector` returns the vector, the run returns
`{success: false, error: 'Unknown field type: ' + field}` after the
constructor call, one `push_back` per line and the `delete` of the vector. -/
theorem solveWithCpp_unknown_field {σ : Type} (E : Engine σ) (field operation : String)
    (polynomials : List JsValue) (prime : String) (s : σ)
    (hq : field ≠ "Q") (hf : field ≠ "Fp") (hr : field ≠ "R") :
    (∀ ev ∈ (solveWithCpp E field operation polynomials prime s).2.2,
      ev.isConstructorCall = true ∨ ev.isPushBack = true ∨ ev.isDelete = true) ∧
    (∀ vec, (createStringVector E polynomials s).1 = .ok vec →
      (solveWithCpp E field operation polynomials prime s).1 =
        .ok (.failure ("Unknown field type: " ++ field)) ∧
      ∃ strs d, polynomials = strs.map JsValue.str ∧
        (solveWithCpp E field operation polynomials prime s).2.2 =
          Event.StringVector (.ok vec) :: (pushEvents vec strs ++ [Event.delete vec d])) := by
  have hbody : ∀ vec s1, solveWithCpp.body E field operation prime vec s1 =
      (.ok (.failure ("Unknown field type: " ++ field)), s1, []) := by
    intro vec s1
    simp [solveWithCpp.body, hq, hf, hr, pure, JS.pure]
  rcases createStringVector_cases E polynomials s with
    ⟨e, s1, h⟩ | ⟨vec, s1, strs, h, hs⟩ | ⟨vec, e, s1, pushes, d, h, h1, _, _⟩
  · rw [solveWithCpp_not_created E field operation polynomials prime s s1 e _ h, h]
    refine ⟨?_, ?_⟩
    · intro ev hev
      rw [List.mem_singleton.mp hev]
      exact Or.inl rfl
    · intro vec hv
      simp at hv
  · obtain ⟨d, s3, hrun⟩ := solveWithCpp_created E field operation polynomials prime s s1 vec _ h
    rw [hrun, hbody, h]
    refine ⟨?_, ?_⟩
    · intro ev hev
      have : ev = Event.StringVector (.ok vec) ∨ ev ∈ pushEvents vec strs ∨
          ev = Event.delete vec d := by
        simpa using hev
      rcases this with rfl | hp | rfl
      · exact Or.inl rfl
      · exact Or.inr (Or.inl (pushEvents_kinds vec strs ev hp).2.2.1)
      · exact Or.inr (Or.inr rfl)
    · intro vec' hv
      simp only [Res.ok.injEq] at hv
      subst hv
      exact ⟨rfl, strs, d, hs, by simp⟩
  · rw [solveWithCpp_not_created E field operation polynomials prime s s1 e _ h, h]
    refine ⟨?_, ?_⟩
    · intro ev hev
      have : ev = Event.StringVector (.ok vec) ∨ ev ∈ pushes ∨ ev = Event.delete vec d := by
        simpa using hev
      rcases this with rfl | hp | rfl
      · exact Or.inl rfl
      · exact Or.inr (Or.inl (h1 ev hp))
      · exact Or.inr (Or.inr rfl)
    · intro vec' hv
      simp at hv

/-- C9 at a concrete run: field `'C'` against the test double. -/
theorem solveWithCpp_unknown_field_witness :
    (solveWithCpp mockEngine "C" "solve" [.str "x+y"] "" MockState.initial).1 =
      .ok (.failure "Unknown field type: C") := by
  exact ((solveWithCpp_unknown_field mockEngine "C" "solve" [.str "x+y"] "" MockState.initial
    (by decide) (by decide) (by decide)).2 0 rfl).1

/-- C9 fails as stated: for the unrecognised field `'C'` a `StringVector` is
constructed, filled and deleted before the record is returned, where the claim
says that no `StringVector` is constructed and no engine entry point is
called. -/
theorem solveWithCpp_unknown_field_counterexample :
    (solveWithCpp mockEngine "C" "solve" [.str "x+y"] "" MockState.initial).1 =
      .ok (.failure "Unknown field type: C") ∧
    (solveWithCpp mockEngine "C" "solve" [.str "x+y"] "" MockState.initial).2.2.countP
      Event.isCreated = 1 ∧
    (solveWithCpp mockEngine "C" "solve" [.str "x+y"] "" MockState.initial).2.2.length = 3 := by
  decide

/-! ## C10: a build the engine rejects -/

/-- A field branch whose build call returned a failure ends with the error of
the build, or with the fallback text when the error is absent or empty, and
calls no solve or characteristic entry point. -/
theorem solveWithCpp.branch_build_failure {σ : Type} (E : Engine σ) (F : FieldTag)
    (field operation prime : String) (vec : Nat) (s : σ) (G : FieldTag) (vec' : Nat)
    (r : BuildResult)
    (hbuild : Event.buildSystemFromStrings G vec' (.ok r) ∈
      (solveWithCpp.branch E F field operation prime vec s).2.2)
    (hs : r.success = false) :
    (solveWithCpp.branch E F field operation prime vec s).1 =
      .ok (.failure (orDefault r.error "Unknown system building error")) ∧
    ∀ ev ∈ (solveWithCpp.branch E F field operation prime vec s).2.2,
      ev.isSolveOrCharacteristic = false := by
  have hx1 := not_mem_extractionLog
  rcases solveWithCpp.branch_cases E F field operation prime vec s with
    h | h | h | h | h | h | h | h | h | h <;>
  · repeat (obtain ⟨_, h⟩ := h)
    rw [h] at hbuild ⊢
    simp [hx1, Event.isVariablesRead] at hbuild
    all_goals
      obtain ⟨_, _, rfl⟩ := hbuild
      simp_all [Event.isSolveOrCharacteristic]

/-- C10, as amended: for every field among `'Q'`, `'Fp'`, `'R'` and every
operation: if in the run the build entry point of the field returned
`success = false`, then `solveWithCpp` calls no solve or characteristic entry
point and returns `{success: false, error: e}` with the error text `e` of the
build unmodified when that text is not empty, and
`{success: false, error: 'Unknown system building error'}` when the error text
is absent or empty. -/
theorem solveWithCpp_build_failure {σ : Type} (E : Engine σ) (field operation : String)
    (polynomials : List JsValue) (prime : String) (s : σ)
    (F : FieldTag) (vec : Nat) (r : BuildResult)
    (_hfield : fieldTag field = some F)
    (hbuild : Event.buildSystemFromStrings F vec (.ok r) ∈
      (solveWithCpp E field operation polynomials prime s).2.2)
    (hs : r.success = false) :
    (∀ e, r.error = some e → e ≠ "" →
      (solveWithCpp E field operation polynomials prime s).1 = .ok (.failure e)) ∧
    ((r.error = none ∨ r.error = some "") →
      (solveWithCpp E field operation polynomials prime s).1 =
        .ok (.failure "Unknown system building error")) ∧
    (∀ ev ∈ (solveWithCpp E field operation polynomials prime s).2.2,
      ev.isSolveOrCharacteristic = false) := by
  rcases solveWithCpp_inner E field operation polynomials prime s with
    hout | ⟨v, s1, strs, d, s3, _, _, h⟩
  · rcases hout _ hbuild with hc | hc | hc <;> simp [Event.isConstructorCall, Event.isPushBack,
      Event.isDelete] at hc
  · rw [h] at hbuild ⊢
    have hpushes := fun p hp => (pushEvents_kinds v strs p hp).2.2.1
    have hbuild' := mem_framed _ _ _ _ _ hbuild rfl rfl rfl rfl rfl hpushes
    have hmain : (solveWithCpp.body E field operation prime v s1).1 =
        .ok (.failure (orDefault r.error "Unknown system building error")) ∧
        ∀ ev ∈ (solveWithCpp.body E field operation prime v s1).2.2,
          ev.isSolveOrCharacteristic = false := by
      rcases solveWithCpp.body_cases E field operation prime v s1 with
        ⟨_, hb⟩ | ⟨_, _, hb⟩ | ⟨n, e, s2, _, _, _, _, hb⟩ | ⟨n, s2, _, _, _, _, hb⟩ |
        ⟨n, s2, _, _, _, _, hb⟩ | ⟨G, _, _, hb⟩
      · rw [hb] at hbuild'; simp at hbuild'
      · rw [hb] at hbuild'; simp at hbuild'
      · rw [hb] at hbuild'; simp at hbuild'
      · rw [hb] at hbuild'; simp at hbuild'
      · rw [hb] at hbuild' ⊢
        have hmem : Event.buildSystemFromStrings F vec (.ok r) ∈
            (solveWithCpp.branch E .GaloisField field operation prime v s2).2.2 := by
          simpa using hbuild'
        obtain ⟨h1, h2⟩ := solveWithCpp.branch_build_failure E .GaloisField field operation prime
          v s2 F vec r hmem hs
        refine ⟨h1, ?_⟩
        intro ev hev
        rcases List.mem_cons.mp hev with rfl | hev
        · rfl
        · exact h2 ev hev
      · rw [hb] at hbuild' ⊢
        exact solveWithCpp.branch_build_failure E G field operation prime v s1 F vec r hbuild' hs
    obtain ⟨h1, h2⟩ := hmain
    have hres : caught (solveWithCpp.body E field operation prime v s1).1 =
        .ok (.failure (orDefault r.error "Unknown system building error")) := by
      rw [h1]; rfl
    refine ⟨?_, ?_, ?_⟩
    · intro e he hne
      show caught (solveWithCpp.body E field operation prime v s1).1 = _
      rw [hres, he]
      simp [orDefault, hne]
    · intro he
      show caught (solveWithCpp.body E field operation prime v s1).1 = _
      rw [hres]
      rcases he with he | he <;> rw [he] <;> rfl
    · intro ev hev
      have : ev = Event.StringVector (.ok v) ∨ ev ∈ pushEvents v strs ∨
          ev ∈ (solveWithCpp.body E field operation prime v s1).2.2 ∨
          ev = Event.delete v d := by
        simpa using hev
      rcases this with rfl | hp | hb | rfl
      · rfl
      · obtain ⟨str, _, rfl⟩ := List.mem_map.mp hp
        rfl
      · exact h2 ev hb
      · rfl

/-- C10 at a concrete run: the test double rejects the line `x?` with its own
diagnostic, which is returned unmodified. -/
theorem solveWithCpp_build_failure_witness :
    (solveWithCpp mockEngine "Q" "solve" [.str "x?"] "" MockState.initial).1 =
      .ok (.failure "Invalid polynomial: x?") := by
  have hl : (solveWithCpp mockEngine "Q" "solve" [.str "x?"] "" MockState.initial).2.2 =
      [Event.StringVector (.ok 0), Event.push_back 0 "x?" (.ok ()),
        Event.buildSystemFromStrings .Rational 0 (.ok (mockBuild ["x?"] 0)),
        Event.delete 0 (.ok ())] := rfl
  exact (solveWithCpp_build_failure mockEngine "Q" "solve" [.str "x?"] "" MockState.initial
    .Rational 0 (mockBuild ["x?"] 0) rfl (by rw [hl]; simp) rfl).1
    "Invalid polynomial: x?" rfl (by decide)

/-- C10 fails as stated: when the build fails with the empty text as its error,
the record holds `'Unknown system building error'`, not the engine's text. -/
theorem solveWithCpp_build_failure_counterexample :
    (solveWithCpp emptyBuildError "Q" "solve" [.str "x"] "" MockState.initial).1 =
      .ok (.failure "Unknown system building error") ∧
    (solveWithCpp emptyBuildError "Q" "solve" [.str "x"] "" MockState.initial).1 ≠
      .ok (.failure "") ∧
    (solveWithCpp emptyBuildError "Q" "solve" [.str "x"] "" MockState.initial).2.2 =
      [Event.StringVector (.ok 0), Event.push_back 0 "x" (.ok ()),
        Event.buildSystemFromStrings .Rational 0 (.ok ⟨false, some "", none, .absent⟩),
        Event.delete 0 (.ok ())] := by
  exact ⟨by decide, by decide, rfl⟩

/-! ## C11: a build that yields no system or an empty one -/

/-- A field branch whose build call returned success with no system, or with a
system whose `size()` is 0, ends with the fixed error and calls no solve or
characteristic entry point. -/
theorem solveWithCpp.branch_empty_system {σ : Type} (E : Engine σ) (F : FieldTag)
    (field operation prime : String) (vec : Nat) (s : σ) (G : FieldTag) (vec' : Nat)
    (r : BuildResult)
    (hbuild : Event.buildSystemFromStrings G vec' (.ok r) ∈
      (solveWithCpp.branch E F field operation prime vec s).2.2)
    (hs : r.success = true)
    (hempty : r.polynomials = none ∨ ∃ system, r.polynomials = some system ∧ system.size = .ok 0) :
    (solveWithCpp.branch E F field operation prime vec s).1 =
      .ok (.failure "Empty system is not allowed") ∧
    ∀ ev ∈ (solveWithCpp.branch E F field operation prime vec s).2.2,
      ev.isSolveOrCharacteristic = false := by
  have hx1 := not_mem_extractionLog
  rcases solveWithCpp.branch_cases E F field operation prime vec s with
    h | h | h | h | h | h | h | h | h | h <;>
  · repeat (obtain ⟨_, h⟩ := h)
    rw [h] at hbuild ⊢
    simp [hx1, Event.isVariablesRead] at hbuild
    all_goals
      obtain ⟨_, _, rfl⟩ := hbuild
      rcases hempty with hempty | ⟨system, hempty, hsize⟩ <;>
        simp_all [Event.isSolveOrCharacteristic]

/-- C11: for every field among `'Q'`, `'Fp'`, `'R'` and every operation,
recognised or not: if in the run the build entry point of the field returned
`success = true` with the system absent, or with a system whose `size()`
returns 0, then `solveWithCpp` returns
`{success: false, error: 'Empty system is not allowed'}` and calls neither the
solve nor the characteristic-equations entry point. -/
theorem solveWithCpp_empty_system {σ : Type} (E : Engine σ) (field operation : String)
    (polynomials : List JsValue) (prime : String) (s : σ)
    (F : FieldTag) (vec : Nat) (r : BuildResult)
    (_hfield : fieldTag field = some F)
    (hbuild : Event.buildSystemFromStrings F vec (.ok r) ∈
      (solveWithCpp E field operation polynomials prime s).2.2)
    (hs : r.success = true)
    (hempty : r.polynomials = none ∨ ∃ system, r.polynomials = some system ∧ system.size = .ok 0) :
    (solveWithCpp E field operation polynomials prime s).1 =
      .ok (.failure "Empty system is not allowed") ∧
    (∀ ev ∈ (solveWithCpp E field operation polynomials prime s).2.2,
      ev.isSolveOrCharacteristic = false) := by
  rcases solveWithCpp_inner E field operation polynomials prime s with
    hout | ⟨v, s1, strs, d, s3, _, _, h⟩
  · rcases hout _ hbuild with hc | hc | hc <;> simp [Event.isConstructorCall, Event.isPushBack,
      Event.isDelete] at hc
  · rw [h] at hbuild ⊢
    have hpushes := fun p hp => (pushEvents_kinds v strs p hp).2.2.1
    have hbuild' := mem_framed _ _ _ _ _ hbuild rfl rfl rfl rfl rfl hpushes
    have hmain : (solveWithCpp.body E field operation prime v s1).1 =
        .ok (.failure "Empty system is not allowed") ∧
        ∀ ev ∈ (solveWithCpp.body E field operation prime v s1).2.2,
          ev.isSolveOrCharacteristic = false := by
      rcases solveWithCpp.body_cases E field operation prime v s1 with
        ⟨_, hb⟩ | ⟨_, _, hb⟩ | ⟨n, e, s2, _, _, _, _, hb⟩ | ⟨n, s2, _, _, _, _, hb⟩ |
        ⟨n, s2, _, _, _, _, hb⟩ | ⟨G, _, _, hb⟩
      · rw [hb] at hbuild'; simp at hbuild'
      · rw [hb] at hbuild'; simp at hbuild'
      · rw [hb] at hbuild'; simp at hbuild'
      · rw [hb] at hbuild'; simp at hbuild'
      · rw [hb] at hbuild' ⊢
        have hmem : Event.buildSystemFromStrings F vec (.ok r) ∈
            (solveWithCpp.branch E .GaloisField field operation prime v s2).2.2 := by
          simpa using hbuild'
        obtain ⟨h1, h2⟩ := solveWithCpp.branch_empty_system E .GaloisField field operation prime
          v s2 F vec r hmem hs hempty
        refine ⟨h1, ?_⟩
        intro ev hev
        rcases List.mem_cons.mp hev with rfl | hev
        · rfl
        · exact h2 ev hev
      · rw [hb] at hbuild' ⊢
        exact solveWithCpp.branch_empty_system E G field operation prime v s1 F vec r hbuild' hs
          hempty
    obtain ⟨h1, h2⟩ := hmain
    refine ⟨?_, ?_⟩
    · show caught (solveWithCpp.body E field operation prime v s1).1 = _
      rw [h1]; rfl
    · intro ev hev
      have : ev = Event.StringVector (.ok v) ∨ ev ∈ pushEvents v strs ∨
          ev ∈ (solveWithCpp.body E field operation prime v s1).2.2 ∨
          ev = Event.delete v d := by
        simpa using hev
      rcases this with rfl | hp | hb | rfl
      · rfl
      · obtain ⟨str, _, rfl⟩ := List.mem_map.mp hp
        rfl
      · exact h2 ev hb
      · rfl

/-- C11 at a concrete run: the test double accepts the line and hands back a
system of size 0; the operation name is not a recognised one. -/
theorem solveWithCpp_empty_system_witness :
    (solveWithCpp emptySystem "R" "factor" [.str "x"] "" MockState.initial).1 =
      .ok (.failure "Empty system is not allowed") ∧
    (∀ ev ∈ (solveWithCpp emptySystem "R" "factor" [.str "x"] "" MockState.initial).2.2,
      ev.isSolveOrCharacteristic = false) := by
  have hl : (solveWithCpp emptySystem "R" "factor" [.str "x"] "" MockState.initial).2.2 =
      [Event.StringVector (.ok 0), Event.push_back 0 "x" (.ok ()),
        Event.buildSystemFromStrings .Real 0 (.ok ⟨true, none, some ⟨0, .ok 0⟩, .absent⟩),
        Event.size ⟨0, .ok 0⟩ (.ok 0), Event.delete 0 (.ok ())] := rfl
  exact solveWithCpp_empty_system emptySystem "R" "factor" [.str "x"] "" MockState.initial
    .Real 0 ⟨true, none, some ⟨0, .ok 0⟩, .absent⟩ rfl (by rw [hl]; simp) rfl
    (Or.inr ⟨⟨0, .ok 0⟩, rfl, rfl⟩)

/-! ## C13: validation of an empty list -/

/-- C13: for every engine, field, operation and modulus, `validateInput` called
with an empty polynomial list returns `{valid: false}` with the message
`'❌ Please add at least one polynomial'`, makes no engine call and leaves the
engine state as it is. -/
theorem validateInput_empty_list {σ : Type} (E : Engine σ) (field operation prime : String)
    (s : σ) :
    validateInput E field operation [] prime s =
      (.ok (.invalid "❌ Please add at least one polynomial"), s, []) := by
  rfl

/-! ## C17: variables reported as a plain array -/

/-- C17 fails in the code: when the build reports the names `y` and `x` as a
plain array, `solveWithCpp` succeeds with an empty variable list and the count
0; the same names reported as a sized indexable collection give `['x', 'y']`
and the count 2. -/
theorem solveWithCpp_array_variables :
    (solveWithCpp arrayNames "Q" "solve" [.str "x+y"] "" MockState.initial).1 =
      .ok (.success "solution" 1 0 [] "Q" none) ∧
    (solveWithCpp vectorNames "Q" "solve" [.str "x+y"] "" MockState.initial).1 =
      .ok (.success "solution" 1 2 ["x", "y"] "Q" none) := by
  exact ⟨by decide, by decide⟩

/-! ## C14: the handles of `displayPolynomials` -/

/-- C14 fails in the code: with a build that throws, the line `x?` makes
`displayPolynomials` create two vectors, one in each pass, and delete none; the
call still completes. -/
theorem displayPolynomials_leaks_handles :
    (displayPolynomials buildThrows (some "Q") "" ["x?"] MockState.initial).2.2.countP
      Event.isCreated = 2 ∧
    (displayPolynomials buildThrows (some "Q") "" ["x?"] MockState.initial).2.2.countP
      Event.isDelete = 0 ∧
    (displayPolynomials buildThrows (some "Q") "" ["x?"] MockState.initial).2.2 =
      [Event.StringVector (.ok 0), Event.push_back 0 "x?" (.ok ()),
        Event.buildSystemFromStrings .Rational 0 (.threw boom),
        Event.inputStringToBetterString .Rational "x?" (.ok "Error parsing polynomial"),
        Event.StringVector (.ok 1), Event.push_back 1 "x?" (.ok ()),
        Event.buildSystemFromStrings .Rational 1 (.threw boom)] ∧
    (displayPolynomials buildThrows (some "Q") "" ["x?"] MockState.initial).2.1.vectors =
      [(1, ["x?"]), (0, ["x?"])] := by
  exact ⟨by decide, by decide, rfl, by decide⟩

/-! ## Runs of the second pass of `displayPolynomials` -/

/-- The runs of `createStringVector` on a single line. -/
theorem createStringVector_single {σ : Type} (E : Engine σ) (poly : String) (s : σ) :
    (∃ e s1, createStringVector E [.str poly] s =
      (.threw e, s1, [Event.StringVector (.threw e)])) ∨
    (∃ vec s1, createStringVector E [.str poly] s =
      (.ok vec, s1, [Event.StringVector (.ok vec), Event.push_back vec poly (.ok ())])) ∨
    (∃ vec e s1 d, createStringVector E [.str poly] s =
      (.threw e, s1, [Event.StringVector (.ok vec), Event.push_back vec poly (.threw e),
        Event.delete vec d])) := by
  rcases hc : E.StringVector s with ⟨vec | e, s1⟩
  · rcases hp : E.push_back vec poly s1 with ⟨u | e, s2⟩
    · right; left
      exact ⟨vec, s2, by
        simp [createStringVector, createStringVector.fill, JS.bind_apply, JS.bind, JS.call,
          JS.tryCatch, hc, hp, pure, JS.pure]⟩
    · right; right
      rcases hd : E.delete vec s2 with ⟨d, s3⟩
      refine ⟨vec, e, s3, d, ?_⟩
      cases d <;>
        simp [createStringVector, createStringVector.fill, JS.bind_apply, JS.bind, JS.call,
          JS.tryCatch, hc, hp, hd, pure, JS.pure, JS.throw]
  · left
    exact ⟨e, s1, by simp [createStringVector, JS.bind_apply, JS.bind, JS.call, hc]⟩

/-- The field switch around the build call makes the call of the family the
field selects, and none for a field that selects no family. -/
theorem displayPolynomials.build_field_cases {σ : Type} (E : Engine σ) (field : String)
    (vec : Nat) (s : σ) :
    (fieldTag field = none ∧ displayPolynomials.build E field vec s = (.ok none, s, [])) ∨
    (∃ F r s1, fieldTag field = some F ∧ displayPolynomials.build E field vec s =
      (.ok (some r), s1, [Event.buildSystemFromStrings F vec (.ok r)])) ∨
    (∃ F e s1, fieldTag field = some F ∧ displayPolynomials.build E field vec s =
      (.threw e, s1, [Event.buildSystemFromStrings F vec (.threw e)])) := by
  unfold displayPolynomials.build
  by_cases hq : field = "Q"
  · rcases hb : E.buildSystemFromStrings .Rational vec s with ⟨r | e, s1⟩
    · right; left
      exact ⟨.Rational, r, s1, by simp [fieldTag, hq], by
        simp [hq, JS.bind_apply, JS.bind, JS.call, hb, pure, JS.pure]⟩
    · right; right
      exact ⟨.Rational, e, s1, by simp [fieldTag, hq], by
        simp [hq, JS.bind_apply, JS.bind, JS.call, hb]⟩
  by_cases hf : field = "Fp"
  · rcases hb : E.buildSystemFromStrings .GaloisField vec s with ⟨r | e, s1⟩
    · right; left
      exact ⟨.GaloisField, r, s1, by simp [fieldTag, hf], by
        simp [hf, JS.bind_apply, JS.bind, JS.call, hb, pure, JS.pure]⟩
    · right; right
      exact ⟨.GaloisField, e, s1, by simp [fieldTag, hf], by
        simp [hf, JS.bind_apply, JS.bind, JS.call, hb]⟩
  by_cases hr : field = "R"
  · rcases hb : E.buildSystemFromStrings .Real vec s with ⟨r | e, s1⟩
    · right; left
      exact ⟨.Real, r, s1, by simp [fieldTag, hr], by
        simp [hr, JS.bind_apply, JS.bind, JS.call, hb, pure, JS.pure]⟩
    · right; right
      exact ⟨.Real, e, s1, by simp [fieldTag, hr], by
        simp [hr, JS.bind_apply, JS.bind, JS.call, hb]⟩
  left
  exact ⟨by simp [fieldTag, hq, hf, hr], by simp [hq, hf, hr, pure, JS.pure]⟩

/-- The field switch around the fast formatter makes the call of the family
the field selects, and none for a field that selects no family. -/
theorem displayPolynomials.format_cases {σ : Type} (E : Engine σ) (field poly : String)
    (s : σ) :
    (fieldTag field = none ∧ displayPolynomials.format E field poly s = (.ok none, s, [])) ∨
    (∃ F t s1, fieldTag field = some F ∧ displayPolynomials.format E field poly s =
      (.ok (some t), s1, [Event.inputStringToBetterString F poly (.ok t)])) ∨
    (∃ F e s1, fieldTag field = some F ∧ displayPolynomials.format E field poly s =
      (.threw e, s1, [Event.inputStringToBetterString F poly (.threw e)])) := by
  unfold displayPolynomials.format
  by_cases hq : field = "Q"
  · rcases hb : E.inputStringToBetterString .Rational poly s with ⟨r | e, s1⟩
    · right; left
      exact ⟨.Rational, r, s1, by simp [fieldTag, hq], by
        simp [hq, JS.bind_apply, JS.bind, JS.call, hb, pure, JS.pure]⟩
    · right; right
      exact ⟨.Rational, e, s1, by simp [fieldTag, hq], by
        simp [hq, JS.bind_apply, JS.bind, JS.call, hb]⟩
  by_cases hf : field = "Fp"
  · rcases hb : E.inputStringToBetterString .GaloisField poly s with ⟨r | e, s1⟩
    · right; left
      exact ⟨.GaloisField, r, s1, by simp [fieldTag, hf], by
        simp [hf, JS.bind_apply, JS.bind, JS.call, hb, pure, JS.pure]⟩
    · right; right
      exact ⟨.GaloisField, e, s1, by simp [fieldTag, hf], by
        simp [hf, JS.bind_apply, JS.bind, JS.call, hb]⟩
  by_cases hr : field = "R"
  · rcases hb : E.inputStringToBetterString .Real poly s with ⟨r | e, s1⟩
    · right; left
      exact ⟨.Real, r, s1, by simp [fieldTag, hr], by
        simp [hr, JS.bind_apply, JS.bind, JS.call, hb, pure, JS.pure]⟩
    · right; right
      exact ⟨.Real, e, s1, by simp [fieldTag, hr], by
        simp [hr, JS.bind_apply, JS.bind, JS.call, hb]⟩
  left
  exact ⟨by simp [fieldTag, hq, hf, hr], by simp [hq, hf, hr, pure, JS.pure]⟩

/-- The inner `catch` block calls nothing and leaves the engine state. -/
theorem displayPolynomials.onDetailedError_run {σ : Type} (e : Thrown) (s : σ) :
    displayPolynomials.onDetailedError e s = (detailedCaught e, s, []) := by
  cases e <;> rfl

/-- The runs of the detailed diagnostic of one line: the constructor throws;
`push_back` throws and `createStringVector` deletes the vector; the build
throws and nothing is deleted; the build returns (or the field selects none)
and `delete()` returns; or `delete()` throws. -/
theorem displayPolynomials.detailedStatus_cases {σ : Type} (E : Engine σ) (field poly : String)
    (s : σ) :
    (∃ e s1, displayPolynomials.detailedStatus E field poly s =
      (detailedCaught e, s1, [Event.StringVector (.threw e)])) ∨
    (∃ vec e s1 d, displayPolynomials.detailedStatus E field poly s =
      (detailedCaught e, s1, [Event.StringVector (.ok vec), Event.push_back vec poly (.threw e),
        Event.delete vec d])) ∨
    (∃ vec F e s1, fieldTag field = some F ∧ displayPolynomials.detailedStatus E field poly s =
      (detailedCaught e, s1, [Event.StringVector (.ok vec), Event.push_back vec poly (.ok ()),
        Event.buildSystemFromStrings F vec (.threw e)])) ∨
    (∃ vec s1, fieldTag field = none ∧ displayPolynomials.detailedStatus E field poly s =
      (.ok (displayPolynomials.buildStatus none), s1,
        [Event.StringVector (.ok vec), Event.push_back vec poly (.ok ()),
          Event.delete vec (.ok ())])) ∨
    (∃ vec e s1, fieldTag field = none ∧ displayPolynomials.detailedStatus E field poly s =
      (detailedCaught e, s1,
        [Event.StringVector (.ok vec), Event.push_back vec poly (.ok ()),
          Event.delete vec (.threw e)])) ∨
    (∃ vec F r s1, fieldTag field = some F ∧ displayPolynomials.detailedStatus E field poly s =
      (.ok (displayPolynomials.buildStatus (some r)), s1,
        [Event.StringVector (.ok vec), Event.push_back vec poly (.ok ()),
          Event.buildSystemFromStrings F vec (.ok r), Event.delete vec (.ok ())])) ∨
    (∃ vec F r e s1, fieldTag field = some F ∧ displayPolynomials.detailedStatus E field poly s =
      (detailedCaught e, s1,
        [Event.StringVector (.ok vec), Event.push_back vec poly (.ok ()),
          Event.buildSystemFromStrings F vec (.ok r), Event.delete vec (.threw e)])) := by
  have hx := @displayPolynomials.onDetailedError_run σ
  rcases createStringVector_single E poly s with ⟨e, s1, h⟩ | ⟨vec, s1, h⟩ | ⟨vec, e, s1, d, h⟩
  · left
    exact ⟨e, s1, by
      simp [displayPolynomials.detailedStatus, JS.tryCatch, JS.bind_apply, JS.bind, h, hx]⟩
  · rcases displayPolynomials.build_field_cases E field vec s1 with
      ⟨hf, hb⟩ | ⟨F, r, s2, hf, hb⟩ | ⟨F, e, s2, hf, hb⟩
    · rcases hd : E.delete vec s1 with ⟨d | e, s2⟩
      · right; right; right; left
        exact ⟨vec, s2, hf, by
          simp [displayPolynomials.detailedStatus, JS.tryCatch, JS.bind_apply, JS.bind, JS.call,
            h, hb, hd, pure, JS.pure]⟩
      · right; right; right; right; left
        exact ⟨vec, e, s2, hf, by
          simp [displayPolynomials.detailedStatus, JS.tryCatch, JS.bind_apply, JS.bind, JS.call,
            h, hb, hd, hx]⟩
    · rcases hd : E.delete vec s2 with ⟨d | e, s3⟩
      · right; right; right; right; right; left
        exact ⟨vec, F, r, s3, hf, by
          simp [displayPolynomials.detailedStatus, JS.tryCatch, JS.bind_apply, JS.bind, JS.call,
            h, hb, hd, pure, JS.pure]⟩
      · right; right; right; right; right; right
        exact ⟨vec, F, r, e, s3, hf, by
          simp [displayPolynomials.detailedStatus, JS.tryCatch, JS.bind_apply, JS.bind, JS.call,
            h, hb, hd, hx]⟩
    · right; right; left
      exact ⟨vec, F, e, s2, hf, by
        simp [displayPolynomials.detailedStatus, JS.tryCatch, JS.bind_apply, JS.bind, h, hb, hx]⟩
  · right; left
    exact ⟨vec, e, s1, d, by
      simp [displayPolynomials.detailedStatus, JS.tryCatch, JS.bind_apply, JS.bind, h, hx]⟩

/-- The outer `catch` block shows the message of the `TypeError` the inner
one raised. -/
theorem displayPolynomials.onLineError_typeError {σ : Type} (poly : String) (s : σ) :
    displayPolynomials.onLineError poly typeErrorOnNullish s =
      (.ok ⟨"polynomial-item error", poly, thrownStatus .nullish⟩, s, []) := by
  simp [displayPolynomials.onLineError, typeErrorOnNullish, thrownStatus, errorText, orDefault,
    pure, JS.pure]

/-- A line whose detailed diagnostic ended with a throw is rendered as an
error with the status of that throw. -/
theorem displayPolynomials.renderLine_thrown {σ : Type} (E : Engine σ) (field poly : String)
    (s s1 s2 : σ) (t : String) (pre dl : List Event) (e : Thrown)
    (hfmt : displayPolynomials.format E field poly s = (.ok (some t), s1, pre))
    (ht : t = "" ∨ t = "Error parsing polynomial")
    (hd : displayPolynomials.detailedStatus E field poly s1 = (detailedCaught e, s2, dl)) :
    displayPolynomials.renderLine E field poly s =
      (.ok ⟨"polynomial-item error", poly, thrownStatus e⟩, s2, pre ++ dl) := by
  have hb : displayPolynomials.isFormatted (some t) = false := by
    rcases ht with rfl | rfl <;> simp [displayPolynomials.isFormatted]
  cases e with
  | nullish =>
    simp [displayPolynomials.renderLine, JS.tryCatch, JS.bind_apply, JS.bind, hfmt, hb, hd,
      detailedCaught, displayPolynomials.onLineError_typeError, pure, JS.pure]
  | value m u =>
    simp [displayPolynomials.renderLine, JS.tryCatch, JS.bind_apply, JS.bind, hfmt, hb, hd,
      detailedCaught, thrownStatus, pure, JS.pure]

/-- The runs of the callback of the second pass for a field that selects a
family: the formatter throws; it returns a usable text; or it returns the
empty text or the sentinel and the detailed diagnostic runs. -/
theorem displayPolynomials.renderLine_cases {σ : Type} (E : Engine σ) (field poly : String)
    (F : FieldTag) (hF : fieldTag field = some F) (s : σ) :
    (∃ s1, displayPolynomials.renderLine E field poly s =
      (.threw typeErrorOnNullish, s1, [Event.inputStringToBetterString F poly (.threw .nullish)])) ∨
    (∃ m u s1, displayPolynomials.renderLine E field poly s =
      (.ok ⟨"polynomial-item error", poly, " ❌ " ++ errorText m u "Unknown error"⟩, s1,
        [Event.inputStringToBetterString F poly (.threw (.value m u))])) ∨
    (∃ t s1, t ≠ "" ∧ t ≠ "Error parsing polynomial" ∧
      displayPolynomials.renderLine E field poly s =
        (.ok ⟨"polynomial-item valid", t, " ✅"⟩, s1,
          [Event.inputStringToBetterString F poly (.ok t)])) ∨
    (∃ t e s1, (t = "" ∨ t = "Error parsing polynomial") ∧
      displayPolynomials.renderLine E field poly s =
        (.ok ⟨"polynomial-item error", poly, thrownStatus e⟩, s1,
          [Event.inputStringToBetterString F poly (.ok t), Event.StringVector (.threw e)])) ∨
    (∃ t vec e d s1, (t = "" ∨ t = "Error parsing polynomial") ∧
      displayPolynomials.renderLine E field poly s =
        (.ok ⟨"polynomial-item error", poly, thrownStatus e⟩, s1,
          [Event.inputStringToBetterString F poly (.ok t), Event.StringVector (.ok vec),
            Event.push_back vec poly (.threw e), Event.delete vec d])) ∨
    (∃ t vec e s1, (t = "" ∨ t = "Error parsing polynomial") ∧
      displayPolynomials.renderLine E field poly s =
        (.ok ⟨"polynomial-item error", poly, thrownStatus e⟩, s1,
          [Event.inputStringToBetterString F poly (.ok t), Event.StringVector (.ok vec),
            Event.push_back vec poly (.ok ()), Event.buildSystemFromStrings F vec (.threw e)])) ∨
    (∃ t vec r s1, (t = "" ∨ t = "Error parsing polynomial") ∧
      displayPolynomials.renderLine E field poly s =
        (.ok ⟨"polynomial-item error", poly, displayPolynomials.buildStatus (some r)⟩, s1,
          [Event.inputStringToBetterString F poly (.ok t), Event.StringVector (.ok vec),
            Event.push_back vec poly (.ok ()), Event.buildSystemFromStrings F vec (.ok r),
            Event.delete vec (.ok ())])) ∨
    (∃ t vec r e s1, (t = "" ∨ t = "Error parsing polynomial") ∧
      displayPolynomials.renderLine E field poly s =
        (.ok ⟨"polynomial-item error", poly, thrownStatus e⟩, s1,
          [Event.inputStringToBetterString F poly (.ok t), Event.StringVector (.ok vec),
            Event.push_back vec poly (.ok ()), Event.buildSystemFromStrings F vec (.ok r),
            Event.delete vec (.threw e)])) := by
  rcases displayPolynomials.format_cases E field poly s with
    ⟨hf, _⟩ | ⟨F', t, s1, hf, hfmt⟩ | ⟨F', e, s1, hf, hfmt⟩
  · rw [hF] at hf; exact absurd hf (by simp)
  · obtain rfl : F = F' := Option.some.inj (hF.symm.trans hf)
    by_cases ht : t = "" ∨ t = "Error parsing polynomial"
    · right; right; right
      rcases displayPolynomials.detailedStatus_cases E field poly s1 with
        ⟨e, s2, hd⟩ | ⟨vec, e, s2, d, hd⟩ | ⟨vec, G, e, s2, hg, hd⟩ | ⟨vec, s2, hg, _⟩ |
        ⟨vec, e, s2, hg, _⟩ | ⟨vec, G, r, s2, hg, hd⟩ | ⟨vec, G, r, e, s2, hg, hd⟩
      · left
        exact ⟨t, e, s2, ht, displayPolynomials.renderLine_thrown E field poly s s1 s2 t _ _ e
          hfmt ht hd⟩
      · right; left
        exact ⟨t, vec, e, d, s2, ht,
          displayPolynomials.renderLine_thrown E field poly s s1 s2 t _ _ e hfmt ht hd⟩
      · obtain rfl : F = G := Option.some.inj (hF.symm.trans hg)
        right; right; left
        exact ⟨t, vec, e, s2, ht,
          displayPolynomials.renderLine_thrown E field poly s s1 s2 t _ _ e hfmt ht hd⟩
      · rw [hF] at hg; exact absurd hg (by simp)
      · rw [hF] at hg; exact absurd hg (by simp)
      · obtain rfl : F = G := Option.some.inj (hF.symm.trans hg)
        right; right; right; left
        have hb : displayPolynomials.isFormatted (some t) = false := by
          rcases ht with rfl | rfl <;> simp [displayPolynomials.isFormatted]
        exact ⟨t, vec, r, s2, ht, by
          simp [displayPolynomials.renderLine, JS.tryCatch, JS.bind_apply, JS.bind, hfmt, hb, hd,
            pure, JS.pure]⟩
      · obtain rfl : F = G := Option.some.inj (hF.symm.trans hg)
        right; right; right; right
        exact ⟨t, vec, r, e, s2, ht,
          displayPolynomials.renderLine_thrown E field poly s s1 s2 t _ _ e hfmt ht hd⟩
    · right; right; left
      have h1 : t ≠ "" := fun h => ht (Or.inl h)
      have h2 : t ≠ "Error parsing polynomial" := fun h => ht (Or.inr h)
      exact ⟨t, s1, h1, h2, by
        simp [displayPolynomials.renderLine, JS.tryCatch, JS.bind_apply, JS.bind, hfmt,
          displayPolynomials.isFormatted, h1, h2, orDefault, pure, JS.pure]⟩
  · obtain rfl : F = F' := Option.some.inj (hF.symm.trans hf)
    cases e with
    | nullish =>
      left
      exact ⟨s1, by
        simp [displayPolynomials.renderLine, JS.tryCatch, JS.bind_apply, JS.bind, hfmt,
          displayPolynomials.onLineError, JS.throw]⟩
    | value m u =>
      right; left
      exact ⟨m, u, s1, by
        simp [displayPolynomials.renderLine, JS.tryCatch, JS.bind_apply, JS.bind, hfmt,
          displayPolynomials.onLineError, pure, JS.pure]⟩

/-! ## Calls of `setPrime` in `displayPolynomials` -/

/-- Sequencing two parts that do not call `setPrime` does not call it. -/
theorem JS.bind_no_setPrime {σ α β : Type} (m : JS σ α) (k : α → JS σ β)
    (hm : ∀ s, ∀ ev ∈ (m s).2.2, ev.isSetPrime = false)
    (hk : ∀ a s, ∀ ev ∈ (k a s).2.2, ev.isSetPrime = false) :
    ∀ s, ∀ ev ∈ ((m >>= k) s).2.2, ev.isSetPrime = false := by
  intro s ev hev
  rw [JS.bind_apply] at hev
  unfold JS.bind at hev
  have h1 := hm s
  rcases hms : m s with ⟨a | e, s1, l1⟩
  · rw [hms] at hev h1
    rcases List.mem_append.mp hev with h | h
    · exact h1 ev h
    · exact hk a s1 ev h
  · rw [hms] at hev h1
    exact h1 ev hev

/-- A `try`/`catch` of two parts that do not call `setPrime` does not call it. -/
theorem JS.tryCatch_no_setPrime {σ α : Type} (m : JS σ α) (handler : Thrown → JS σ α)
    (hm : ∀ s, ∀ ev ∈ (m s).2.2, ev.isSetPrime = false)
    (hh : ∀ e s, ∀ ev ∈ (handler e s).2.2, ev.isSetPrime = false) :
    ∀ s, ∀ ev ∈ (JS.tryCatch m handler s).2.2, ev.isSetPrime = false := by
  intro s ev hev
  unfold JS.tryCatch at hev
  have h1 := hm s
  rcases hms : m s with ⟨a | e, s1, l1⟩
  · rw [hms] at hev h1
    exact h1 ev hev
  · rw [hms] at hev h1
    rcases List.mem_append.mp hev with h | h
    · exact h1 ev h
    · exact hh e s1 ev h

/-- The function `createStringVector` does not call `setPrime`. -/
theorem createStringVector_no_setPrime {σ : Type} (E : Engine σ) (strings : List JsValue) :
    ∀ s, ∀ ev ∈ (createStringVector E strings s).2.2, ev.isSetPrime = false := by
  intro s ev hev
  rcases createStringVector_cases E strings s with
    ⟨e, s1, h⟩ | ⟨vec, s1, strs, h, _⟩ | ⟨vec, e, s1, pushes, d, h, h1, _, _⟩
  · rw [h] at hev
    rw [List.mem_singleton.mp hev]; rfl
  · rw [h] at hev
    rcases List.mem_cons.mp hev with rfl | hev
    · rfl
    · obtain ⟨str, _, rfl⟩ := List.mem_map.mp hev
      rfl
  · rw [h] at hev
    have : ev = Event.StringVector (.ok vec) ∨ ev ∈ pushes ∨ ev = Event.delete vec d := by
      simpa using hev
    rcases this with rfl | hp | rfl
    · rfl
    · have := h1 ev hp
      cases ev <;> simp_all [Event.isPushBack, Event.isSetPrime]
    · rfl

/-- The callback of the first pass does not call `setPrime`. -/
theorem displayPolynomials.collect_no_setPrime {σ : Type} (E : Engine σ) (field : String)
    (poly : JsValue) (acc : List String) :
    ∀ s, ∀ ev ∈ (displayPolynomials.collect E field poly acc s).2.2, ev.isSetPrime = false := by
  have hpure : ∀ (α : Type) (a : α) (s : σ), ∀ ev ∈ ((pure a : JS σ α) s).2.2,
      ev.isSetPrime = false := by
    intro α a s ev hev
    simp [pure, JS.pure] at hev
  unfold displayPolynomials.collect
  apply JS.tryCatch_no_setPrime
  · apply JS.bind_no_setPrime _ _ (createStringVector_no_setPrime E [poly])
    intro vec
    apply JS.bind_no_setPrime
    · intro s ev hev
      rcases displayPolynomials.build_cases E field vec s with h | ⟨F, r, s1, h⟩ | ⟨F, e, s1, h⟩ <;>
        rw [h] at hev <;> simp at hev <;> rw [hev] <;> rfl
    intro sr
    apply JS.bind_no_setPrime
    · intro s ev hev
      obtain ⟨acc', flag, xl, hx, hxl, _, _⟩ := extract_spec sr acc s
      rw [hx] at hev
      exact (isVariablesRead_kinds ev (hxl ev hev)).2.2.2.1
    intro extracted
    split
    · exact hpure _ _
    · apply JS.tryCatch_no_setPrime
      · apply JS.bind_no_setPrime
        · intro s ev hev
          simp only [JS.call] at hev
          rw [List.mem_singleton.mp hev]; rfl
        · intro _
          exact hpure _ _
      · intro _
        exact hpure _ _
  · intro _
    exact hpure _ _

/-- The first loop does not call `setPrime`. -/
theorem displayPolynomials.collectAll_no_setPrime {σ : Type} (E : Engine σ) (field : String)
    (polynomials : List JsValue) (acc : List String) :
    ∀ s, ∀ ev ∈ (displayPolynomials.collectAll E field polynomials acc s).2.2,
      ev.isSetPrime = false := by
  induction polynomials generalizing acc with
  | nil =>
    intro s ev hev
    simp [displayPolynomials.collectAll, pure, JS.pure] at hev
  | cons poly rest ih =>
    unfold displayPolynomials.collectAll
    exact JS.bind_no_setPrime _ _ (displayPolynomials.collect_no_setPrime E field poly acc)
      (fun added => ih added)

/-- The callback of the second pass does not call `setPrime`. -/
theorem displayPolynomials.renderLine_no_setPrime {σ : Type} (E : Engine σ) (field poly : String)
    (F : FieldTag) (hF : fieldTag field = some F) :
    ∀ s, ∀ ev ∈ (displayPolynomials.renderLine E field poly s).2.2, ev.isSetPrime = false := by
  intro s ev hev
  rcases displayPolynomials.renderLine_cases E field poly F hF s with
    h | h | h | h | h | h | h | h <;>
  · repeat (obtain ⟨_, h⟩ := h)
    rw [h] at hev
    simp only [List.mem_cons, List.mem_singleton, List.not_mem_nil, or_false] at hev
    rcases hev with rfl | rfl | rfl | rfl | rfl <;> rfl

/-- The second loop does not call `setPrime`. -/
theorem displayPolynomials.secondPass_no_setPrime {σ : Type} (E : Engine σ) (field : String)
    (F : FieldTag) (hF : fieldTag field = some F) (variableNames : List String)
    (polynomials : List String) (index : Nat) (html : String) :
    ∀ s, ∀ ev ∈ (displayPolynomials.secondPass E field variableNames polynomials index html s).2.2,
      ev.isSetPrime = false := by
  induction polynomials generalizing index html with
  | nil =>
    intro s ev hev
    simp [displayPolynomials.secondPass, pure, JS.pure] at hev
  | cons poly rest ih =>
    unfold displayPolynomials.secondPass
    exact JS.bind_no_setPrime _ _ (displayPolynomials.renderLine_no_setPrime E field poly F hF)
      (fun view => ih _ _)

/-- The block that sets the modulus calls `setPrime` once, with the number read
from the modulus text, when the field is `'Fp'` and that number is a prime
`≥ 2`; it makes no call otherwise. -/
theorem displayPolynomials.setPrime_log {σ : Type} (E : Engine σ) (primeValue : String)
    (s : σ) :
    (∀ n, parseInt primeValue = some n → 2 ≤ n → isPrime n = true →
      ∃ reply, (displayPolynomials.setPrime E "Fp" primeValue s).2.2 = [Event.setPrime n reply]) ∧
    ((∀ n, parseInt primeValue = some n → n < 2 ∨ isPrime n = false) →
      (displayPolynomials.setPrime E "Fp" primeValue s).2.2 = []) ∧
    (displayPolynomials.setPrime E "Fp" primeValue s).1 = .ok () := by
  unfold displayPolynomials.setPrime
  cases hp : parseInt primeValue with
  | none => simp [pure, JS.pure]
  | some n =>
    by_cases hc : (decide (n ≥ 2) && isPrime n) = true
    · have hc' := hc
      simp only [Bool.and_eq_true, decide_eq_true_eq] at hc'
      rcases hs : E.setPrime n s with ⟨b | e, s1⟩
      · refine ⟨?_, ?_, ?_⟩
        · intro k hk _ _
          obtain rfl : n = k := Option.some.inj hk
          exact ⟨.ok b, by
            simp [hc, JS.tryCatch, JS.bind_apply, JS.bind, JS.call, hs, pure, JS.pure]⟩
        · intro hall
          rcases hall n rfl with h | h
          · omega
          · rw [hc'.2] at h; exact absurd h (by simp)
        · simp [hc, JS.tryCatch, JS.bind_apply, JS.bind, JS.call, hs, pure, JS.pure]
      · refine ⟨?_, ?_, ?_⟩
        · intro k hk _ _
          obtain rfl : n = k := Option.some.inj hk
          exact ⟨.threw e, by
            simp [hc, JS.tryCatch, JS.bind_apply, JS.bind, JS.call, hs, pure, JS.pure]⟩
        · intro hall
          rcases hall n rfl with h | h
          · omega
          · rw [hc'.2] at h; exact absurd h (by simp)
        · simp [hc, JS.tryCatch, JS.bind_apply, JS.bind, JS.call, hs, pure, JS.pure]
    · refine ⟨?_, ?_, ?_⟩
      · intro k hk h2 h3
        obtain rfl : n = k := Option.some.inj hk
        exact absurd (by simp [h2, h3]) hc
      · intro _
        simp [hc, pure, JS.pure]
      · simp [hc, pure, JS.pure]

/-- For the field `'Fp'` and a list that is not empty, the calls of
`displayPolynomials` are those of the block that sets the modulus, followed by
calls that are no `setPrime` calls. -/
theorem displayPolynomials_log_Fp {σ : Type} (E : Engine σ) (primeValue : String)
    (polynomials : List String) (hne : polynomials ≠ []) (s : σ) :
    ∃ rest, (displayPolynomials E (some "Fp") primeValue polynomials s).2.2 =
        (displayPolynomials.setPrime E "Fp" primeValue s).2.2 ++ rest ∧
      ∀ ev ∈ rest, ev.isSetPrime = false := by
  obtain ⟨s1, pl, hp, _, _⟩ := displayPolynomials.setPrime_run E "Fp" primeValue s
  obtain ⟨acc, s2, l, hc, _, _, _⟩ := collectAll_spec E "Fp" (polynomials.map JsValue.str) [] s1
  have hl := displayPolynomials.collectAll_no_setPrime E "Fp" (polynomials.map JsValue.str) [] s1
  rw [hc] at hl
  have hlen : polynomials.length ≠ 0 := fun h => hne (List.length_eq_zero.mp h)
  refine ⟨l ++ (displayPolynomials.secondPass E "Fp"
    (if (jsSort acc).length = 0 then ["x", "y", "z"] else jsSort acc) polynomials 0 "" s2).2.2,
    ?_, ?_⟩
  · simp [displayPolynomials, displayPolynomials.firstPass, displayPolynomials.field, hlen,
      JS.bind_apply, JS.bind, hp, hc, pure, JS.pure]
  · intro ev hev
    rcases List.mem_append.mp hev with h | h
    · exact hl ev h
    · exact displayPolynomials.secondPass_no_setPrime E "Fp" .GaloisField rfl _ polynomials 0 ""
        s2 ev h

/-! ## C15: the modulus is set before the finite-field calls -/

/-- C15, as amended: for every run of `displayPolynomials` with field `'Fp'`
and a list of lines that is not empty: when `parseInt` reads from the modulus
text a prime `n ≥ 2`, the first engine call of the run is
`GaloisField.setPrime(n)`, whatever it returns or throws, and no other
`setPrime` call follows, so it precedes every finite-field call of the run;
when the modulus text holds no such number (it is not a number, is below 2 or
is composite), the run makes no `setPrime` call at all. -/
theorem displayPolynomials_setPrime_first {σ : Type} (E : Engine σ) (primeValue : String)
    (polynomials : List String) (hne : polynomials ≠ []) (s : σ) :
    (∀ n, parseInt primeValue = some n → 2 ≤ n → isPrime n = true →
      ∃ reply rest, (displayPolynomials E (some "Fp") primeValue polynomials s).2.2 =
          Event.setPrime n reply :: rest ∧
        ∀ ev ∈ rest, ev.isSetPrime = false) ∧
    ((∀ n, parseInt primeValue = some n → n < 2 ∨ isPrime n = false) →
      ∀ ev ∈ (displayPolynomials E (some "Fp") primeValue polynomials s).2.2,
        ev.isSetPrime = false) := by
  obtain ⟨rest, hlog, hrest⟩ := displayPolynomials_log_Fp E primeValue polynomials hne s
  obtain ⟨h1, h2, _⟩ := displayPolynomials.setPrime_log E primeValue s
  constructor
  · intro n hn h2n hpn
    obtain ⟨reply, hr⟩ := h1 n hn h2n hpn
    exact ⟨reply, rest, by rw [hlog, hr]; rfl, hrest⟩
  · intro hall
    rw [hlog, h2 hall]
    exact hrest

/-- C15 at a concrete run: with the modulus text `7` the run starts with
`setPrime(7)` and the finite-field calls follow it. -/
theorem displayPolynomials_setPrime_first_witness :
    ∃ reply rest, (displayPolynomials mockEngine (some "Fp") "7" ["x"] MockState.initial).2.2 =
        Event.setPrime 7 reply :: rest ∧
      ∀ ev ∈ rest, ev.isSetPrime = false :=
  (displayPolynomials_setPrime_first mockEngine "7" ["x"] (by simp) MockState.initial).1 7
    (by decide) (by decide) (by simp [isPrime, isPrime.loop])

/-- C15 fails as stated: with the field `'Fp'` and the modulus text `4`, the
run calls the finite-field build and the finite-field formatter, and never
`setPrime`: the modulus of the test double is never set. -/
theorem displayPolynomials_setPrime_first_counterexample :
    (displayPolynomials mockEngine (some "Fp") "4" ["x"] MockState.initial).2.2 =
      [Event.StringVector (.ok 0), Event.push_back 0 "x" (.ok ()),
        Event.buildSystemFromStrings .GaloisField 0 (.ok (mockBuild ["x"] 0)),
        Event.variablesSize (.ok 1), Event.variablesSize (.ok 1), Event.variablesGet 0 (.ok "x"),
        Event.variablesSize (.ok 1), Event.delete 0 (.ok ()),
        Event.inputStringToBetterString .GaloisField "x" (.ok "x")] ∧
    (displayPolynomials mockEngine (some "Fp") "4" ["x"] MockState.initial).2.2.countP
      Event.isSetPrime = 0 ∧
    (displayPolynomials mockEngine (some "Fp") "4" ["x"] MockState.initial).2.2.countP
      Event.isFiniteField = 2 ∧
    (displayPolynomials mockEngine (some "Fp") "4" ["x"] MockState.initial).2.1.modulus = none := by
  exact ⟨rfl, by decide, by decide, by decide⟩

/-! ## The status the second pass chooses -/

/-- The status after a build that failed with a text. -/
theorem displayPolynomials.buildStatus_failure (r : BuildResult) (e : String)
    (hs : r.success = false) (he : r.error = some e) (hne : e ≠ "") :
    displayPolynomials.buildStatus (some r) = " ❌ " ++ e := by
  simp [displayPolynomials.buildStatus, hs, he, hne]

/-- The status after a build that succeeded or failed without a text. -/
theorem displayPolynomials.buildStatus_generic (r : BuildResult)
    (h : r.success = true ∨ r.error = none ∨ r.error = some "") :
    displayPolynomials.buildStatus (some r) = " ❌ Error parsing polynomial" := by
  rcases h with h | h | h
  · cases he : r.error <;> simp [displayPolynomials.buildStatus, h, he]
  · simp [displayPolynomials.buildStatus, h]
  · simp [displayPolynomials.buildStatus, h]

/-! ## C16: the status of a line of the preview -/

/-- C16, as amended: for every line of the live preview under a field among
`'Q'`, `'Fp'`, `'R'`: (1) if the fast formatter of the field returns a text
that is not empty and is not the sentinel `'Error parsing polynomial'`, the
line is marked valid, shown as that text with the status `' ✅'`, and the
display pass creates no vector and makes no build call for it; (2) if the fast
formatter throws a value, no build call is made either: the line is marked as
an error and the status shows the message of the value, else its text
conversion, else `'Unknown error'`; (3) if the formatter returns the empty text
or the sentinel, the constructor of the single-line vector is called and, once
the line is pushed, the single-line build of the field is re-run; (4) if that
build reports failure with an error text `e` that is not empty and `delete()`
returns, the status shows `e`; (5) if the build reports success, or failure
with an absent or empty error text, and `delete()` returns, the status shows
`'Error parsing polynomial'`; (6) if the constructor, `push_back`, the build or
the `delete()` after the build throws a value, the status shows its message,
else its text conversion, else `'Unknown parsing error'`; (7) every line that
is rendered is either marked valid, which happens only in case (1), or marked
as an error and shown as typed. -/
theorem displayPolynomials_line_status {σ : Type} (E : Engine σ) (field poly : String)
    (F : FieldTag) (hF : fieldTag field = some F) (s : σ) :
    (∀ t, Event.inputStringToBetterString F poly (.ok t) ∈
        (displayPolynomials.renderLine E field poly s).2.2 →
      t ≠ "" → t ≠ "Error parsing polynomial" →
      (displayPolynomials.renderLine E field poly s).1 =
        .ok ⟨"polynomial-item valid", t, " ✅"⟩ ∧
      ∀ ev ∈ (displayPolynomials.renderLine E field poly s).2.2,
        ev.isBuild = false ∧ ev.isConstructorCall = false) ∧
    (∀ m u, Event.inputStringToBetterString F poly (.threw (.value m u)) ∈
        (displayPolynomials.renderLine E field poly s).2.2 →
      (displayPolynomials.renderLine E field poly s).1 =
        .ok ⟨"polynomial-item error", poly, " ❌ " ++ errorText m u "Unknown error"⟩ ∧
      ∀ ev ∈ (displayPolynomials.renderLine E field poly s).2.2,
        ev.isBuild = false ∧ ev.isConstructorCall = false) ∧
    (∀ t vec, Event.inputStringToBetterString F poly (.ok t) ∈
        (displayPolynomials.renderLine E field poly s).2.2 →
      (t = "" ∨ t = "Error parsing polynomial") →
      ((∃ reply, Event.StringVector reply ∈ (displayPolynomials.renderLine E field poly s).2.2) ∧
       (Event.push_back vec poly (.ok ()) ∈ (displayPolynomials.renderLine E field poly s).2.2 →
        ∃ reply, Event.buildSystemFromStrings F vec reply ∈
          (displayPolynomials.renderLine E field poly s).2.2))) ∧
    (∀ vec r e, Event.buildSystemFromStrings F vec (.ok r) ∈
        (displayPolynomials.renderLine E field poly s).2.2 →
      Event.delete vec (.ok ()) ∈ (displayPolynomials.renderLine E field poly s).2.2 →
      r.success = false → r.error = some e → e ≠ "" →
      (displayPolynomials.renderLine E field poly s).1 =
        .ok ⟨"polynomial-item error", poly, " ❌ " ++ e⟩) ∧
    (∀ vec r, Event.buildSystemFromStrings F vec (.ok r) ∈
        (displayPolynomials.renderLine E field poly s).2.2 →
      Event.delete vec (.ok ()) ∈ (displayPolynomials.renderLine E field poly s).2.2 →
      (r.success = true ∨ r.error = none ∨ r.error = some "") →
      (displayPolynomials.renderLine E field poly s).1 =
        .ok ⟨"polynomial-item error", poly, " ❌ Error parsing polynomial"⟩) ∧
    (∀ ev ∈ (displayPolynomials.renderLine E field poly s).2.2, ∀ m u,
      ev.isFormatter = false → ev.thrown = some (.value m u) →
      (ev.isDelete = true → ∃ vec r, Event.buildSystemFromStrings F vec (.ok r) ∈
        (displayPolynomials.renderLine E field poly s).2.2) →
      (displayPolynomials.renderLine E field poly s).1 =
        .ok ⟨"polynomial-item error", poly, " ❌ " ++ errorText m u "Unknown parsing error"⟩) ∧
    (∀ view, (displayPolynomials.renderLine E field poly s).1 = .ok view →
      (view.className = "polynomial-item valid" ∧
        ∃ t, Event.inputStringToBetterString F poly (.ok t) ∈
          (displayPolynomials.renderLine E field poly s).2.2 ∧
          t ≠ "" ∧ t ≠ "Error parsing polynomial") ∨
      (view.className = "polynomial-item error" ∧ view.displayPoly = poly)) := by
  have hf := displayPolynomials.buildStatus_failure
  have hg := displayPolynomials.buildStatus_generic
  rcases displayPolynomials.renderLine_cases E field poly F hF s with
    h | h | h | h | h | h | h | h <;>
  · repeat (obtain ⟨_, h⟩ := h)
    rw [h]
    refine ⟨?_, ?_, ?_, ?_, ?_, ?_, ?_⟩
    · intros
      simp_all [Event.isBuild, Event.isConstructorCall]
    · intros
      simp_all [Event.isBuild, Event.isConstructorCall]
    · intros
      simp_all
    · intros
      simp_all
    · intros
      simp_all
    · intro ev hev m u h1 h2 h3
      simp only [List.mem_cons, List.mem_singleton, List.not_mem_nil, or_false] at hev
      rcases hev with rfl | rfl | rfl | rfl | rfl <;>
        simp_all [Event.thrown, Event.isFormatter, Event.isDelete, thrownStatus]
    · intro view hv
      cases hv <;> simp_all

/-- C16 at a concrete run: the test double formats no line holding `?`; the
build is re-run on the line `x?` and its diagnostic becomes the status. -/
theorem displayPolynomials_line_status_witness :
    (displayPolynomials.renderLine mockEngine "Q" "x?" MockState.initial).1 =
      .ok ⟨"polynomial-item error", "x?", " ❌ Invalid polynomial: x?"⟩ := by
  have hl : (displayPolynomials.renderLine mockEngine "Q" "x?" MockState.initial).2.2 =
      [Event.inputStringToBetterString .Rational "x?" (.ok "Error parsing polynomial"),
        Event.StringVector (.ok 0), Event.push_back 0 "x?" (.ok ()),
        Event.buildSystemFromStrings .Rational 0 (.ok (mockBuild ["x?"] 0)),
        Event.delete 0 (.ok ())] := rfl
  exact (displayPolynomials_line_status mockEngine "Q" "x?" .Rational rfl
    MockState.initial).2.2.2.1 0 (mockBuild ["x?"] 0) "Invalid polynomial: x?"
    (by rw [hl]; simp) (by rw [hl]; simp) rfl rfl (by decide)

/-- C16 fails as stated: when the re-run build throws a value with no message
and an empty text conversion, the status is `'Unknown parsing error'`, not
`'Error parsing polynomial'`; and when the fast formatter throws, the status
is taken from what it threw and no build is re-run. -/
theorem displayPolynomials_line_status_counterexample :
    (displayPolynomials.renderLine buildThrowsSilently "Q" "x?" MockState.initial).1 =
      .ok ⟨"polynomial-item error", "x?", " ❌ Unknown parsing error"⟩ ∧
    (displayPolynomials.renderLine buildThrowsSilently "Q" "x?" MockState.initial).2.2 =
      [Event.inputStringToBetterString .Rational "x?" (.ok "Error parsing polynomial"),
        Event.StringVector (.ok 0), Event.push_back 0 "x?" (.ok ()),
        Event.buildSystemFromStrings .Rational 0 (.threw (.value none ""))] ∧
    (displayPolynomials.renderLine formatterThrows "Q" "x" MockState.initial).1 =
      .ok ⟨"polynomial-item error", "x", " ❌ boom"⟩ ∧
    (displayPolynomials.renderLine formatterThrows "Q" "x" MockState.initial).2.2 =
      [Event.inputStringToBetterString .Rational "x" (.threw boom)] := by
  exact ⟨by decide, rfl, by decide, rfl⟩

/-! ## Lines of the input text -/

/-- Trimming is removing white space at the end, then at the start. -/
theorem trimChars_eq (text : List Char) :
    trimChars text = (text.rdropWhile isStrWhiteSpace).dropWhile isStrWhiteSpace := rfl

/-- A white-space character at the end is trimmed away. -/
theorem trimChars_concat (text : List Char) (c : Char) (hc : isStrWhiteSpace c = true) :
    trimChars (text ++ [c]) = trimChars text := by
  rw [trimChars_eq, trimChars_eq, List.rdropWhile_concat_pos _ _ _ hc]

/-- A white-space character at the start is trimmed away. -/
theorem trimChars_cons (c : Char) (text : List Char) (hc : isStrWhiteSpace c = true) :
    trimChars (c :: text) = trimChars text := by
  induction text using List.reverseRecOn with
  | nil =>
    have h : trimChars ([] ++ [c]) = trimChars [] := trimChars_concat [] c hc
    simpa using h
  | append_singleton q x ih =>
    by_cases hx : isStrWhiteSpace x = true
    · have h1 : trimChars ((c :: q) ++ [x]) = trimChars (c :: q) := trimChars_concat _ x hx
      rw [List.cons_append] at h1
      rw [h1, ih, trimChars_concat q x hx]
    · have h1 : ((c :: q) ++ [x]).rdropWhile isStrWhiteSpace = (c :: q) ++ [x] :=
        List.rdropWhile_concat_neg _ _ _ hx
      rw [List.cons_append] at h1
      rw [trimChars_eq, trimChars_eq, h1, List.rdropWhile_concat_neg _ _ _ hx,
        List.dropWhile_cons, if_pos hc]

/-- A text of white space trims to the empty text. -/
theorem trimChars_of_all (text : List Char) (h : ∀ c ∈ text, isStrWhiteSpace c = true) :
    trimChars text = [] := by
  rw [trimChars_eq, List.rdropWhile_eq_nil_iff.mpr h]
  rfl

/-- A text that trims to the empty text is white space. -/
theorem all_of_trimChars (text : List Char) (h : trimChars text = []) :
    ∀ c ∈ text, isStrWhiteSpace c = true := by
  induction text using List.reverseRecOn with
  | nil => simp
  | append_singleton q x ih =>
    by_cases hx : isStrWhiteSpace x = true
    · rw [trimChars_concat q x hx] at h
      intro c hc
      rcases List.mem_append.mp hc with hc | hc
      · exact ih h c hc
      · rw [List.mem_singleton.mp hc]; exact hx
    · rw [trimChars_eq, List.rdropWhile_concat_neg _ _ _ hx, List.dropWhile_eq_nil_iff] at h
      exact absurd (h x (by simp)) hx

/-- A trimmed text that is not empty starts and ends with a character that is
no white space. -/
theorem trimChars_ends (text : List Char) (h : trimChars text ≠ []) :
    isStrWhiteSpace ((trimChars text).head h) = false ∧
      isStrWhiteSpace ((trimChars text).getLast h) = false := by
  constructor
  · exact List.head_dropWhile_not isStrWhiteSpace _ h
  · have hs : trimChars text <:+ text.rdropWhile isStrWhiteSpace :=
      List.dropWhile_suffix isStrWhiteSpace
    have hne : text.rdropWhile isStrWhiteSpace ≠ [] := by
      intro h0
      rw [trimChars_eq, h0] at h
      exact h rfl
    rw [hs.getLast h]
    simpa using List.rdropWhile_last_not isStrWhiteSpace text hne

/-- Splitting yields at least one piece. -/
theorem splitChars_ne_nil (separator : Char) (text : List Char) :
    splitChars separator text ≠ [] := by
  cases text with
  | nil => simp [splitChars]
  | cons c rest =>
    unfold splitChars
    split
    · simp
    · split <;> simp

/-- Every character of a piece is a character of the text. -/
theorem mem_of_mem_splitChars (separator : Char) (text : List Char) :
    ∀ piece ∈ splitChars separator text, ∀ c ∈ piece, c ∈ text := by
  induction text with
  | nil =>
    intro piece hp c hc
    simp [splitChars] at hp
    rw [hp] at hc
    exact hc
  | cons d rest ih =>
    intro piece hp c hc
    unfold splitChars at hp
    split at hp
    · rcases List.mem_cons.mp hp with rfl | hp
      · simp at hc
      · exact List.mem_cons_of_mem _ (ih piece hp c hc)
    · rcases hs : splitChars separator rest with _ | ⟨p, ps⟩
      · exact absurd hs (splitChars_ne_nil separator rest)
      · rw [hs] at hp ih
        rcases List.mem_cons.mp hp with rfl | hp
        · rcases List.mem_cons.mp hc with rfl | hc
          · exact List.mem_cons_self _ _
          · exact List.mem_cons_of_mem _ (ih p (List.mem_cons_self _ _) c hc)
        · exact List.mem_cons_of_mem _ (ih piece (List.mem_cons_of_mem _ hp) c hc)

/-- A white-space character at the start of the text adds no line. -/
theorem nonBlankPieces_cons (c : Char) (text : List Char) (hc : isStrWhiteSpace c = true) :
    nonBlankPieces (c :: text) = nonBlankPieces text := by
  unfold nonBlankPieces
  rw [splitChars]
  split
  · simp [trimChars_eq]
  · rcases hs : splitChars '\n' text with _ | ⟨p, ps⟩
    · exact absurd hs (splitChars_ne_nil _ text)
    · simp only [List.map_cons, trimChars_cons c p hc]

/-- White space at the start of the text adds no line. -/
theorem nonBlankPieces_dropWhile (text : List Char) :
    nonBlankPieces (text.dropWhile isStrWhiteSpace) = nonBlankPieces text := by
  induction text with
  | nil => rfl
  | cons c rest ih =>
    rw [List.dropWhile_cons]
    split
    · next hc => rw [ih, nonBlankPieces_cons c rest hc]
    · rfl

/-- A white-space character appended to the text extends the first piece or
leaves it, and changes the later pieces only by white space. -/
theorem splitChars_concat (text : List Char) (x : Char) (hx : isStrWhiteSpace x = true) :
    ∃ p0 ps0 p1 ps1, splitChars '\n' text = p0 :: ps0 ∧ splitChars '\n' (text ++ [x]) = p1 :: ps1 ∧
      (p1 = p0 ∨ p1 = p0 ++ [x]) ∧
      (ps1.map trimChars).filter (fun line => line ≠ []) =
        (ps0.map trimChars).filter (fun line => line ≠ []) := by
  induction text with
  | nil =>
    by_cases hn : x = '\n'
    · exact ⟨[], [], [], [[]], rfl, by simp [splitChars, hn], Or.inl rfl, by simp [trimChars_eq]⟩
    · exact ⟨[], [], [x], [], rfl, by simp [splitChars, hn], Or.inr rfl, rfl⟩
  | cons c rest ih =>
    obtain ⟨p0, ps0, p1, ps1, h0, h1, hp, hps⟩ := ih
    have ht : trimChars p1 = trimChars p0 := by
      rcases hp with rfl | rfl
      · rfl
      · exact trimChars_concat p0 x hx
    by_cases hn : c = '\n'
    · refine ⟨[], p0 :: ps0, [], p1 :: ps1, by simp [splitChars, hn, h0], by
        simp [splitChars, hn, h1], Or.inl rfl, ?_⟩
      simp only [List.map_cons, ht, List.filter_cons, hps]
    · refine ⟨c :: p0, ps0, c :: p1, ps1, by simp [splitChars, hn, h0], by
        simp [splitChars, hn, h1], ?_, hps⟩
      rcases hp with rfl | rfl
      · exact Or.inl rfl
      · exact Or.inr rfl

/-- A white-space character at the end of the text adds no line. -/
theorem nonBlankPieces_concat (text : List Char) (x : Char) (hx : isStrWhiteSpace x = true) :
    nonBlankPieces (text ++ [x]) = nonBlankPieces text := by
  obtain ⟨p0, ps0, p1, ps1, h0, h1, hp, hps⟩ := splitChars_concat text x hx
  have ht : trimChars p1 = trimChars p0 := by
    rcases hp with rfl | rfl
    · rfl
    · exact trimChars_concat p0 x hx
  unfold nonBlankPieces
  rw [h0, h1]
  simp only [List.map_cons, ht, List.filter_cons, hps]

/-- White space at the end of the text adds no line. -/
theorem nonBlankPieces_rdropWhile (text : List Char) :
    nonBlankPieces (text.rdropWhile isStrWhiteSpace) = nonBlankPieces text := by
  induction text using List.reverseRecOn with
  | nil => rfl
  | append_singleton q x ih =>
    by_cases hx : isStrWhiteSpace x = true
    · rw [List.rdropWhile_concat_pos _ _ _ hx, ih, nonBlankPieces_concat q x hx]
    · rw [List.rdropWhile_concat_neg _ _ _ hx]

/-- Trimming the text first does not change its lines. -/
theorem nonBlankPieces_trimChars (text : List Char) :
    nonBlankPieces (trimChars text) = nonBlankPieces text := by
  rw [trimChars_eq, nonBlankPieces_dropWhile, nonBlankPieces_rdropWhile]

/-- A text of white space has no line. -/
theorem nonBlankPieces_of_all (text : List Char) (h : ∀ c ∈ text, isStrWhiteSpace c = true) :
    nonBlankPieces text = [] := by
  unfold nonBlankPieces
  rw [List.filter_eq_nil_iff]
  intro line hl
  obtain ⟨piece, hp, rfl⟩ := List.mem_map.mp hl
  have : trimChars piece = [] :=
    trimChars_of_all piece (fun c hc => h c (mem_of_mem_splitChars _ text piece hp c hc))
  simp [this]

/-- The loop of `parsePolynomials` keeps the trimmed lines that are not empty. -/
theorem parsePolynomials.keep_eq (lines : List (List Char)) :
    parsePolynomials.keep lines =
      ((lines.map trimChars).filter (fun line => line ≠ [])).map String.mk := by
  induction lines with
  | nil => rfl
  | cons line rest ih =>
    unfold parsePolynomials.keep
    by_cases h : trimChars line = []
    · simp [h, ih]
    · simp [h, ih]

/-- The stored list holds the lines of the text. -/
theorem parsePolynomials.stored_eq (value : String) :
    parsePolynomials.stored value = nonBlankLines value := by
  unfold parsePolynomials.stored nonBlankLines jsTrim
  by_cases h : trimChars value.toList = []
  · have h0 : nonBlankPieces value.toList = [] :=
      nonBlankPieces_of_all _ (all_of_trimChars _ h)
    have he : String.mk (trimChars value.toList) = "" := by rw [h]
    rw [if_pos he, h0]
    rfl
  · have hne : String.mk (trimChars value.toList) ≠ "" := by
      intro h1
      exact h (congrArg String.toList h1)
    rw [if_neg hne, parsePolynomials.keep_eq]
    show (nonBlankPieces (trimChars value.toList)).map String.mk = _
    rw [nonBlankPieces_trimChars]

/-! ## C12: the list `parsePolynomials` stores -/

/-- C12: for every input text, the list `parsePolynomials` stores is exactly
the lines of the text (the text split on line feeds), each trimmed, with the
lines that are blank after trimming removed, in their original order; every
stored element is non-empty and neither starts nor ends with a white-space
character; and for every input with zero non-blank lines the stored list is
empty, the placeholder message is displayed, and no engine call occurs. -/
theorem parsePolynomials_stored {σ : Type} (E : Engine σ) (fieldRadio : Option String)
    (primeValue value : String) (s : σ) :
    parsePolynomials.stored value = nonBlankLines value ∧
    (∀ line ∈ parsePolynomials.stored value, line ≠ "" ∧
      (∀ c, line.toList.head? = some c → isStrWhiteSpace c = false) ∧
      (∀ c, line.toList.getLast? = some c → isStrWhiteSpace c = false)) ∧
    (nonBlankLines value = [] →
      parsePolynomials.stored value = [] ∧
      parsePolynomials E fieldRadio primeValue value s = (.ok placeholder, s, [])) := by
  have heq := parsePolynomials.stored_eq value
  refine ⟨heq, ?_, ?_⟩
  · intro line hl
    rw [heq] at hl
    obtain ⟨trimmed, ht, rfl⟩ := List.mem_map.mp hl
    have hne : trimmed ≠ [] := by
      have := (List.mem_filter.mp ht).2
      simpa using this
    obtain ⟨piece, _, rfl⟩ := List.mem_map.mp (List.mem_filter.mp ht).1
    obtain ⟨h1, h2⟩ := trimChars_ends piece hne
    refine ⟨?_, ?_, ?_⟩
    · intro h
      exact hne (congrArg String.toList h)
    · intro c hc
      have hc' : (trimChars piece).head? = some c := hc
      rw [List.head?_eq_head hne] at hc'
      rw [← Option.some.inj hc']
      exact h1
    · intro c hc
      have hc' : (trimChars piece).getLast? = some c := hc
      rw [List.getLast?_eq_getLast _ hne] at hc'
      rw [← Option.some.inj hc']
      exact h2
  · intro hnone
    have hs : parsePolynomials.stored value = [] := heq.trans hnone
    refine ⟨hs, ?_⟩
    unfold parsePolynomials
    split
    · rfl
    · rw [hs]
      rfl

/-- C12 at concrete texts: two lines among blank ones are stored trimmed and in
order; a text of blank lines shows the placeholder and calls nothing. -/
theorem parsePolynomials_stored_witness :
    parsePolynomials.stored "  x+y \n\n \t x-y\r\n  " = ["x+y", "x-y"] ∧
    parsePolynomials mockEngine (some "Q") "" " \n \t\n" MockState.initial =
      (.ok placeholder, MockState.initial, []) :=
  ⟨(parsePolynomials_stored mockEngine (some "Q") "" "  x+y \n\n \t x-y\r\n  "
      MockState.initial).1.trans (by decide),
    ((parsePolynomials_stored mockEngine (some "Q") "" " \n \t\n" MockState.initial).2.2
      (by decide)).2⟩

end PolynomialSolver
